import Mathlib

/-!
# Ray tracer: triangle intersection, shadow rays and the shading integrator

A shallow embedding of `triangle.h`, `camera.h`, `rt.h` and `main.cpp`.

Numbers.  The C++ `double` is read as an element of a linearly ordered field
`K` with exact arithmetic: rounding, overflow and NaN are not represented,
and a quotient by zero is the field's `x / 0 = 0`.  The concrete evaluations
are over `ℚ`, with `Rat.sqrt` (exact on the squares they use), and over `ℝ`
where an exact square root of every non-negative number is needed.  The
square root used by `vec3::length` is not a field operation, so it is a
parameter `sqrt : K → K`; each theorem states what it needs of it.  The
bounds of an `interval` may be infinite (`camera::ray_color` passes
`infinity`), so they live in `ext K`.  The random generator is a state of an
arbitrary type `G` that is threaded through the calls that draw from it.

Rounding and NaN.  The exact reading is not faithful where the answer of the
program turns on a rounding error or on a NaN, and two further readings
cover those places.  `dbl` is IEEE 754 binary64 itself, and `triangle.h` is
translated a second time over it (`ieee.triangle_hit`): the guard
`std::fabs(det) < 1e-8` tests a rounded determinant, so what `hit` accepts
near a degenerate configuration can only be seen there.  The theorems about
`triangle.hit` over `K` say what the method computes in exact arithmetic;
those about `ieee.triangle_hit` say what the program does.
`ray_color_checked` is `ray_color` over `K` with the one quotient by zero
that reaches its result, the normalisation of a zero direction, followed as
C++ has it.

Integers.  An `int` is an `Int`; an `int` operation whose result does not
fit 32 bits (signed overflow, or a conversion from `double` out of range) is
undefined in C++ and returns `none` here.

Headers that are included by the sources but are not part of the sources at
hand (`vec_3.h`, `ray.h`, `interval.h`, `hittable.h`, `material.h`) are
modelled from the specification; each such definition says so.
-/

namespace Raytracer

/-! ## Linear algebra (`vec_3.h`) -/

/-- Modelled from the spec: `vec_3.h` is not among the sources.  A point, a
direction or a colour: three `double` components. -/
structure vec3 (K : Type) where
  x : K
  y : K
  z : K
deriving DecidableEq, Repr

namespace vec3

variable {K : Type} [LinearOrderedField K]

/-- Modelled from the spec: `vec_3.h`, `operator+`. -/
def add (a b : vec3 K) : vec3 K := ⟨a.x + b.x, a.y + b.y, a.z + b.z⟩

/-- Modelled from the spec: `vec_3.h`, binary `operator-`. -/
def sub (a b : vec3 K) : vec3 K := ⟨a.x - b.x, a.y - b.y, a.z - b.z⟩

/-- Modelled from the spec: `vec_3.h`, unary `operator-`. -/
def neg (a : vec3 K) : vec3 K := ⟨-a.x, -a.y, -a.z⟩

/-- Modelled from the spec: `vec_3.h`, `operator*(double, vec3)` and
`operator*(vec3, double)`. -/
def smul (t : K) (a : vec3 K) : vec3 K := ⟨t * a.x, t * a.y, t * a.z⟩

/-- Modelled from the spec: `vec_3.h`, `operator*(vec3, vec3)`, the
component-wise product used for `attenuation * colour`. -/
def mul (a b : vec3 K) : vec3 K := ⟨a.x * b.x, a.y * b.y, a.z * b.z⟩

/-- Modelled from the spec: `vec_3.h`, `operator/(vec3, double)`, which is
`(1/t) * v`. -/
def div (a : vec3 K) (t : K) : vec3 K := smul (1 / t) a

/-- Modelled from the spec: `vec_3.h`, `dot`. -/
def dot (a b : vec3 K) : K := a.x * b.x + a.y * b.y + a.z * b.z

/-- Modelled from the spec: `vec_3.h`, `cross`. -/
def cross (a b : vec3 K) : vec3 K :=
  ⟨a.y * b.z - a.z * b.y, a.z * b.x - a.x * b.z, a.x * b.y - a.y * b.x⟩

/-- Modelled from the spec: `vec_3.h`, `vec3::length_squared`. -/
def length_squared (a : vec3 K) : K := a.x * a.x + a.y * a.y + a.z * a.z

/-- Modelled from the spec: `vec_3.h`, `vec3::length`, the square root of
`length_squared`. -/
def length (sqrt : K → K) (a : vec3 K) : K := sqrt (length_squared a)

/-- Modelled from the spec: `vec_3.h`, `unit_vector(v) = v / v.length()`. -/
def unit_vector (sqrt : K → K) (a : vec3 K) : vec3 K := div a (length sqrt a)

/-- The colour `color(0,0,0)`. -/
def zero : vec3 K := ⟨0, 0, 0⟩

end vec3

/-! ## Rays, intervals, hit records (`ray.h`, `interval.h`, `hittable.h`) -/

/-- Modelled from the spec: `ray.h`.  A ray is an origin and a direction. -/
structure ray (K : Type) where
  orig : vec3 K
  dir : vec3 K
deriving DecidableEq, Repr

/-- Modelled from the spec: `ray::at`, `P(t) = origin + t * direction`. -/
def ray.at {K : Type} [LinearOrderedField K] (r : ray K) (t : K) : vec3 K :=
  vec3.add r.orig (vec3.smul t r.dir)

/-- A `double` that may be infinite: the bounds of an interval. -/
inductive ext (K : Type) where
  | ninf : ext K
  | fin : K → ext K
  | pinf : ext K
deriving DecidableEq, Repr

/-- The comparison `a < b` of two possibly infinite bounds. -/
def ext.lt {K : Type} [LinearOrderedField K] : ext K → ext K → Bool
  | ext.ninf, ext.ninf => false
  | ext.ninf, _ => true
  | ext.fin _, ext.ninf => false
  | ext.fin a, ext.fin b => decide (a < b)
  | ext.fin _, ext.pinf => true
  | ext.pinf, _ => false

/-- Modelled from the spec: `interval.h`.  A scalar range with bounds `min`
and `max`. -/
structure interval (K : Type) where
  min : ext K
  max : ext K
deriving DecidableEq, Repr

/-- Modelled from the spec: `interval::surrounds`, the open test
`min < x && x < max`. -/
def interval.surrounds {K : Type} [LinearOrderedField K] (i : interval K) (x : K) : Bool :=
  ext.lt i.min (ext.fin x) && ext.lt (ext.fin x) i.max

/-- Modelled from the spec: `hittable.h`, `hit_record`: hit point, normal,
material reference, ray parameter and the front-face flag.  `M` is the type
of material references. -/
structure hit_record (K M : Type) where
  p : vec3 K
  normal : vec3 K
  mat : M
  t : K
  front_face : Bool
deriving DecidableEq, Repr

/-- Modelled from the spec: `hit_record::set_face_normal`: the normal is
flipped to oppose the incoming ray, and the record keeps whether the ray hit
the front face.  Returns the pair `(front_face, normal)`. -/
def set_face_normal {K : Type} [LinearOrderedField K] (r : ray K) (outward_normal : vec3 K) :
    Bool × vec3 K :=
  let front_face := decide (vec3.dot r.dir outward_normal < 0)
  (front_face, if front_face then outward_normal else vec3.neg outward_normal)

/-- Modelled from the spec: `hittable.h`, the interface `hittable::hit`: a
query with a ray and an interval answers with a record or with no hit. -/
abbrev hittable (K M : Type) := ray K → interval K → Option (hit_record K M)

/-! ## `triangle.h` -/

/-- The class `triangle`: three vertices, the flat normal `n` and the
material. -/
structure triangle (K M : Type) where
  v0 : vec3 K
  v1 : vec3 K
  v2 : vec3 K
  n : vec3 K
  mat : M
deriving DecidableEq, Repr

namespace triangle

variable {K M : Type} [LinearOrderedField K]

/-- The constructor `triangle(a, b, c, m)`: stores the vertices and
`n = unit_vector(cross(v1 - v0, v2 - v0))`. -/
def new (sqrt : K → K) (a b c : vec3 K) (m : M) : triangle K M :=
  { v0 := a, v1 := b, v2 := c,
    n := vec3.unit_vector sqrt (vec3.cross (vec3.sub b a) (vec3.sub c a)),
    mat := m }

/-- The local `det` of `triangle::hit`. -/
def det (T : triangle K M) (r : ray K) : K :=
  vec3.dot (vec3.sub T.v1 T.v0) (vec3.cross r.dir (vec3.sub T.v2 T.v0))

/-- The local `u` of `triangle::hit`. -/
def bary_u (T : triangle K M) (r : ray K) : K :=
  vec3.dot (vec3.sub r.orig T.v0) (vec3.cross r.dir (vec3.sub T.v2 T.v0)) * (1 / det T r)

/-- The local `v` of `triangle::hit`. -/
def bary_v (T : triangle K M) (r : ray K) : K :=
  vec3.dot r.dir (vec3.cross (vec3.sub r.orig T.v0) (vec3.sub T.v1 T.v0)) * (1 / det T r)

/-- The local `t` of `triangle::hit`. -/
def param_t (T : triangle K M) (r : ray K) : K :=
  vec3.dot (vec3.sub T.v2 T.v0) (vec3.cross (vec3.sub r.orig T.v0) (vec3.sub T.v1 T.v0))
    * (1 / det T r)

/-- The method `triangle::hit` (Möller–Trumbore).  `none` is `return false`;
`some rec` is `return true` with the record filled in. -/
def hit (T : triangle K M) (r : ray K) (ray_t : interval K) : Option (hit_record K M) :=
  let e1 := vec3.sub T.v1 T.v0
  let e2 := vec3.sub T.v2 T.v0
  let p := vec3.cross r.dir e2
  let det := vec3.dot e1 p
  if |det| < 1 / 100000000 then none
  else
    let invDet := 1 / det
    let tvec := vec3.sub r.orig T.v0
    let u := vec3.dot tvec p * invDet
    if u < 0 ∨ u > 1 then none
    else
      let q := vec3.cross tvec e1
      let v := vec3.dot r.dir q * invDet
      if v < 0 ∨ u + v > 1 then none
      else
        let t := vec3.dot e2 q * invDet
        if ¬ ray_t.surrounds t then none
        else
          let fn := set_face_normal r T.n
          some { t := t, p := r.at t, mat := T.mat, normal := fn.2, front_face := fn.1 }

end triangle

/-! ## `camera.h` -/

/-- Modelled from the spec: `material.h`, the interface `material`:
`emitted()` and `scatter(r_in, rec, attenuation, scattered)`.  A material is
reached through its reference `m : M`; `scatter` may draw random numbers, so
it takes and returns the generator state `G`; `none` is `return false`, and
`some (attenuation, scattered)` is `return true` with both outputs set. -/
structure material (K M G : Type) where
  emitted : M → vec3 K
  scatter : M → ray K → hit_record K M → G → Option (vec3 K × ray K) × G

/-- The public configuration fields of the class `camera`. -/
structure camera (K : Type) where
  aspect_ratio : K
  image_width : Int
  samples_per_pixel : Int
  max_depth : Int
  vfov : K
  lookfrom : vec3 K
  lookat : vec3 K
  vup : vec3 K
  defocus_angle : K
  focus_dist : K
  enable_direct_lighting : Bool
  light_pos : vec3 K
  light_intensity : vec3 K
  soft_shadow_samples : Int
  light_radius : K

/-- The default member initialisers of the class `camera`. -/
def camera.default {K : Type} [LinearOrderedField K] : camera K :=
  { aspect_ratio := 1, image_width := 100, samples_per_pixel := 10, max_depth := 10,
    vfov := 90, lookfrom := ⟨0, 0, 0⟩, lookat := ⟨0, 0, -1⟩, vup := ⟨0, 1, 0⟩,
    defocus_angle := 0, focus_dist := 10,
    enable_direct_lighting := false, light_pos := ⟨5, 5, -2⟩, light_intensity := ⟨7, 7, 7⟩,
    soft_shadow_samples := 1, light_radius := 0 }

section camera_defs

variable {K M G : Type} [LinearOrderedField K]

/-- The conversion `int(x)` of a `double`: truncation toward zero.  The
result is undefined when the truncated value does not fit a 32-bit `int`;
this is `none`. -/
def double_to_int [FloorRing K] (x : K) : Option Int :=
  let t : Int := if 0 ≤ x then ⌊x⌋ else ⌈x⌉
  if -2147483648 ≤ t ∧ t ≤ 2147483647 then some t else none

/-- The first two statements of `camera::initialize`: the value left in
`image_height`. -/
def initialize_image_height [FloorRing K] (image_width : Int) (aspect_ratio : K) : Option Int :=
  match double_to_int ((image_width : K) / aspect_ratio) with
  | none => none
  | some image_height => some (if image_height < 1 then 1 else image_height)

/-- The method `camera::visible_to_light`. -/
def visible_to_light (sqrt : K → K) (p L : vec3 K) (world : hittable K M) : Bool :=
  let toL := vec3.sub L p
  let dist := vec3.length sqrt toL
  let shadow_ray : ray K :=
    ⟨vec3.add p (vec3.smul (1 / 10000) (vec3.unit_vector sqrt toL)), toL⟩
  !(world shadow_ray ⟨ext.fin 0, ext.fin (dist - 1 / 10000)⟩).isSome

/-- The method `camera::sample_on_light`.  `random_in_unit_disk` belongs to
`vec_3.h` and is a parameter. -/
def sample_on_light (random_in_unit_disk : G → vec3 K × G) (C : vec3 K) (R : K) (g : G) :
    vec3 K × G :=
  if R ≤ 0 then (C, g)
  else
    let d := random_in_unit_disk g
    (⟨C.x + R * d.1.x, C.y, C.z + R * d.1.y⟩, d.2)

/-- The `for` loop of `camera::direct_light_sampled`: the first argument is
the number of iterations still to run, `sum` the accumulator. -/
def direct_light_loop (sqrt : K → K) (random_in_unit_disk : G → vec3 K × G)
    (rec : hit_record K M) (world : hittable K M) (C : vec3 K) (R : K) (Li : vec3 K) :
    Nat → vec3 K → G → vec3 K × G
  | 0, sum, g => (sum, g)
  | k + 1, sum, g =>
    let Ls := sample_on_light random_in_unit_disk C R g
    let Ldir := vec3.unit_vector sqrt (vec3.sub Ls.1 rec.p)
    let ndotl := max 0 (vec3.dot rec.normal Ldir)
    if ndotl ≤ 0 then
      direct_light_loop sqrt random_in_unit_disk rec world C R Li k sum Ls.2
    else if visible_to_light sqrt rec.p Ls.1 world then
      let dist2 := vec3.length_squared (vec3.sub Ls.1 rec.p)
      direct_light_loop sqrt random_in_unit_disk rec world C R Li k
        (vec3.add sum (vec3.smul (ndotl / dist2) Li)) Ls.2
    else
      direct_light_loop sqrt random_in_unit_disk rec world C R Li k sum Ls.2

/-- The method `camera::direct_light_sampled`. -/
def direct_light_sampled (cam : camera K) (sqrt : K → K)
    (random_in_unit_disk : G → vec3 K × G)
    (rec : hit_record K M) (world : hittable K M) (C : vec3 K) (R : K) (Li : vec3 K)
    (shadow_samples : Int) (g : G) : vec3 K × G :=
  if !cam.enable_direct_lighting then (vec3.zero, g)
  else
    let n : Int := max 1 shadow_samples
    let res := direct_light_loop sqrt random_in_unit_disk rec world C R Li n.toNat vec3.zero g
    (vec3.div res.1 (n : K), res.2)

/-- The method `camera::ray_color`.  The generator state is threaded in the
order the calls are made: direct light, then `scatter`, then the recursive
call. -/
def ray_color (cam : camera K) (sqrt : K → K) (random_in_unit_disk : G → vec3 K × G)
    (mats : material K M G) (world : hittable K M) (r : ray K) (depth : Int) (g : G) :
    vec3 K × G :=
  if depth ≤ 0 then (vec3.zero, g)
  else
    match world r ⟨ext.fin (1 / 1000), ext.pinf⟩ with
    | some rec =>
      let out := mats.emitted rec.mat
      let Ld :=
        if cam.enable_direct_lighting then
          direct_light_sampled cam sqrt random_in_unit_disk rec world cam.light_pos
            cam.light_radius cam.light_intensity cam.soft_shadow_samples g
        else (vec3.zero, g)
      let sc := mats.scatter rec.mat r rec Ld.2
      match sc.1 with
      | some (attenuation, scattered) =>
        let rc := ray_color cam sqrt random_in_unit_disk mats world scattered (depth - 1) sc.2
        (vec3.add (vec3.add out (vec3.mul attenuation rc.1)) (vec3.mul attenuation Ld.1), rc.2)
      | none => (vec3.add out Ld.1, sc.2)
    | none =>
      let unit_direction := vec3.unit_vector sqrt r.dir
      let a := (1 / 2) * (unit_direction.y + 1)
      (vec3.add (vec3.smul (1 - a) ⟨1, 1, 1⟩) (vec3.smul a ⟨1 / 2, 7 / 10, 1⟩), g)
termination_by depth.toNat
decreasing_by omega

end camera_defs

/-! ## Notions of the specification and concrete data -/

/-- The centroid `(v0 + v1 + v2) / 3` of a triangle. -/
def triangle.centroid {K M : Type} [LinearOrderedField K] (T : triangle K M) : vec3 K :=
  vec3.div (vec3.add (vec3.add T.v0 T.v1) T.v2) 3

/-- The point `v0 + a * (v1 - v0) + b * (v2 - v0)` of the plane of a
triangle. -/
def triangle.plane_point {K M : Type} [LinearOrderedField K] (T : triangle K M) (a b : K) :
    vec3 K :=
  vec3.add (vec3.add T.v0 (vec3.smul a (vec3.sub T.v1 T.v0)))
    (vec3.smul b (vec3.sub T.v2 T.v0))

/-- The triangle `(0,0,0), (1,0,0), (0,1,0)` with material `0`, over `ℚ`. -/
def unit_triangle : triangle ℚ Nat :=
  triangle.new Rat.sqrt ⟨0, 0, 0⟩ ⟨1, 0, 0⟩ ⟨0, 1, 0⟩ 0

/-- The ray from `(1/3, 1/3, 1)` straight down: it is aimed at the centroid
of `unit_triangle`. -/
def centroid_ray : ray ℚ := ⟨⟨1 / 3, 1 / 3, 1⟩, ⟨0, 0, -1⟩⟩

/-- The ray from `(2, 2, 1)` straight down: it meets the plane of
`unit_triangle` at `(2, 2, 0)`, outside the triangle. -/
def outside_ray : ray ℚ := ⟨⟨2, 2, 1⟩, ⟨0, 0, -1⟩⟩

/-- The record `unit_triangle` returns for `centroid_ray`. -/
def centroid_rec : hit_record ℚ Nat :=
  { p := ⟨1 / 3, 1 / 3, 0⟩, normal := ⟨0, 0, 1⟩, mat := 0, t := 1, front_face := true }

/-- The triangle of `unit_triangle` with the other winding:
`(0,0,0), (0,1,0), (1,0,0)`. -/
def unit_triangle_rev : triangle ℚ Nat :=
  triangle.new Rat.sqrt ⟨0, 0, 0⟩ ⟨0, 1, 0⟩ ⟨1, 0, 0⟩ 0

/-- The record `unit_triangle_rev` returns for `centroid_ray`: the ray meets
the back face. -/
def centroid_rec_rev : hit_record ℚ Nat :=
  { p := ⟨1 / 3, 1 / 3, 0⟩, normal := ⟨0, 0, 1⟩, mat := 0, t := 1, front_face := false }

/-- Every channel of a colour is `>= 0`. -/
def vec3.nonneg {K : Type} [LinearOrderedField K] (c : vec3 K) : Prop :=
  0 ≤ c.x ∧ 0 ≤ c.y ∧ 0 ≤ c.z

/-- Every channel of a colour is `> 0`. -/
def vec3.pos {K : Type} [LinearOrderedField K] (c : vec3 K) : Prop :=
  0 < c.x ∧ 0 < c.y ∧ 0 < c.z

/-- Two materials for the evaluations: reference `1` is a light (emits
`(4,4,4)`, does not scatter); every other reference is a grey surface that
does not emit and scatters along the normal with attenuation
`(1/2,1/2,1/2)`, advancing the generator state. -/
def example_materials (K : Type) [LinearOrderedField K] : material K Nat Nat where
  emitted m := if m = 1 then ⟨4, 4, 4⟩ else ⟨0, 0, 0⟩
  scatter m _ rec g :=
    if m = 1 then (none, g) else (some (⟨1 / 2, 1 / 2, 1 / 2⟩, ⟨rec.p, rec.normal⟩), g + 1)

/-- A stand-in for `random_in_unit_disk` in the evaluations, which use a
point light and never call it. -/
def no_disk (K : Type) [LinearOrderedField K] : Nat → vec3 K × Nat := fun g => (⟨0, 0, 0⟩, g)

/-- The triangle of `unit_triangle` with the light material `1`. -/
def light_triangle : triangle ℚ Nat :=
  triangle.new Rat.sqrt ⟨0, 0, 0⟩ ⟨1, 0, 0⟩ ⟨0, 1, 0⟩ 1

/-- The record `light_triangle` returns for `centroid_ray`. -/
def light_rec : hit_record ℚ Nat :=
  { p := ⟨1 / 3, 1 / 3, 0⟩, normal := ⟨0, 0, 1⟩, mat := 1, t := 1, front_face := true }

/-- A triangle in the plane `z = 1/20000` around the `z` axis. -/
def bias_triangle : triangle ℚ Nat :=
  triangle.new Rat.sqrt ⟨-1, -1, 1 / 20000⟩ ⟨1, -1, 1 / 20000⟩ ⟨0, 1, 1 / 20000⟩ 0

/-- A triangle in the plane `z = 3` around the `z` axis. -/
def far_triangle : triangle ℚ Nat :=
  triangle.new Rat.sqrt ⟨-1, -1, 3⟩ ⟨1, -1, 3⟩ ⟨0, 1, 3⟩ 0

/-- A surface point at the origin whose normal is `(0,0,1)`. -/
def floor_rec : hit_record ℚ Nat :=
  { p := ⟨0, 0, 0⟩, normal := ⟨0, 0, 1⟩, mat := 0, t := 1, front_face := true }

/-- The default camera with direct lighting switched on and the light at
`(0,0,1)`. -/
def lit_camera : camera ℚ :=
  { (camera.default : camera ℚ) with enable_direct_lighting := true, light_pos := ⟨0, 0, 1⟩ }

/-- A triangle in the plane `z = 1/2` around the `z` axis. -/
def mid_triangle : triangle ℚ Nat :=
  triangle.new Rat.sqrt ⟨-1, -1, 1 / 2⟩ ⟨1, -1, 1 / 2⟩ ⟨0, 1, 1 / 2⟩ 0

/-! ## Degenerate configurations of a triangle -/

/-- The vertices are collinear or coincide: `v1 = v0`, or `v2 - v0` is a
multiple of `v1 - v0`. -/
def triangle.collinear {K M : Type} [LinearOrderedField K] (T : triangle K M) : Prop :=
  T.v1 = T.v0 ∨ ∃ s : K, vec3.sub T.v2 T.v0 = vec3.smul s (vec3.sub T.v1 T.v0)

/-- The direction of the ray lies in the plane spanned by the two edges
`v1 - v0` and `v2 - v0`. -/
def triangle.parallel_to_plane {K M : Type} [LinearOrderedField K] (T : triangle K M)
    (r : ray K) : Prop :=
  ∃ a b : K, r.dir = vec3.add (vec3.smul a (vec3.sub T.v1 T.v0)) (vec3.smul b (vec3.sub T.v2 T.v0))

/-! ## The work-list form of `ray_color` -/

/-- The background gradient of `ray_color` for a ray that misses the scene,
as a function of the ray. -/
def background {K : Type} [LinearOrderedField K] (sqrt : K → K) (r : ray K) : vec3 K :=
  let unit_direction := vec3.unit_vector sqrt r.dir
  let a := (1 / 2) * (unit_direction.y + 1)
  vec3.add (vec3.smul (1 - a) ⟨1, 1, 1⟩) (vec3.smul a ⟨1 / 2, 7 / 10, 1⟩)

/-- The iterative work-list form of `ray_color`, written from the words of
the specification, not from the source: a running throughput `T` and an
accumulator `acc`.  At `depth <= 0` stop.  On a hit add `T * emitted`; if the
material scatters add `T * attenuation * Ld`, set `T := T * attenuation` and
continue with the scattered ray at `depth - 1`; else add `T * Ld` and stop.
On a miss add `T * background` and stop. -/
def ray_color_worklist_loop {K M G : Type} [LinearOrderedField K]
    (cam : camera K) (sqrt : K → K) (random_in_unit_disk : G → vec3 K × G)
    (mats : material K M G) (world : hittable K M) (T acc : vec3 K) (r : ray K) (depth : Int)
    (g : G) : vec3 K × G :=
  if depth ≤ 0 then (acc, g)
  else
    match world r ⟨ext.fin (1 / 1000), ext.pinf⟩ with
    | some rec =>
      let acc1 := vec3.add acc (vec3.mul T (mats.emitted rec.mat))
      let Ld :=
        if cam.enable_direct_lighting then
          direct_light_sampled cam sqrt random_in_unit_disk rec world cam.light_pos
            cam.light_radius cam.light_intensity cam.soft_shadow_samples g
        else (vec3.zero, g)
      let sc := mats.scatter rec.mat r rec Ld.2
      match sc.1 with
      | some (attenuation, scattered) =>
        ray_color_worklist_loop cam sqrt random_in_unit_disk mats world
          (vec3.mul T attenuation)
          (vec3.add acc1 (vec3.mul (vec3.mul T attenuation) Ld.1)) scattered (depth - 1) sc.2
      | none => (vec3.add acc1 (vec3.mul T Ld.1), sc.2)
    | none => (vec3.add acc (vec3.mul T (background sqrt r)), g)
termination_by depth.toNat
decreasing_by omega

/-- The work-list form started with throughput `1` and an empty accumulator. -/
def ray_color_worklist {K M G : Type} [LinearOrderedField K]
    (cam : camera K) (sqrt : K → K) (random_in_unit_disk : G → vec3 K × G)
    (mats : material K M G) (world : hittable K M) (r : ray K) (depth : Int) (g : G) :
    vec3 K × G :=
  ray_color_worklist_loop cam sqrt random_in_unit_disk mats world ⟨1, 1, 1⟩ ⟨0, 0, 0⟩ r depth g

/-! ## `rt.h` and the rest of `camera.h`: `initialize_camera`, `get_ray` -/

section initialize_defs

variable {K G : Type} [LinearOrderedField K]

/-- The constant `pi` of `rt.h`. -/
def pi : K := 31415926535897932385 / 10000000000000000000

/-- The function `degrees_to_radians` of `rt.h`. -/
def degrees_to_radians (degrees : K) : K := degrees * pi / 180

/-- The private members of the class `camera`, set by `initialize`. -/
structure camera_state (K : Type) where
  image_height : Int
  pixel_samples_scale : K
  center : vec3 K
  pixel00_loc : vec3 K
  pixel_delta_u : vec3 K
  pixel_delta_v : vec3 K
  u : vec3 K
  v : vec3 K
  w : vec3 K
  defocus_disk_u : vec3 K
  defocus_disk_v : vec3 K

/-- The method `camera::initialize` (the bare name is reserved).  `tan` stands for `std::tan`.  The
result is `none` when the conversion to `int` in its first statement is
undefined. -/
def initialize_camera [FloorRing K] (sqrt tan : K → K) (cam : camera K) : Option (camera_state K) :=
  match initialize_image_height cam.image_width cam.aspect_ratio with
  | none => none
  | some image_height =>
    let pixel_samples_scale := 1 / (cam.samples_per_pixel : K)
    let center := cam.lookfrom
    let w := vec3.unit_vector sqrt (vec3.sub cam.lookfrom cam.lookat)
    let u := vec3.unit_vector sqrt (vec3.cross cam.vup w)
    let v := vec3.cross w u
    let theta := degrees_to_radians cam.vfov
    let h := tan (theta / 2)
    let viewport_height := 2 * h * cam.focus_dist
    let viewport_width := viewport_height * ((cam.image_width : K) / (image_height : K))
    let viewport_u := vec3.smul viewport_width u
    let viewport_v := vec3.smul viewport_height (vec3.neg v)
    let pixel_delta_u := vec3.div viewport_u (cam.image_width : K)
    let pixel_delta_v := vec3.div viewport_v (image_height : K)
    let viewport_upper_left :=
      vec3.sub (vec3.sub (vec3.sub center (vec3.smul cam.focus_dist w)) (vec3.div viewport_u 2))
        (vec3.div viewport_v 2)
    let pixel00_loc :=
      vec3.add viewport_upper_left (vec3.smul (1 / 2) (vec3.add pixel_delta_u pixel_delta_v))
    let defocus_radius := cam.focus_dist * tan (degrees_to_radians (cam.defocus_angle / 2))
    some { image_height := image_height, pixel_samples_scale := pixel_samples_scale,
           center := center, pixel00_loc := pixel00_loc, pixel_delta_u := pixel_delta_u,
           pixel_delta_v := pixel_delta_v, u := u, v := v, w := w,
           defocus_disk_u := vec3.smul defocus_radius u,
           defocus_disk_v := vec3.smul defocus_radius v }

/-- The local `viewport_u` of `initialize`, from the state it leaves. -/
def viewport_u (tan : K → K) (cam : camera K) (st : camera_state K) : vec3 K :=
  vec3.smul (2 * tan (degrees_to_radians cam.vfov / 2) * cam.focus_dist
    * ((cam.image_width : K) / (st.image_height : K))) st.u

/-- The local `viewport_v` of `initialize`, from the state it leaves. -/
def viewport_v (tan : K → K) (cam : camera K) (st : camera_state K) : vec3 K :=
  vec3.smul (2 * tan (degrees_to_radians cam.vfov / 2) * cam.focus_dist) (vec3.neg st.v)

/-- The local `viewport_upper_left` of `initialize`, from the state it
leaves. -/
def viewport_upper_left (tan : K → K) (cam : camera K) (st : camera_state K) : vec3 K :=
  vec3.sub
    (vec3.sub (vec3.sub st.center (vec3.smul cam.focus_dist st.w))
      (vec3.div (viewport_u tan cam st) 2))
    (vec3.div (viewport_v tan cam st) 2)

/-- The method `camera::defocus_disk_sample`. -/
def defocus_disk_sample (st : camera_state K) (random_in_unit_disk : G → vec3 K × G) (g : G) :
    vec3 K × G :=
  let p := random_in_unit_disk g
  (vec3.add (vec3.add st.center (vec3.smul p.1.x st.defocus_disk_u))
    (vec3.smul p.1.y st.defocus_disk_v), p.2)

/-- The local `pixel_sample` of `get_ray`, for the two numbers drawn. -/
def pixel_sample (st : camera_state K) (i j : Int) (r1 r2 : K) : vec3 K :=
  vec3.add
    (vec3.add st.pixel00_loc (vec3.smul ((i : K) + (r1 - 1 / 2)) st.pixel_delta_u))
    (vec3.smul ((j : K) + (r2 - 1 / 2)) st.pixel_delta_v)

/-- The method `camera::get_ray`.  `random_double` (`rt.h`, uniform in
`[0,1)`) draws from the generator state; the two draws of the offset are
taken in the order written. -/
def get_ray (cam : camera K) (st : camera_state K) (random_double : G → K × G)
    (random_in_unit_disk : G → vec3 K × G) (i j : Int) (g : G) : ray K × G :=
  let r1 := random_double g
  let r2 := random_double r1.2
  let offset : vec3 K := ⟨r1.1 - 1 / 2, r2.1 - 1 / 2, 0⟩
  let pixel_sample :=
    vec3.add
      (vec3.add st.pixel00_loc (vec3.smul ((i : K) + offset.x) st.pixel_delta_u))
      (vec3.smul ((j : K) + offset.y) st.pixel_delta_v)
  let origin :=
    if cam.defocus_angle ≤ 0 then (st.center, r2.2)
    else defocus_disk_sample st random_in_unit_disk r2.2
  (⟨origin.1, vec3.sub pixel_sample origin.1⟩, origin.2)

end initialize_defs

/-! ## `int` arithmetic, the framebuffer of `camera::render`, and `main.cpp` -/

/-- The `int` product `a * b`; it is undefined (`none`) when the result does
not fit a 32-bit `int`. -/
def int_mul (a b : Int) : Option Int :=
  if -2147483648 ≤ a * b ∧ a * b ≤ 2147483647 then some (a * b) else none

/-- The `int` sum `a + b`; it is undefined (`none`) when the result does not
fit a 32-bit `int`. -/
def int_add (a b : Int) : Option Int :=
  if -2147483648 ≤ a + b ∧ a + b ≤ 2147483647 then some (a + b) else none

/-- The size `image_width * image_height` given to the framebuffer in
`camera::render`. -/
def framebuffer_size (image_width image_height : Int) : Option Int :=
  int_mul image_width image_height

/-- The slot `j*image_width + i` that `camera::render` writes for the pixel in
row `j` and column `i`. -/
def framebuffer_index (image_width j i : Int) : Option Int :=
  match int_mul j image_width with
  | none => none
  | some row => int_add row i

/-- What `main.cpp` prints: the magic word, width, height and maximum channel
value of the header, then one triplet per pixel in the order printed.  A
triplet is `none` when a conversion to `int` is undefined. -/
structure p3_output where
  magic : String
  width : Int
  height : Int
  maxval : Int
  pixels : List (Option (Int × Int × Int))

/-- The body of the inner loop of `main`: the triplet printed for the loop
variables `i` and `j`. -/
def main_pixel (image_width image_height i j : Int) : Option (Int × Int × Int) :=
  let x : ℚ := (i : ℚ) / ((image_height - 1 : Int) : ℚ)
  let y : ℚ := (j : ℚ) / ((image_width - 1 : Int) : ℚ)
  let z : ℚ := 0
  (double_to_int (255999 / 1000 * x)).bind fun ix =>
    (double_to_int (255999 / 1000 * y)).bind fun iy =>
      (double_to_int (255999 / 1000 * z)).bind fun iz => some (ix, iy, iz)

/-- The program `main` of `main.cpp`.  The header text is
`"P3\n" 256 ' ' 256 "\n225\n"`. -/
def main : p3_output :=
  let image_width : Int := 256
  let image_height : Int := 256
  { magic := "P3", width := image_width, height := image_height, maxval := 225,
    pixels := (List.range image_height.toNat).flatMap fun (i : Nat) =>
      (List.range image_width.toNat).map fun (j : Nat) =>
        main_pixel image_width image_height (Int.ofNat i) (Int.ofNat j) }

/-- The empty scene: no ray hits anything. -/
def empty_world (K M : Type) : hittable K M := fun _ _ => none

/-- A triangle whose three vertices lie on the `x` axis. -/
def flat_triangle : triangle ℚ Nat :=
  triangle.new Rat.sqrt ⟨0, 0, 0⟩ ⟨1, 0, 0⟩ ⟨2, 0, 0⟩ 0

/-- A ray above `unit_triangle` that runs parallel to its plane. -/
def grazing_ray : ray ℚ := ⟨⟨0, 0, 1⟩, ⟨1, 1, 0⟩⟩

/-- A stand-in for `random_double` in the evaluations: always `1/4`. -/
def quarter_double : Nat → ℚ × Nat := fun g => (1 / 4, g + 1)

/-! ## IEEE 754 binary64 arithmetic

The exact field above cannot show what rounding does to the guard
`std::fabs(det) < 1e-8` of `triangle::hit`.  This section gives the
arithmetic of a `double` itself: every operation returns the exact result
rounded to the nearest binary64 value, ties to even (no fused
multiply-add, no wider intermediate format); results beyond the largest
finite value become an infinity, and invalid operations give NaN.  The sign
of a zero is not kept: it could only show in a quotient by zero, and the
code below divides by `det`, which has passed the guard, and by a `length`,
the square root of a sum of squares, which is never `-0`.
-/

/-- A value of the C++ type `double`: a finite number, an infinity, or NaN. -/
inductive dbl where
  | fin : ℚ → dbl
  | pinf : dbl
  | ninf : dbl
  | nan : dbl
deriving DecidableEq, Repr

namespace dbl

/-- The power `2^e` for an integer exponent. -/
def pow2 (e : Int) : ℚ :=
  if 0 ≤ e then ((2 ^ e.toNat : Nat) : ℚ) else 1 / ((2 ^ (-e).toNat : Nat) : ℚ)

/-- The number of halvings that take `n` below `2`: `floor(log2 n)` for
`n >= 1`, when the fuel is at least that number. -/
def ilog2 : Nat → Nat → Nat
  | 0, _ => 0
  | fuel + 1, n => if n < 2 then 0 else ilog2 fuel (n / 2) + 1

/-- The exponent `floor(log2 x)` of a positive rational whose numerator and
denominator are below `2^4400`, which covers the exact results of the
operations on `double`s. -/
def exponent (x : ℚ) : Int :=
  let e0 : Int := (ilog2 4400 x.num.natAbs : Int) - (ilog2 4400 x.den : Int)
  if pow2 e0 ≤ x then e0 else e0 - 1

/-- The integer nearest to `q >= 0`, ties to the even one. -/
def round_even (q : ℚ) : Int :=
  let f : Int := ⌊q⌋
  let r : ℚ := q - (f : ℚ)
  if r < 1 / 2 then f else if 1 / 2 < r then f + 1 else if f % 2 = 0 then f else f + 1

/-- The magnitude `a > 0` rounded to 53 significant bits, with the least
quantum `2^-1074` of the subnormal range. -/
def round_mag (a : ℚ) : ℚ :=
  let quantum : Int := max (exponent a - 52) (-1074)
  (round_even (a / pow2 quantum) : ℚ) * pow2 quantum

/-- Rounding of an exact result to binary64, to nearest, ties to even; a
magnitude that rounds to `2^1024` or more overflows to an infinity. -/
def rnd (x : ℚ) : dbl :=
  if x = 0 then fin 0
  else if x < 0 then (if pow2 1024 ≤ round_mag (-x) then ninf else fin (-round_mag (-x)))
  else (if pow2 1024 ≤ round_mag x then pinf else fin (round_mag x))

/-- Unary minus. -/
def neg : dbl → dbl
  | fin a => fin (-a)
  | pinf => ninf
  | ninf => pinf
  | nan => nan

/-- The sum `a + b`. -/
def add : dbl → dbl → dbl
  | fin a, fin b => rnd (a + b)
  | nan, _ => nan
  | _, nan => nan
  | pinf, ninf => nan
  | ninf, pinf => nan
  | pinf, _ => pinf
  | _, pinf => pinf
  | ninf, _ => ninf
  | _, ninf => ninf

/-- The difference `a - b`. -/
def sub (a b : dbl) : dbl := add a (neg b)

/-- The product `a * b`. -/
def mul : dbl → dbl → dbl
  | fin a, fin b => rnd (a * b)
  | nan, _ => nan
  | _, nan => nan
  | fin a, pinf => if a = 0 then nan else if 0 < a then pinf else ninf
  | fin a, ninf => if a = 0 then nan else if 0 < a then ninf else pinf
  | pinf, fin b => if b = 0 then nan else if 0 < b then pinf else ninf
  | ninf, fin b => if b = 0 then nan else if 0 < b then ninf else pinf
  | pinf, pinf => pinf
  | ninf, ninf => pinf
  | pinf, ninf => ninf
  | ninf, pinf => ninf

/-- The quotient `a / b`.  A zero divisor counts as `+0`. -/
def div : dbl → dbl → dbl
  | fin a, fin b =>
    if b = 0 then (if a = 0 then nan else if 0 < a then pinf else ninf) else rnd (a / b)
  | nan, _ => nan
  | _, nan => nan
  | fin _, pinf => fin 0
  | fin _, ninf => fin 0
  | pinf, fin b => if 0 ≤ b then pinf else ninf
  | ninf, fin b => if 0 ≤ b then ninf else pinf
  | pinf, pinf => nan
  | pinf, ninf => nan
  | ninf, pinf => nan
  | ninf, ninf => nan

/-- The comparison `a < b`; false when an operand is NaN. -/
def lt : dbl → dbl → Bool
  | fin a, fin b => decide (a < b)
  | nan, _ => false
  | _, nan => false
  | _, ninf => false
  | pinf, _ => false
  | ninf, _ => true
  | _, pinf => true

/-- The comparison `a <= b`; false when an operand is NaN. -/
def le : dbl → dbl → Bool
  | fin a, fin b => decide (a ≤ b)
  | nan, _ => false
  | _, nan => false
  | ninf, _ => true
  | _, pinf => true
  | _, ninf => false
  | pinf, _ => false

/-- The function `std::fabs`. -/
def abs : dbl → dbl
  | fin a => fin (if a < 0 then -a else a)
  | pinf => pinf
  | ninf => pinf
  | nan => nan

/-- Newton iteration for the integer square root, from a guess above it. -/
def isqrt_iter : Nat → Nat → Nat → Nat
  | 0, _, x => x
  | fuel + 1, n, x =>
    let y := (x + n / x) / 2
    if y < x then isqrt_iter fuel n y else x

/-- The integer square root `floor(sqrt n)`. -/
def isqrt (n : Nat) : Nat :=
  if n = 0 then 0 else isqrt_iter 4400 n (2 ^ (ilog2 4400 n / 2 + 1))

/-- The function `std::sqrt`, correctly rounded: the argument is scaled by
an even power of two so that the root has at least 53 integer bits, and the
integer root is rounded to nearest (a tie cannot occur). -/
def sqrt : dbl → dbl
  | fin q =>
    if q < 0 then nan
    else if q = 0 then fin 0
    else
      let k : Int := exponent q / 2 - 52
      let s : ℚ := q / pow2 (2 * k)
      let m : Nat := isqrt (⌊s⌋).toNat
      let up : Bool := decide ((((2 * m + 1) * (2 * m + 1) : Nat) : ℚ) < 4 * s)
      fin (((if up then m + 1 else m : Nat) : ℚ) * pow2 k)
  | pinf => pinf
  | ninf => nan
  | nan => nan

/-- Whether a `double` is finite: neither an infinity nor NaN. -/
def is_fin : dbl → Bool
  | fin _ => true
  | _ => false

/-- The exact value of a finite `double` (and `0` for the others). -/
def to_rat : dbl → ℚ
  | fin a => a
  | _ => 0

end dbl

/-! ## `vec_3.h` and `triangle.h` in binary64 -/

namespace ieee

/-- The vector of the `double`s nearest to three rationals. -/
def of_rat (v : vec3 ℚ) : vec3 dbl := ⟨dbl.rnd v.x, dbl.rnd v.y, dbl.rnd v.z⟩

/-- The exact values of the components of a finite vector. -/
def to_rat (v : vec3 dbl) : vec3 ℚ := ⟨v.x.to_rat, v.y.to_rat, v.z.to_rat⟩

/-- Whether the three components are finite. -/
def is_fin (v : vec3 dbl) : Bool := v.x.is_fin && v.y.is_fin && v.z.is_fin

/-- Modelled from the spec: `vec_3.h`, `operator+`, in binary64. -/
def add (a b : vec3 dbl) : vec3 dbl := ⟨dbl.add a.x b.x, dbl.add a.y b.y, dbl.add a.z b.z⟩

/-- Modelled from the spec: `vec_3.h`, binary `operator-`, in binary64. -/
def sub (a b : vec3 dbl) : vec3 dbl := ⟨dbl.sub a.x b.x, dbl.sub a.y b.y, dbl.sub a.z b.z⟩

/-- Modelled from the spec: `vec_3.h`, unary `operator-`, in binary64. -/
def neg (a : vec3 dbl) : vec3 dbl := ⟨dbl.neg a.x, dbl.neg a.y, dbl.neg a.z⟩

/-- Modelled from the spec: `vec_3.h`, `operator*(double, vec3)`, in
binary64. -/
def smul (t : dbl) (a : vec3 dbl) : vec3 dbl := ⟨dbl.mul t a.x, dbl.mul t a.y, dbl.mul t a.z⟩

/-- Modelled from the spec: `vec_3.h`, `operator/(vec3, double)`, which is
`(1/t) * v`, in binary64. -/
def div (a : vec3 dbl) (t : dbl) : vec3 dbl := smul (dbl.div (dbl.fin 1) t) a

/-- Modelled from the spec: `vec_3.h`, `dot`, in binary64: the three
products are added from left to right. -/
def dot (a b : vec3 dbl) : dbl :=
  dbl.add (dbl.add (dbl.mul a.x b.x) (dbl.mul a.y b.y)) (dbl.mul a.z b.z)

/-- Modelled from the spec: `vec_3.h`, `cross`, in binary64. -/
def cross (a b : vec3 dbl) : vec3 dbl :=
  ⟨dbl.sub (dbl.mul a.y b.z) (dbl.mul a.z b.y),
   dbl.sub (dbl.mul a.z b.x) (dbl.mul a.x b.z),
   dbl.sub (dbl.mul a.x b.y) (dbl.mul a.y b.x)⟩

/-- Modelled from the spec: `vec_3.h`, `vec3::length_squared`, in binary64. -/
def length_squared (a : vec3 dbl) : dbl :=
  dbl.add (dbl.add (dbl.mul a.x a.x) (dbl.mul a.y a.y)) (dbl.mul a.z a.z)

/-- Modelled from the spec: `vec_3.h`, `vec3::length`, in binary64. -/
def length (a : vec3 dbl) : dbl := dbl.sqrt (length_squared a)

/-- Modelled from the spec: `vec_3.h`, `unit_vector(v) = v / v.length()`, in
binary64. -/
def unit_vector (a : vec3 dbl) : vec3 dbl := div a (length a)

/-- Modelled from the spec: `ray::at`, in binary64. -/
def ray_at (r : ray dbl) (t : dbl) : vec3 dbl := add r.orig (smul t r.dir)

/-- Modelled from the spec: `interval.h`, with `double` bounds. -/
structure interval where
  min : dbl
  max : dbl
deriving DecidableEq, Repr

/-- Modelled from the spec: `interval::surrounds`, the open test
`min < x && x < max`, in binary64. -/
def interval.surrounds (i : interval) (x : dbl) : Bool := dbl.lt i.min x && dbl.lt x i.max

/-- Modelled from the spec: `hit_record::set_face_normal`, in binary64.
Returns the pair `(front_face, normal)`. -/
def set_face_normal (r : ray dbl) (outward_normal : vec3 dbl) : Bool × vec3 dbl :=
  let front_face := dbl.lt (dot r.dir outward_normal) (dbl.fin 0)
  (front_face, if front_face then outward_normal else neg outward_normal)

/-- The constructor `triangle(a, b, c, m)`, in binary64. -/
def triangle_new {M : Type} (a b c : vec3 dbl) (m : M) : triangle dbl M :=
  { v0 := a, v1 := b, v2 := c, n := unit_vector (cross (sub b a) (sub c a)), mat := m }

/-- The local `det` of `triangle::hit`, in binary64. -/
def triangle_det {M : Type} (T : triangle dbl M) (r : ray dbl) : dbl :=
  dot (sub T.v1 T.v0) (cross r.dir (sub T.v2 T.v0))

/-- The local `u` of `triangle::hit`, in binary64. -/
def triangle_u {M : Type} (T : triangle dbl M) (r : ray dbl) : dbl :=
  dbl.mul (dot (sub r.orig T.v0) (cross r.dir (sub T.v2 T.v0)))
    (dbl.div (dbl.fin 1) (triangle_det T r))

/-- The local `v` of `triangle::hit`, in binary64. -/
def triangle_v {M : Type} (T : triangle dbl M) (r : ray dbl) : dbl :=
  dbl.mul (dot r.dir (cross (sub r.orig T.v0) (sub T.v1 T.v0)))
    (dbl.div (dbl.fin 1) (triangle_det T r))

/-- The local `t` of `triangle::hit`, in binary64. -/
def triangle_t {M : Type} (T : triangle dbl M) (r : ray dbl) : dbl :=
  dbl.mul (dot (sub T.v2 T.v0) (cross (sub r.orig T.v0) (sub T.v1 T.v0)))
    (dbl.div (dbl.fin 1) (triangle_det T r))

/-- The method `triangle::hit`, in binary64.  The literals `1e-8`, `0.0` and
`1.0` are the `double`s nearest to them. -/
def triangle_hit {M : Type} (T : triangle dbl M) (r : ray dbl) (ray_t : interval) :
    Option (hit_record dbl M) :=
  let e1 := sub T.v1 T.v0
  let e2 := sub T.v2 T.v0
  let p := cross r.dir e2
  let det := dot e1 p
  if dbl.lt (dbl.abs det) (dbl.rnd (1 / 100000000)) then none
  else
    let invDet := dbl.div (dbl.fin 1) det
    let tvec := sub r.orig T.v0
    let u := dbl.mul (dot tvec p) invDet
    if dbl.lt u (dbl.fin 0) || dbl.lt (dbl.fin 1) u then none
    else
      let q := cross tvec e1
      let v := dbl.mul (dot r.dir q) invDet
      if dbl.lt v (dbl.fin 0) || dbl.lt (dbl.fin 1) (dbl.add u v) then none
      else
        let t := dbl.mul (dot e2 q) invDet
        if !ray_t.surrounds t then none
        else
          let fn := set_face_normal r T.n
          some { t := t, p := ray_at r t, mat := T.mat, normal := fn.2, front_face := fn.1 }

end ieee

/-! ## Concrete data in binary64 -/

/-- The interval `interval(0.001, infinity)` that `camera::ray_color` passes
to `hit`. -/
def ieee.primary : ieee.interval := ⟨dbl.rnd (1 / 1000), dbl.pinf⟩

/-- The triangle `(0,0,0), (1,0,0), (0,1,0)` with material `0`, in
binary64. -/
def ieee.unit_triangle : triangle dbl Nat :=
  ieee.triangle_new (ieee.of_rat ⟨0, 0, 0⟩) (ieee.of_rat ⟨1, 0, 0⟩) (ieee.of_rat ⟨0, 1, 0⟩) 0

/-- The triangle of `ieee.unit_triangle` with the other winding. -/
def ieee.unit_triangle_rev : triangle dbl Nat :=
  ieee.triangle_new (ieee.of_rat ⟨0, 0, 0⟩) (ieee.of_rat ⟨0, 1, 0⟩) (ieee.of_rat ⟨1, 0, 0⟩) 0

/-- The ray from `(1/4, 1/4, 1)` straight down, in binary64. -/
def ieee.down_ray : ray dbl := ⟨ieee.of_rat ⟨1 / 4, 1 / 4, 1⟩, ieee.of_rat ⟨0, 0, -1⟩⟩

/-- The record both windings of the unit triangle return for
`ieee.down_ray`, but for the front-face flag. -/
def ieee.down_rec (front_face : Bool) : hit_record dbl Nat :=
  { p := ieee.of_rat ⟨1 / 4, 1 / 4, 0⟩, normal := ieee.of_rat ⟨0, 0, 1⟩, mat := 0,
    t := dbl.fin 1, front_face := front_face }

/-- Second vertex of `wide_triangle`. -/
def wide_v1 : vec3 ℚ := ⟨-100451, 277666, 251796⟩

/-- Third vertex of `wide_triangle`. -/
def wide_v2 : vec3 ℚ := ⟨-96211, -269153, 235607⟩

/-- A triangle with one vertex at the origin and integer coordinates of six
digits, over `ℚ`. -/
def wide_triangle_exact : triangle ℚ Nat := triangle.new Rat.sqrt ⟨0, 0, 0⟩ wide_v1 wide_v2 0

/-- The triangle `wide_triangle_exact` in binary64: its coordinates are
`double`s. -/
def wide_triangle : triangle dbl Nat :=
  ieee.triangle_new (ieee.of_rat ⟨0, 0, 0⟩) (ieee.of_rat wide_v1) (ieee.of_rat wide_v2) 0

/-- The triangle `wide_triangle` with the other winding. -/
def wide_triangle_rev : triangle dbl Nat :=
  ieee.triangle_new (ieee.of_rat ⟨0, 0, 0⟩) (ieee.of_rat wide_v2) (ieee.of_rat wide_v1) 0

/-- A ray that lies in the plane of `wide_triangle`: its origin is
`2 * v1 + 3 * v2` and its direction `-3 * v1 + 3 * v2`. -/
def inplane_ray_exact : ray ℚ := ⟨⟨-489535, -252127, 1210413⟩, ⟨12720, -1640457, -48567⟩⟩

/-- The ray `inplane_ray_exact` in binary64: its coordinates are `double`s. -/
def inplane_ray : ray dbl :=
  ⟨ieee.of_rat inplane_ray_exact.orig, ieee.of_rat inplane_ray_exact.dir⟩

/-- The record `triangle::hit` fills in for `wide_triangle` and
`inplane_ray`. -/
def inplane_rec : hit_record dbl Nat :=
  { p := ieee.of_rat ⟨-476815, -1892584, 1161846⟩,
    normal := ⟨dbl.fin (-1044076306693721 / 1125899906842624),
               dbl.fin (280236852786793 / 72057594037927936),
               dbl.fin (-6741605136024917 / 18014398509481984)⟩,
    mat := 0, t := dbl.fin 1, front_face := false }

/-- Second vertex of `line_triangle`. -/
def line_v1 : vec3 ℚ := ⟨205293, -940611, -72676⟩

/-- A triangle whose vertices are collinear, `v2 = 2 * v1` and `v0` the
origin, over `ℚ`. -/
def line_triangle_exact : triangle ℚ Nat :=
  triangle.new Rat.sqrt ⟨0, 0, 0⟩ line_v1 (vec3.smul 2 line_v1) 0

/-- The triangle `line_triangle_exact` in binary64: its coordinates are
`double`s. -/
def line_triangle : triangle dbl Nat :=
  ieee.triangle_new (ieee.of_rat ⟨0, 0, 0⟩) (ieee.of_rat line_v1)
    (ieee.of_rat (vec3.smul 2 line_v1)) 0

/-- A ray whose origin and direction are both `(441951, 374596, 638589)`. -/
def line_ray : ray dbl :=
  ⟨ieee.of_rat ⟨441951, 374596, 638589⟩, ieee.of_rat ⟨441951, 374596, 638589⟩⟩

/-- The record `triangle::hit` fills in for `line_triangle` and `line_ray`. -/
def line_rec : hit_record dbl Nat :=
  { p := ieee.of_rat ⟨883902, 749192, 1277178⟩, normal := ⟨dbl.nan, dbl.nan, dbl.nan⟩,
    mat := 0, t := dbl.fin 1, front_face := false }

/-- The triangle `(3,2,0), (5,-4,5), (5,2,-1)` in binary64. -/
def edge_triangle : triangle dbl Nat :=
  ieee.triangle_new (ieee.of_rat ⟨3, 2, 0⟩) (ieee.of_rat ⟨5, -4, 5⟩) (ieee.of_rat ⟨5, 2, -1⟩) 0

/-- The triangle `edge_triangle` with the other winding. -/
def edge_triangle_rev : triangle dbl Nat :=
  ieee.triangle_new (ieee.of_rat ⟨3, 2, 0⟩) (ieee.of_rat ⟨5, 2, -1⟩) (ieee.of_rat ⟨5, -4, 5⟩) 0

/-- The ray from `(3.1, -1.6, 0.7)` with direction `(4.9, 0.6, 4.3)`, each
coordinate the `double` nearest to the decimal; with the decimals themselves
the ray runs through the edge `v1 v2` of `edge_triangle`, at `u + v = 1`. -/
def edge_ray : ray dbl :=
  ⟨ieee.of_rat ⟨31 / 10, -16 / 10, 7 / 10⟩, ieee.of_rat ⟨49 / 10, 6 / 10, 43 / 10⟩⟩

/-- The record `triangle::hit` fills in for `edge_triangle` and `edge_ray`. -/
def edge_rec : hit_record dbl Nat :=
  { p := ⟨dbl.fin 5, dbl.fin (-769747895494447 / 562949953421312),
          dbl.fin (1332697848915759 / 562949953421312)⟩,
    normal := ⟨dbl.fin (-6004799503160661 / 18014398509481984),
               dbl.fin (-6004799503160661 / 9007199254740992),
               dbl.fin (-6004799503160661 / 9007199254740992)⟩,
    mat := 0, t := dbl.fin (6985174932248117 / 18014398509481984), front_face := false }

/-- The triangle `(-4,2,-5), (-4,3,3), (2,0,-3)` in binary64. -/
def plain_triangle : triangle dbl Nat :=
  ieee.triangle_new (ieee.of_rat ⟨-4, 2, -5⟩) (ieee.of_rat ⟨-4, 3, 3⟩) (ieee.of_rat ⟨2, 0, -3⟩) 0

/-- The triangle `plain_triangle` with the other winding. -/
def plain_triangle_rev : triangle dbl Nat :=
  ieee.triangle_new (ieee.of_rat ⟨-4, 2, -5⟩) (ieee.of_rat ⟨2, 0, -3⟩) (ieee.of_rat ⟨-4, 3, 3⟩) 0

/-- The ray from `(-1, -4.1, -0.6)` with direction `(-0.1, 3.2, -0.1)`, each
coordinate the `double` nearest to the decimal: it crosses the interior of
`plain_triangle`. -/
def plain_ray : ray dbl :=
  ⟨ieee.of_rat ⟨-1, -41 / 10, -6 / 10⟩, ieee.of_rat ⟨-1 / 10, 32 / 10, -1 / 10⟩⟩

/-- A degenerate triangle in binary64: `v1` coincides with `v0`. -/
def needle_triangle : triangle dbl Nat :=
  ieee.triangle_new (ieee.of_rat ⟨0, 0, 0⟩) (ieee.of_rat ⟨0, 0, 0⟩) (ieee.of_rat ⟨0, 1, 0⟩) 0

/-! ## Quotients by zero in `camera.h`

In the field `K` a quotient by zero is `0`; in C++ `1.0 / 0.0` is an
infinity and `infinity * 0.0` is NaN.  `ray_color`, `direct_light_sampled`
and `visible_to_light` form such a quotient in
`unit_vector(v) = (1 / v.length()) * v` when `v` is the zero vector, and
nowhere else: `dist2` divides only for a direction with a positive cosine,
which is not the zero vector, `visible_to_light` is only called for such a
direction, and the sample count is at least `1`.  The two definitions below
follow the C++ values at the zero vector instead of the field's.
-/

section checked_defs

variable {K M G : Type} [LinearOrderedField K]

/-- The `for` loop of `camera::direct_light_sampled`, with the case
`Ls = rec.p` followed in C++ arithmetic: every component of `Ldir` is then
`(1/0) * 0`, NaN; `dot(rec.normal, Ldir)` is NaN; `std::max(0.0, NaN)`
returns its first argument `0.0`; and the iteration ends at `continue`. -/
def direct_light_loop_checked (sqrt : K → K) (random_in_unit_disk : G → vec3 K × G)
    (rec : hit_record K M) (world : hittable K M) (C : vec3 K) (R : K) (Li : vec3 K) :
    Nat → vec3 K → G → vec3 K × G
  | 0, sum, g => (sum, g)
  | k + 1, sum, g =>
    let Ls := sample_on_light random_in_unit_disk C R g
    if vec3.sub Ls.1 rec.p = ⟨0, 0, 0⟩ then
      direct_light_loop_checked sqrt random_in_unit_disk rec world C R Li k sum Ls.2
    else
      let Ldir := vec3.unit_vector sqrt (vec3.sub Ls.1 rec.p)
      let ndotl := max 0 (vec3.dot rec.normal Ldir)
      if ndotl ≤ 0 then
        direct_light_loop_checked sqrt random_in_unit_disk rec world C R Li k sum Ls.2
      else if visible_to_light sqrt rec.p Ls.1 world then
        let dist2 := vec3.length_squared (vec3.sub Ls.1 rec.p)
        direct_light_loop_checked sqrt random_in_unit_disk rec world C R Li k
          (vec3.add sum (vec3.smul (ndotl / dist2) Li)) Ls.2
      else
        direct_light_loop_checked sqrt random_in_unit_disk rec world C R Li k sum Ls.2

/-- The method `camera::ray_color`, with the zero direction followed in C++
arithmetic.  The colour is `none` when it is NaN in every channel: for a ray
that hits nothing and has the zero direction, `unit_vector(r.direction())`
is `(1/0) * 0`, NaN, and so are `a` and the three channels of the result;
and a NaN returned by the recursive call makes `attenuation * NaN`, NaN in
every channel whatever the attenuation, and with it the sum `out`. -/
def ray_color_checked (cam : camera K) (sqrt : K → K) (random_in_unit_disk : G → vec3 K × G)
    (mats : material K M G) (world : hittable K M) (r : ray K) (depth : Int) (g : G) :
    Option (vec3 K) × G :=
  if depth ≤ 0 then (some vec3.zero, g)
  else
    match world r ⟨ext.fin (1 / 1000), ext.pinf⟩ with
    | some rec =>
      let out := mats.emitted rec.mat
      let Ld :=
        if cam.enable_direct_lighting then
          direct_light_sampled cam sqrt random_in_unit_disk rec world cam.light_pos
            cam.light_radius cam.light_intensity cam.soft_shadow_samples g
        else (vec3.zero, g)
      let sc := mats.scatter rec.mat r rec Ld.2
      match sc.1 with
      | some (attenuation, scattered) =>
        let rc :=
          ray_color_checked cam sqrt random_in_unit_disk mats world scattered (depth - 1) sc.2
        (rc.1.map fun c =>
          vec3.add (vec3.add out (vec3.mul attenuation c)) (vec3.mul attenuation Ld.1), rc.2)
      | none => (some (vec3.add out Ld.1), sc.2)
    | none =>
      if r.dir = ⟨0, 0, 0⟩ then (none, g)
      else
        let unit_direction := vec3.unit_vector sqrt r.dir
        let a := (1 / 2) * (unit_direction.y + 1)
        (some (vec3.add (vec3.smul (1 - a) ⟨1, 1, 1⟩) (vec3.smul a ⟨1 / 2, 7 / 10, 1⟩)), g)
termination_by depth.toNat
decreasing_by omega

end checked_defs

/-- The last three statements of `camera::ray_color`, the colour of a ray
that hits nothing, in binary64. -/
def ieee.background (r : ray dbl) : vec3 dbl :=
  let unit_direction := ieee.unit_vector r.dir
  let a := dbl.mul (dbl.rnd (1 / 2)) (dbl.add unit_direction.y (dbl.fin 1))
  ieee.add (ieee.smul (dbl.sub (dbl.fin 1) a) ⟨dbl.fin 1, dbl.fin 1, dbl.fin 1⟩)
    (ieee.smul a ⟨dbl.rnd (1 / 2), dbl.rnd (7 / 10), dbl.fin 1⟩)

/-! ## Theorems: `triangle::hit` -/

theorem vec3.eq_of_components {K : Type} {a b : vec3 K} (hx : a.x = b.x) (hy : a.y = b.y)
    (hz : a.z = b.z) : a = b := by
  cases a; cases b; simp_all

section triangle_theorems

variable {K M : Type} [LinearOrderedField K]

/-- What `triangle::hit` returning `true` means, read off the four guards. -/
theorem triangle.hit_eq_some_iff (T : triangle K M) (r : ray K) (ray_t : interval K)
    (rec : hit_record K M) :
    T.hit r ray_t = some rec ↔
      (1 / 100000000 ≤ |T.det r| ∧ 0 ≤ T.bary_u r ∧ T.bary_u r ≤ 1 ∧ 0 ≤ T.bary_v r ∧
        T.bary_u r + T.bary_v r ≤ 1 ∧ ray_t.surrounds (T.param_t r) = true ∧
        rec = { t := T.param_t r, p := r.at (T.param_t r), mat := T.mat,
                normal := (set_face_normal r T.n).2,
                front_face := (set_face_normal r T.n).1 }) := by
  unfold triangle.hit
  simp only [triangle.det, triangle.bary_u, triangle.bary_v, triangle.param_t]
  split_ifs with h1 h2 h3 h4
  · constructor
    · intro h; cases h
    · rintro ⟨h, -⟩; exact absurd h1 (not_lt.mpr h)
  · constructor
    · intro h; cases h
    · rintro ⟨-, hu0, hu1, -⟩
      rcases h2 with h2 | h2
      · exact absurd h2 (not_lt.mpr hu0)
      · exact absurd h2 (not_lt.mpr hu1)
  · constructor
    · intro h; cases h
    · rintro ⟨-, -, -, hv0, huv, -⟩
      rcases h3 with h3 | h3
      · exact absurd h3 (not_lt.mpr hv0)
      · exact absurd h3 (not_lt.mpr huv)
  · push_neg at h2 h3
    constructor
    · intro h
      refine ⟨not_lt.mp h1, h2.1, h2.2, h3.1, h3.2, h4, ?_⟩
      exact (Option.some.inj h).symm
    · rintro ⟨-, -, -, -, -, -, hrec⟩
      rw [hrec]
  · constructor
    · intro h; cases h
    · rintro ⟨-, -, -, -, -, hs, -⟩
      exact absurd hs h4

theorem triangle.det_eq_neg_dot_cross (T : triangle K M) (r : ray K) :
    T.det r = -vec3.dot r.dir (vec3.cross (vec3.sub T.v1 T.v0) (vec3.sub T.v2 T.v0)) := by
  simp only [triangle.det, vec3.dot, vec3.cross, vec3.sub]
  ring

theorem triangle.det_ne_zero_of_hit {T : triangle K M} {r : ray K} {ray_t : interval K}
    {rec : hit_record K M} (h : T.hit r ray_t = some rec) : T.det r ≠ 0 := by
  have h1 := ((triangle.hit_eq_some_iff T r ray_t rec).mp h).1
  intro h0
  rw [h0, abs_zero] at h1
  norm_num at h1

theorem vec3.length_squared_pos_of_dot_ne_zero (a c : vec3 K) (h : vec3.dot a c ≠ 0) :
    0 < vec3.length_squared c := by
  simp only [vec3.length_squared]
  by_contra hle
  push_neg at hle
  have hx : c.x * c.x = 0 := by nlinarith [mul_self_nonneg c.x, mul_self_nonneg c.y, mul_self_nonneg c.z]
  have hy : c.y * c.y = 0 := by nlinarith [mul_self_nonneg c.x, mul_self_nonneg c.y, mul_self_nonneg c.z]
  have hz : c.z * c.z = 0 := by nlinarith [mul_self_nonneg c.x, mul_self_nonneg c.y, mul_self_nonneg c.z]
  apply h
  simp only [vec3.dot, mul_self_eq_zero.mp hx, mul_self_eq_zero.mp hy, mul_self_eq_zero.mp hz]
  ring

theorem set_face_normal_opposes (r : ray K) (n : vec3 K) (h : vec3.dot r.dir n ≠ 0) :
    vec3.dot (set_face_normal r n).2 r.dir < 0 := by
  simp only [set_face_normal]
  by_cases hneg : vec3.dot r.dir n < 0
  · simp only [hneg, decide_True, if_true]
    have : vec3.dot n r.dir = vec3.dot r.dir n := by simp only [vec3.dot]; ring
    rw [this]; exact hneg
  · simp only [hneg, decide_False]
    have hpos : 0 < vec3.dot r.dir n := lt_of_le_of_ne (not_lt.mp hneg) (Ne.symm h)
    have : vec3.dot (vec3.neg n) r.dir = -vec3.dot r.dir n := by
      simp only [vec3.dot, vec3.neg]; ring
    simp only [Bool.false_eq_true, if_false]
    rw [this]; linarith

/-- In exact arithmetic, whenever `triangle.hit` returns a record, for a
triangle built by the constructor from any three vertices (either winding),
any ray and any interval, the normal stored in the record satisfies
`dot(rec.normal, ray.direction) < 0`, strictly.  The square root is only
required to be positive on positive numbers.  The proof rests on `det != 0`,
which a hit implies in the field and not in binary64. -/
theorem triangle_hit_normal_opposes_ray_exact (sqrt : K → K) (hsqrt : ∀ x, 0 < x → 0 < sqrt x)
    (v0 v1 v2 : vec3 K) (m : M) (r : ray K) (ray_t : interval K) (rec : hit_record K M)
    (h : (triangle.new sqrt v0 v1 v2 m).hit r ray_t = some rec) :
    vec3.dot rec.normal r.dir < 0 := by
  have hdet := triangle.det_ne_zero_of_hit h
  have hrec := ((triangle.hit_eq_some_iff _ r ray_t rec).mp h).2.2.2.2.2.2
  rw [triangle.det_eq_neg_dot_cross] at hdet
  simp only [triangle.new] at hdet
  have hdc : vec3.dot r.dir (vec3.cross (vec3.sub v1 v0) (vec3.sub v2 v0)) ≠ 0 := by
    intro h0; apply hdet; rw [h0, neg_zero]
  have hls := vec3.length_squared_pos_of_dot_ne_zero _ _ hdc
  have hs := hsqrt _ hls
  rw [hrec]
  apply set_face_normal_opposes
  simp only [triangle.new, vec3.unit_vector, vec3.div, vec3.length]
  have : vec3.dot r.dir
      (vec3.smul (1 / sqrt (vec3.length_squared (vec3.cross (vec3.sub v1 v0) (vec3.sub v2 v0))))
        (vec3.cross (vec3.sub v1 v0) (vec3.sub v2 v0)))
      = (1 / sqrt (vec3.length_squared (vec3.cross (vec3.sub v1 v0) (vec3.sub v2 v0))))
        * vec3.dot r.dir (vec3.cross (vec3.sub v1 v0) (vec3.sub v2 v0)) := by
    simp only [vec3.dot, vec3.smul]; ring
  rw [this]
  exact mul_ne_zero (one_div_ne_zero (ne_of_gt hs)) hdc

/-- The hit point solves the Möller–Trumbore system: `ray.at(t)` is the
point of the plane with weights `u` and `v`. -/
theorem triangle.at_param_t_eq_plane_point (T : triangle K M) (r : ray K) (hdet : T.det r ≠ 0) :
    r.at (T.param_t r) = T.plane_point (T.bary_u r) (T.bary_v r) := by
  have hd : vec3.dot (vec3.sub T.v1 T.v0) (vec3.cross r.dir (vec3.sub T.v2 T.v0)) ≠ 0 := hdet
  simp only [vec3.dot, vec3.cross, vec3.sub] at hd
  apply vec3.eq_of_components <;>
  · simp only [ray.at, triangle.plane_point, triangle.param_t, triangle.bary_u, triangle.bary_v,
      triangle.det, vec3.add, vec3.smul, vec3.dot, vec3.cross, vec3.sub]
    field_simp
    ring

/-- When `det ≠ 0` the solution of the system is unique. -/
theorem triangle.bary_unique (T : triangle K M) (r : ray K) (hdet : T.det r ≠ 0) (t a b : K)
    (h : r.at t = T.plane_point a b) :
    T.bary_u r = a ∧ T.bary_v r = b ∧ T.param_t r = t := by
  obtain ⟨⟨ox, oy, oz⟩, ⟨dx, dy, dz⟩⟩ := r
  obtain ⟨⟨ax, ay, az⟩, ⟨bx, b_y, bz⟩, ⟨cx, cy, cz⟩, n, m⟩ := T
  simp only [ray.at, triangle.plane_point, vec3.add, vec3.smul, vec3.sub, vec3.mk.injEq] at h
  obtain ⟨hx, hy, hz⟩ := h
  have hox : ox = ax + a * (bx - ax) + b * (cx - ax) - t * dx := by linarith
  have hoy : oy = ay + a * (b_y - ay) + b * (cy - ay) - t * dy := by linarith
  have hoz : oz = az + a * (bz - az) + b * (cz - az) - t * dz := by linarith
  subst hox hoy hoz
  simp only [triangle.det, vec3.dot, vec3.cross, vec3.sub] at hdet
  simp only [triangle.bary_u, triangle.bary_v, triangle.param_t, triangle.det, vec3.dot,
    vec3.cross, vec3.sub]
  refine ⟨?_, ?_, ?_⟩ <;>
  · field_simp
    ring

/-- In exact arithmetic, whenever `triangle.hit` returns a record, the
recorded point is `ray.at(rec.t)` and lies in the closed triangle: it is
`v0 + u*(v1-v0) + v*(v2-v0)` for the computed weights, with `u >= 0`,
`v >= 0` and `u + v <= 1`; and a ray that meets the plane of the triangle at
a point outside the triangle (weights `a < 0`, `b < 0` or `a + b > 1`) gets
no hit, whatever the interval.  The proof rests on `det != 0`, which a hit
implies in the field and not in binary64. -/
theorem triangle_hit_point_in_triangle_exact (T : triangle K M) (r : ray K) (ray_t : interval K) :
    (∀ rec, T.hit r ray_t = some rec →
      rec.p = r.at rec.t ∧ 0 ≤ T.bary_u r ∧ 0 ≤ T.bary_v r ∧ T.bary_u r + T.bary_v r ≤ 1 ∧
        rec.p = T.plane_point (T.bary_u r) (T.bary_v r)) ∧
    (∀ t a b, r.at t = T.plane_point a b → (a < 0 ∨ b < 0 ∨ 1 < a + b) →
      T.hit r ray_t = none) := by
  constructor
  · intro rec h
    have hdet := triangle.det_ne_zero_of_hit h
    obtain ⟨-, hu0, -, hv0, huv, -, hrec⟩ := (triangle.hit_eq_some_iff T r ray_t rec).mp h
    refine ⟨by rw [hrec], hu0, hv0, huv, ?_⟩
    rw [hrec]
    exact triangle.at_param_t_eq_plane_point T r hdet
  · intro t a b hplane hout
    cases hh : T.hit r ray_t with
    | none => rfl
    | some rec =>
      exfalso
      have hdet := triangle.det_ne_zero_of_hit hh
      obtain ⟨-, hu0, -, hv0, huv, -, -⟩ := (triangle.hit_eq_some_iff T r ray_t rec).mp hh
      obtain ⟨hu, hv, -⟩ := triangle.bary_unique T r hdet t a b hplane
      rw [hu] at hu0 huv
      rw [hv] at hv0 huv
      rcases hout with h1 | h1 | h1
      · exact absurd h1 (not_lt.mpr hu0)
      · exact absurd h1 (not_lt.mpr hv0)
      · exact absurd h1 (not_lt.mpr huv)

/-- C3.  A ray from `o` with direction `centroid - o`, with
`|det| >= 1e-8` (which forces `o` off the plane) and an interval that
strictly contains `1`: `triangle::hit` returns `true` with `rec.t = 1`,
`rec.p` the centroid, and weights `u = v = 1/3`. -/
theorem triangle_hit_centroid (T : triangle K M) (o : vec3 K) (ray_t : interval K)
    (hdet : 1 / 100000000 ≤ |T.det ⟨o, vec3.sub T.centroid o⟩|)
    (hI : ray_t.surrounds 1 = true) :
    ∃ rec, T.hit ⟨o, vec3.sub T.centroid o⟩ ray_t = some rec ∧ rec.t = 1 ∧
      rec.p = T.centroid ∧ T.bary_u ⟨o, vec3.sub T.centroid o⟩ = 1 / 3 ∧
      T.bary_v ⟨o, vec3.sub T.centroid o⟩ = 1 / 3 := by
  have hne : T.det ⟨o, vec3.sub T.centroid o⟩ ≠ 0 := by
    intro h0
    rw [h0, abs_zero] at hdet
    norm_num at hdet
  have hat : (⟨o, vec3.sub T.centroid o⟩ : ray K).at 1 = T.plane_point (1 / 3) (1 / 3) := by
    apply vec3.eq_of_components <;>
    · simp only [ray.at, triangle.plane_point, triangle.centroid, vec3.div, vec3.add, vec3.smul,
        vec3.sub]
      ring
  have hc : (⟨o, vec3.sub T.centroid o⟩ : ray K).at 1 = T.centroid := by
    apply vec3.eq_of_components <;>
    · simp only [ray.at, vec3.add, vec3.smul, vec3.sub]
      ring
  obtain ⟨hu, hv, ht⟩ := triangle.bary_unique T _ hne 1 (1 / 3) (1 / 3) hat
  refine ⟨_, (triangle.hit_eq_some_iff T _ ray_t _).mpr ⟨hdet, ?_, ?_, ?_, ?_, ?_, rfl⟩, ?_, ?_,
    hu, hv⟩
  · rw [hu]; norm_num
  · rw [hu]; norm_num
  · rw [hv]; norm_num
  · rw [hu, hv]; norm_num
  · rw [ht]; exact hI
  · exact ht
  · show (⟨o, vec3.sub T.centroid o⟩ : ray K).at (T.param_t ⟨o, vec3.sub T.centroid o⟩) = _
    rw [ht]; exact hc

/-- C4.  Whenever `triangle::hit` returns `true`, the recorded parameter is
strictly inside the interval: `t_min < rec.t < t_max` (for infinite bounds
in the sense of `ext.lt`); a value equal to a bound does not pass. -/
theorem triangle_hit_t_strictly_inside (T : triangle K M) (r : ray K) (ray_t : interval K)
    (rec : hit_record K M) (h : T.hit r ray_t = some rec) :
    ext.lt ray_t.min (ext.fin rec.t) = true ∧ ext.lt (ext.fin rec.t) ray_t.max = true ∧
      (∀ t_min, ray_t.min = ext.fin t_min → t_min < rec.t) ∧
      (∀ t_max, ray_t.max = ext.fin t_max → rec.t < t_max) := by
  obtain ⟨-, -, -, -, -, hs, hrec⟩ := (triangle.hit_eq_some_iff T r ray_t rec).mp h
  have ht : rec.t = T.param_t r := by rw [hrec]
  rw [ht]
  simp only [interval.surrounds, Bool.and_eq_true] at hs
  refine ⟨hs.1, hs.2, ?_, ?_⟩
  · intro a ha
    have := hs.1
    rw [ha] at this
    simpa [ext.lt] using this
  · intro b hb
    have := hs.2
    rw [hb] at this
    simpa [ext.lt] using this

end triangle_theorems

/-! ## Evaluations on concrete data -/

/-- The rational square root is positive on positive numbers. -/
theorem rat_sqrt_pos (x : ℚ) (h : 0 < x) : 0 < Rat.sqrt x := by
  have h1 : 0 ≤ Rat.sqrt x := Rat.sqrt_nonneg x
  rcases eq_or_lt_of_le h1 with h0 | h0
  · exfalso
    unfold Rat.sqrt at h0
    have hn : 0 < x.num := Rat.num_pos.mpr h
    have hd : Nat.sqrt x.den ≠ 0 := Nat.pos_iff_ne_zero.mp (Nat.sqrt_pos.mpr x.den_pos)
    have := (Rat.mkRat_eq_zero hd).mp h0.symm
    rw [Int.sqrt] at this
    have h2 : 0 < Nat.sqrt x.num.toNat := Nat.sqrt_pos.mpr (by omega)
    omega
  · exact h0

/-- The ray aimed at the centroid of `unit_triangle` is accepted with the
record `centroid_rec`. -/
theorem unit_triangle_hit_centroid_ray :
    unit_triangle.hit centroid_ray ⟨ext.fin 0, ext.pinf⟩ = some centroid_rec := by
  simp [unit_triangle, centroid_ray, centroid_rec, triangle.hit, triangle.new, vec3.dot,
    vec3.cross, vec3.sub, vec3.unit_vector, vec3.div, vec3.smul, vec3.length,
    vec3.length_squared, interval.surrounds, ext.lt, set_face_normal, ray.at, vec3.add]
  norm_num

/-- The same ray is accepted by the triangle with the other winding, on its
back face. -/
theorem unit_triangle_rev_hit_centroid_ray :
    unit_triangle_rev.hit centroid_ray ⟨ext.fin 0, ext.fin 2⟩ = some centroid_rec_rev := by
  simp [unit_triangle_rev, centroid_ray, centroid_rec_rev, triangle.hit, triangle.new, vec3.dot,
    vec3.cross, vec3.sub, vec3.unit_vector, vec3.div, vec3.smul, vec3.length,
    vec3.length_squared, interval.surrounds, ext.lt, set_face_normal, ray.at, vec3.add,
    vec3.neg]
  norm_num

/-- The exact orientation of the normal at a concrete input: front-face hit
and back-face hit. -/
theorem triangle_hit_normal_opposes_ray_exact_witness :
    vec3.dot centroid_rec.normal centroid_ray.dir < 0 ∧
      vec3.dot centroid_rec_rev.normal centroid_ray.dir < 0 :=
  ⟨triangle_hit_normal_opposes_ray_exact Rat.sqrt rat_sqrt_pos ⟨0, 0, 0⟩ ⟨1, 0, 0⟩ ⟨0, 1, 0⟩ 0
      centroid_ray ⟨ext.fin 0, ext.pinf⟩ centroid_rec unit_triangle_hit_centroid_ray,
   triangle_hit_normal_opposes_ray_exact Rat.sqrt rat_sqrt_pos ⟨0, 0, 0⟩ ⟨0, 1, 0⟩ ⟨1, 0, 0⟩ 0
      centroid_ray ⟨ext.fin 0, ext.fin 2⟩ centroid_rec_rev unit_triangle_rev_hit_centroid_ray⟩

/-- The exact hit point at a concrete input: the accepted ray, and a ray
that meets the plane at `(2,2,0) = v0 + 2*(v1-v0) + 2*(v2-v0)`. -/
theorem triangle_hit_point_in_triangle_exact_witness :
    (centroid_rec.p = centroid_ray.at centroid_rec.t ∧ 0 ≤ unit_triangle.bary_u centroid_ray ∧
      0 ≤ unit_triangle.bary_v centroid_ray ∧
      unit_triangle.bary_u centroid_ray + unit_triangle.bary_v centroid_ray ≤ 1 ∧
      centroid_rec.p =
        unit_triangle.plane_point (unit_triangle.bary_u centroid_ray)
          (unit_triangle.bary_v centroid_ray)) ∧
    unit_triangle.hit outside_ray ⟨ext.fin 0, ext.pinf⟩ = none :=
  ⟨(triangle_hit_point_in_triangle_exact unit_triangle centroid_ray ⟨ext.fin 0, ext.pinf⟩).1
      centroid_rec unit_triangle_hit_centroid_ray,
   (triangle_hit_point_in_triangle_exact unit_triangle outside_ray ⟨ext.fin 0, ext.pinf⟩).2 1 2 2
      (by norm_num [outside_ray, unit_triangle, triangle.new, triangle.plane_point, ray.at,
        vec3.add, vec3.smul, vec3.sub])
      (Or.inr (Or.inr (by norm_num)))⟩

/-- C3 at a concrete input: the origin `(1/3, 1/3, 1)` above `unit_triangle`. -/
theorem triangle_hit_centroid_witness :
    ∃ rec, unit_triangle.hit ⟨⟨1 / 3, 1 / 3, 1⟩, vec3.sub unit_triangle.centroid ⟨1 / 3, 1 / 3, 1⟩⟩
        ⟨ext.fin 0, ext.pinf⟩ = some rec ∧ rec.t = 1 ∧
      rec.p = unit_triangle.centroid ∧
      unit_triangle.bary_u ⟨⟨1 / 3, 1 / 3, 1⟩, vec3.sub unit_triangle.centroid ⟨1 / 3, 1 / 3, 1⟩⟩
        = 1 / 3 ∧
      unit_triangle.bary_v ⟨⟨1 / 3, 1 / 3, 1⟩, vec3.sub unit_triangle.centroid ⟨1 / 3, 1 / 3, 1⟩⟩
        = 1 / 3 :=
  triangle_hit_centroid unit_triangle ⟨1 / 3, 1 / 3, 1⟩ ⟨ext.fin 0, ext.pinf⟩
    (by norm_num [unit_triangle, triangle.new, triangle.det, triangle.centroid, vec3.div,
      vec3.dot, vec3.cross, vec3.sub, vec3.add, vec3.smul])
    (by simp [interval.surrounds, ext.lt])

/-- C4 at a concrete input: the interval `(0, 2)` and the hit at `t = 1`. -/
theorem triangle_hit_t_strictly_inside_witness :
    ext.lt (ext.fin (0 : ℚ)) (ext.fin centroid_rec_rev.t) = true ∧
      ext.lt (ext.fin centroid_rec_rev.t) (ext.fin (2 : ℚ)) = true ∧
      (∀ t_min, ext.fin (0 : ℚ) = ext.fin t_min → t_min < centroid_rec_rev.t) ∧
      (∀ t_max, ext.fin (2 : ℚ) = ext.fin t_max → centroid_rec_rev.t < t_max) :=
  triangle_hit_t_strictly_inside unit_triangle_rev centroid_ray ⟨ext.fin 0, ext.fin 2⟩
    centroid_rec_rev unit_triangle_rev_hit_centroid_ray

/-! ## Theorems: `camera.h` -/

section camera_theorems

variable {K M G : Type} [LinearOrderedField K]

theorem vec3.nonneg_zero : (vec3.zero : vec3 K).nonneg := by
  simp [vec3.nonneg, vec3.zero]

theorem vec3.nonneg_add {a b : vec3 K} (ha : a.nonneg) (hb : b.nonneg) :
    (vec3.add a b).nonneg :=
  ⟨add_nonneg ha.1 hb.1, add_nonneg ha.2.1 hb.2.1, add_nonneg ha.2.2 hb.2.2⟩

theorem vec3.nonneg_mul {a b : vec3 K} (ha : a.nonneg) (hb : b.nonneg) :
    (vec3.mul a b).nonneg :=
  ⟨mul_nonneg ha.1 hb.1, mul_nonneg ha.2.1 hb.2.1, mul_nonneg ha.2.2 hb.2.2⟩

theorem vec3.nonneg_smul {t : K} {a : vec3 K} (ht : 0 ≤ t) (ha : a.nonneg) :
    (vec3.smul t a).nonneg :=
  ⟨mul_nonneg ht ha.1, mul_nonneg ht ha.2.1, mul_nonneg ht ha.2.2⟩

theorem vec3.length_squared_nonneg (a : vec3 K) : 0 ≤ vec3.length_squared a := by
  simp only [vec3.length_squared]
  nlinarith [mul_self_nonneg a.x, mul_self_nonneg a.y, mul_self_nonneg a.z]

/-- The first statement of `ray_color`: no depth left, black, and the
generator state untouched. -/
theorem ray_color_of_nonpos (cam : camera K) (sqrt : K → K)
    (random_in_unit_disk : G → vec3 K × G) (mats : material K M G) (world : hittable K M)
    (r : ray K) (depth : Int) (g : G) (h : depth ≤ 0) :
    ray_color cam sqrt random_in_unit_disk mats world r depth g = (vec3.zero, g) := by
  rw [ray_color]
  simp only [h, if_true]

/-- C5.  For every ray, scene and `depth <= 0`, `ray_color` returns exactly
black.  The value is the same for every scene (the scene is not consulted),
and the generator state comes back unchanged. -/
theorem ray_color_depth_nonpositive_black (cam : camera K) (sqrt : K → K)
    (random_in_unit_disk : G → vec3 K × G) (mats : material K M G) (world : hittable K M)
    (r : ray K) (depth : Int) (g : G) (h : depth ≤ 0) :
    ray_color cam sqrt random_in_unit_disk mats world r depth g = (⟨0, 0, 0⟩, g) :=
  ray_color_of_nonpos cam sqrt random_in_unit_disk mats world r depth g h

theorem sample_on_light_point (random_in_unit_disk : G → vec3 K × G) (C : vec3 K) (R : K)
    (g : G) (hR : R ≤ 0) : sample_on_light random_in_unit_disk C R g = (C, g) := by
  simp only [sample_on_light, hR, if_true]

/-- The cosine term of a light that the surface faces is positive. -/
theorem ndotl_pos (sqrt : K → K) (hsqrt : ∀ x, 0 < x → 0 < sqrt x) (normal p L : vec3 K)
    (hface : 0 < vec3.dot normal (vec3.sub L p)) :
    0 < max 0 (vec3.dot normal (vec3.unit_vector sqrt (vec3.sub L p))) := by
  have hls := vec3.length_squared_pos_of_dot_ne_zero _ _ (ne_of_gt hface)
  have hs := hsqrt _ hls
  have : vec3.dot normal (vec3.unit_vector sqrt (vec3.sub L p))
      = (1 / sqrt (vec3.length_squared (vec3.sub L p))) * vec3.dot normal (vec3.sub L p) := by
    simp only [vec3.unit_vector, vec3.div, vec3.length, vec3.dot, vec3.smul]; ring
  rw [this]
  exact lt_max_of_lt_right (mul_pos (one_div_pos.mpr hs) hface)

/-- Point light, shadow ray blocked: the loop leaves the accumulator as it
is. -/
theorem direct_light_loop_point_occluded (sqrt : K → K) (random_in_unit_disk : G → vec3 K × G)
    (rec : hit_record K M) (world : hittable K M) (C : vec3 K) (R : K) (Li : vec3 K)
    (hR : R ≤ 0) (hocc : visible_to_light sqrt rec.p C world = false) (k : Nat) :
    ∀ (sum : vec3 K) (g : G),
      direct_light_loop sqrt random_in_unit_disk rec world C R Li k sum g = (sum, g) := by
  induction k with
  | zero => intro sum g; rfl
  | succ k ih =>
    intro sum g
    rw [direct_light_loop]
    simp only [sample_on_light_point _ _ _ _ hR, hocc, ih]
    simp

/-- Point light, shadow ray free, positive cosine: each of the `k` iterations
adds the same term. -/
theorem direct_light_loop_point_visible (sqrt : K → K) (random_in_unit_disk : G → vec3 K × G)
    (rec : hit_record K M) (world : hittable K M) (C : vec3 K) (R : K) (Li : vec3 K)
    (hR : R ≤ 0) (hvis : visible_to_light sqrt rec.p C world = true)
    (hn : 0 < max 0 (vec3.dot rec.normal (vec3.unit_vector sqrt (vec3.sub C rec.p))))
    (k : Nat) :
    ∀ (sum : vec3 K) (g : G),
      direct_light_loop sqrt random_in_unit_disk rec world C R Li k sum g =
        (vec3.add sum (vec3.smul (k : K)
          (vec3.smul (max 0 (vec3.dot rec.normal (vec3.unit_vector sqrt (vec3.sub C rec.p)))
            / vec3.length_squared (vec3.sub C rec.p)) Li)), g) := by
  induction k with
  | zero =>
    intro sum g
    simp only [direct_light_loop, Nat.cast_zero, Prod.mk.injEq, and_true]
    apply vec3.eq_of_components <;> simp [vec3.add, vec3.smul]
  | succ k ih =>
    intro sum g
    rw [direct_light_loop]
    simp only [sample_on_light_point _ _ _ _ hR, hvis, ih, not_le.mpr hn, if_false, if_true,
      Prod.mk.injEq, and_true]
    apply vec3.eq_of_components <;>
    · simp only [vec3.add, vec3.smul]
      push_cast
      ring

/-- C6, as the code has it.  Direct lighting enabled, a point light
(`light_radius <= 0`) of strictly positive intensity at `L`, a hit point
whose normal faces the light: `direct_light_sampled` returns exactly zero
when the scene reports a hit for the shadow ray cast by `visible_to_light`,
and a colour strictly positive in every channel when it reports none. -/
theorem direct_light_point_shadow (cam : camera K) (sqrt : K → K)
    (hsqrt : ∀ x, 0 < x → 0 < sqrt x) (random_in_unit_disk : G → vec3 K × G)
    (rec : hit_record K M) (world : hittable K M) (L : vec3 K) (R : K) (Li : vec3 K)
    (shadow_samples : Int) (g : G)
    (hon : cam.enable_direct_lighting = true) (hR : R ≤ 0) (hLi : Li.pos)
    (hface : 0 < vec3.dot rec.normal (vec3.sub L rec.p)) :
    (visible_to_light sqrt rec.p L world = false →
      (direct_light_sampled cam sqrt random_in_unit_disk rec world L R Li shadow_samples g).1
        = vec3.zero) ∧
    (visible_to_light sqrt rec.p L world = true →
      (direct_light_sampled cam sqrt random_in_unit_disk rec world L R Li shadow_samples g).1.pos)
    := by
  constructor
  · intro hocc
    rw [direct_light_sampled]
    simp only [hon, Bool.not_true, Bool.false_eq_true, if_false,
      direct_light_loop_point_occluded sqrt random_in_unit_disk rec world L R Li hR hocc]
    simp [vec3.div, vec3.smul, vec3.zero]
  · intro hvis
    have hn := ndotl_pos sqrt hsqrt rec.normal rec.p L hface
    have hls := vec3.length_squared_pos_of_dot_ne_zero _ _ (ne_of_gt hface)
    rw [direct_light_sampled]
    simp only [hon, Bool.not_true, Bool.false_eq_true, if_false,
      direct_light_loop_point_visible sqrt random_in_unit_disk rec world L R Li hR hvis hn]
    have hnK : (0 : K) < ((max 1 shadow_samples : Int) : K) := by
      have : (0 : Int) < max 1 shadow_samples := by omega
      exact_mod_cast this
    have hk : (0 : K) < (((max 1 shadow_samples : Int).toNat : Nat) : K) := by
      have : 0 < (max 1 shadow_samples : Int).toNat := by omega
      exact_mod_cast this
    have hc := div_pos hn hls
    simp only [vec3.pos, vec3.div, vec3.smul, vec3.add, vec3.zero, zero_add]
    obtain ⟨hx, hy, hz⟩ := hLi
    refine ⟨?_, ?_, ?_⟩ <;> positivity

theorem direct_light_loop_nonneg (sqrt : K → K) (random_in_unit_disk : G → vec3 K × G)
    (rec : hit_record K M) (world : hittable K M) (C : vec3 K) (R : K) (Li : vec3 K)
    (hLi : Li.nonneg) (k : Nat) :
    ∀ (sum : vec3 K) (g : G), sum.nonneg →
      (direct_light_loop sqrt random_in_unit_disk rec world C R Li k sum g).1.nonneg := by
  induction k with
  | zero => intro sum g hs; simpa [direct_light_loop] using hs
  | succ k ih =>
    intro sum g hs
    rw [direct_light_loop]
    simp only
    split_ifs with h1 h2
    · exact ih _ _ hs
    · apply ih
      apply vec3.nonneg_add hs
      apply vec3.nonneg_smul _ hLi
      exact div_nonneg (le_max_left _ _) (vec3.length_squared_nonneg _)
    · exact ih _ _ hs

theorem direct_light_sampled_nonneg (cam : camera K) (sqrt : K → K)
    (random_in_unit_disk : G → vec3 K × G)
    (rec : hit_record K M) (world : hittable K M) (C : vec3 K) (R : K) (Li : vec3 K)
    (hLi : Li.nonneg) (shadow_samples : Int) (g : G) :
    (direct_light_sampled cam sqrt random_in_unit_disk rec world C R Li shadow_samples g).1.nonneg
    := by
  rw [direct_light_sampled]
  split_ifs with h
  · exact vec3.nonneg_zero
  · simp only [vec3.div]
    apply vec3.nonneg_smul
    · apply div_nonneg zero_le_one
      have : (0 : Int) ≤ max 1 shadow_samples := le_trans zero_le_one (le_max_left _ _)
      exact_mod_cast this
    · exact direct_light_loop_nonneg sqrt random_in_unit_disk rec world C R Li hLi _ _ _
        vec3.nonneg_zero

theorem background_nonneg (a : K) (ha : a ≤ 1) :
    (vec3.add (vec3.smul (1 - a) ⟨1, 1, 1⟩) (vec3.smul a ⟨1 / 2, 7 / 10, 1⟩)).nonneg := by
  simp only [vec3.nonneg, vec3.add, vec3.smul]
  refine ⟨?_, ?_, ?_⟩ <;> linarith

/-- C9.  Direct lighting disabled and a ray for which the scene reports a
hit: `ray_color(ray, 1, scene)` is exactly the emitted colour of the
material of the hit, whether or not the material scatters; in particular it
is black when the material does not emit. -/
theorem ray_color_depth_one_emitted (cam : camera K) (sqrt : K → K)
    (random_in_unit_disk : G → vec3 K × G) (mats : material K M G) (world : hittable K M)
    (r : ray K) (g : G) (rec : hit_record K M)
    (hoff : cam.enable_direct_lighting = false)
    (hhit : world r ⟨ext.fin (1 / 1000), ext.pinf⟩ = some rec) :
    (ray_color cam sqrt random_in_unit_disk mats world r 1 g).1 = mats.emitted rec.mat ∧
      (mats.emitted rec.mat = ⟨0, 0, 0⟩ →
        (ray_color cam sqrt random_in_unit_disk mats world r 1 g).1 = ⟨0, 0, 0⟩) := by
  have key : (ray_color cam sqrt random_in_unit_disk mats world r 1 g).1
      = mats.emitted rec.mat := by
    rw [ray_color]
    simp only [hhit, hoff]
    norm_num
    split
    · simp only [ray_color_of_nonpos, le_refl]
      apply vec3.eq_of_components <;> simp [vec3.add, vec3.mul, vec3.zero]
    · apply vec3.eq_of_components <;> simp [vec3.add, vec3.mul, vec3.zero]
  exact ⟨key, fun h => by rw [key, h]⟩

end camera_theorems

section initialize_theorems

variable {K : Type} [LinearOrderedField K] [FloorRing K]

/-- Whatever the inputs, a value left in `image_height` is at least `1`. -/
theorem initialize_image_height_ge_one (image_width : Int) (aspect_ratio : K) (h : Int)
    (hh : initialize_image_height image_width aspect_ratio = some h) : 1 ≤ h := by
  unfold initialize_image_height at hh
  split at hh
  · cases hh
  · have := Option.some.inj hh
    rw [← this]
    split_ifs with h1
    · exact le_refl 1
    · exact not_lt.mp h1

/-- C10, as the code has it.  For `image_width >= 1` and `aspect_ratio > 0`
whose quotient fits an `int`, `initialize` sets `image_height` to the
quotient truncated toward zero (its floor), raised to `1` when that is
below `1`; and any value it leaves in `image_height` is `>= 1`. -/
theorem initialize_image_height_truncates (image_width : Int) (aspect_ratio : K)
    (hw : 1 ≤ image_width) (ha : 0 < aspect_ratio)
    (hfit : (image_width : K) / aspect_ratio < 2147483648) :
    initialize_image_height image_width aspect_ratio
        = some (max 1 ⌊(image_width : K) / aspect_ratio⌋) ∧
      (∀ h, initialize_image_height image_width aspect_ratio = some h → 1 ≤ h) := by
  have hwK : (0 : K) < (image_width : K) := by
    have : (0 : Int) < image_width := by omega
    exact_mod_cast this
  have hq : (0 : K) ≤ (image_width : K) / aspect_ratio := le_of_lt (div_pos hwK ha)
  have hf0 : (0 : Int) ≤ ⌊(image_width : K) / aspect_ratio⌋ := Int.floor_nonneg.mpr hq
  have hf1 : ⌊(image_width : K) / aspect_ratio⌋ < 2147483648 := by
    rw [Int.floor_lt]; exact_mod_cast hfit
  have hrange : -2147483648 ≤ ⌊(image_width : K) / aspect_ratio⌋ ∧
      ⌊(image_width : K) / aspect_ratio⌋ ≤ 2147483647 := ⟨by omega, by omega⟩
  refine ⟨?_, fun h hh => initialize_image_height_ge_one image_width aspect_ratio h hh⟩
  simp only [initialize_image_height, double_to_int, hq, if_true, hrange, and_self]
  congr 1
  split_ifs with h1
  · rw [max_eq_left]; omega
  · rw [max_eq_right]; omega

end initialize_theorems

/-! ## Evaluations on concrete data: `camera.h` -/

/-- C5 at concrete inputs: depth `0` and depth `-3`. -/
theorem ray_color_depth_nonpositive_black_witness :
    ray_color (camera.default : camera ℚ) Rat.sqrt (no_disk ℚ) (example_materials ℚ)
        unit_triangle.hit centroid_ray 0 0 = (⟨0, 0, 0⟩, 0) ∧
      ray_color (camera.default : camera ℚ) Rat.sqrt (no_disk ℚ) (example_materials ℚ)
        unit_triangle.hit centroid_ray (-3) 0 = (⟨0, 0, 0⟩, 0) :=
  ⟨ray_color_depth_nonpositive_black _ _ _ _ _ _ 0 0 (by decide),
   ray_color_depth_nonpositive_black _ _ _ _ _ _ (-3) 0 (by decide)⟩

/-- The shadow ray from the origin to the light at `(0,0,1)` starts at
`z = 1/10000`, above the triangle at `z = 1/20000`: the light is reported
visible. -/
theorem visible_bias_triangle :
    visible_to_light Rat.sqrt floor_rec.p ⟨0, 0, 1⟩ bias_triangle.hit = true := by
  simp [visible_to_light, floor_rec, bias_triangle, triangle.hit, triangle.new, vec3.dot,
    vec3.cross, vec3.sub, vec3.unit_vector, vec3.div, vec3.smul, vec3.length,
    vec3.length_squared, interval.surrounds, ext.lt, set_face_normal, ray.at, vec3.add]
  norm_num

/-- The triangle at `z = 1/2` blocks the light at `(0,0,1)`. -/
theorem occluded_mid_triangle :
    visible_to_light Rat.sqrt floor_rec.p ⟨0, 0, 1⟩ mid_triangle.hit = false := by
  simp [visible_to_light, floor_rec, mid_triangle, triangle.hit, triangle.new, vec3.dot,
    vec3.cross, vec3.sub, vec3.unit_vector, vec3.div, vec3.smul, vec3.length,
    vec3.length_squared, interval.surrounds, ext.lt, set_face_normal, ray.at, vec3.add]
  norm_num

/-- C6 as stated fails.  Point light of intensity `(7,7,7)` at `(0,0,1)`,
hit point at the origin with normal `(0,0,1)`, and a triangle that crosses
the open segment between them at `(0,0,1/20000)`: `direct_light_sampled`
returns `(7,7,7)`, not zero.  The occluder lies closer to the hit point than
the `1e-4` offset of the shadow ray. -/
theorem direct_light_occluder_within_bias :
    lit_camera.enable_direct_lighting = true ∧
    0 < vec3.dot floor_rec.normal (vec3.sub ⟨0, 0, 1⟩ floor_rec.p) ∧
    ((0 : ℚ) < 1 / 20000 ∧ (1 / 20000 : ℚ) < 1 ∧
      (⟨floor_rec.p, vec3.sub ⟨0, 0, 1⟩ floor_rec.p⟩ : ray ℚ).at (1 / 20000)
        = bias_triangle.plane_point (1 / 4) (1 / 2) ∧
      (0 : ℚ) ≤ 1 / 4 ∧ (0 : ℚ) ≤ 1 / 2 ∧ (1 / 4 + 1 / 2 : ℚ) ≤ 1) ∧
    (direct_light_sampled lit_camera Rat.sqrt (no_disk ℚ) floor_rec bias_triangle.hit
      ⟨0, 0, 1⟩ 0 ⟨7, 7, 7⟩ 1 0).1 = ⟨7, 7, 7⟩ := by
  refine ⟨rfl, ?_, ⟨by norm_num, by norm_num, ?_, by norm_num, by norm_num, by norm_num⟩, ?_⟩
  · norm_num [floor_rec, vec3.dot, vec3.sub]
  · norm_num [floor_rec, bias_triangle, triangle.new, triangle.plane_point, ray.at, vec3.add,
      vec3.smul, vec3.sub]
  · simp [direct_light_sampled, lit_camera, direct_light_loop, sample_on_light,
      visible_bias_triangle]
    simp [floor_rec, vec3.unit_vector, vec3.div, vec3.smul, vec3.length,
      vec3.length_squared, vec3.sub, vec3.dot, vec3.add, vec3.zero]
    norm_num

/-- C6 as amended, at concrete inputs: four shadow samples, a blocking
triangle at `z = 1/2`, and a triangle the shadow ray does not meet. -/
theorem direct_light_point_shadow_witness :
    (direct_light_sampled lit_camera Rat.sqrt (no_disk ℚ) floor_rec mid_triangle.hit
      ⟨0, 0, 1⟩ 0 ⟨7, 7, 7⟩ 4 0).1 = vec3.zero ∧
    (direct_light_sampled lit_camera Rat.sqrt (no_disk ℚ) floor_rec bias_triangle.hit
      ⟨0, 0, 1⟩ 0 ⟨7, 7, 7⟩ 4 0).1.pos :=
  ⟨(direct_light_point_shadow lit_camera Rat.sqrt rat_sqrt_pos (no_disk ℚ) floor_rec
      mid_triangle.hit ⟨0, 0, 1⟩ 0 ⟨7, 7, 7⟩ 4 0 rfl (le_refl 0)
      (by norm_num [vec3.pos]) (by norm_num [floor_rec, vec3.dot, vec3.sub])).1
      occluded_mid_triangle,
   (direct_light_point_shadow lit_camera Rat.sqrt rat_sqrt_pos (no_disk ℚ) floor_rec
      bias_triangle.hit ⟨0, 0, 1⟩ 0 ⟨7, 7, 7⟩ 4 0 rfl (le_refl 0)
      (by norm_num [vec3.pos]) (by norm_num [floor_rec, vec3.dot, vec3.sub])).2
      visible_bias_triangle⟩

/-- C7 on the code.  Hit point at the origin, light at `(0,0,2)`, and one
triangle in the plane `z = 3`, beyond the light.  The shadow ray starts at
`(0,0,1/10000)` with the direction `L - p = (0,0,2)`, which is not
normalised, while its interval ends at `|L - p| - 1e-4`; the only point where
it can meet the triangle is `(0,0,3)`, farther from the hit point than the
light, and still `visible_to_light` answers `false`. -/
theorem visible_to_light_blocked_beyond_light :
    visible_to_light Rat.sqrt (⟨0, 0, 0⟩ : vec3 ℚ) ⟨0, 0, 2⟩ far_triangle.hit = false ∧
    vec3.add (⟨0, 0, 0⟩ : vec3 ℚ)
        (vec3.smul (1 / 10000) (vec3.unit_vector Rat.sqrt (vec3.sub ⟨0, 0, 2⟩ ⟨0, 0, 0⟩)))
      = ⟨0, 0, 1 / 10000⟩ ∧
    (∀ ray_t rec, far_triangle.hit ⟨⟨0, 0, 1 / 10000⟩, ⟨0, 0, 2⟩⟩ ray_t = some rec →
      rec.p = ⟨0, 0, 3⟩) ∧
    vec3.length_squared (vec3.sub (⟨0, 0, 2⟩ : vec3 ℚ) ⟨0, 0, 0⟩)
      < vec3.length_squared (vec3.sub (⟨0, 0, 3⟩ : vec3 ℚ) ⟨0, 0, 0⟩) := by
  refine ⟨?_, ?_, ?_, ?_⟩
  · simp [visible_to_light, far_triangle, triangle.hit, triangle.new, vec3.dot,
      vec3.cross, vec3.sub, vec3.unit_vector, vec3.div, vec3.smul, vec3.length,
      vec3.length_squared, interval.surrounds, ext.lt, set_face_normal, ray.at, vec3.add]
    norm_num
  · simp [vec3.sub, vec3.unit_vector, vec3.div, vec3.smul, vec3.length, vec3.length_squared,
      vec3.add, Rat.sqrt_eq]
  · intro ray_t rec h
    have hrec := ((triangle.hit_eq_some_iff _ _ _ _).mp h).2.2.2.2.2.2
    rw [hrec]
    norm_num [far_triangle, triangle.new, triangle.param_t, triangle.det, ray.at, vec3.dot,
      vec3.cross, vec3.sub, vec3.add, vec3.smul]
  · norm_num [vec3.length_squared, vec3.sub]

theorem example_materials_emitted_nonneg (K : Type) [LinearOrderedField K] (m : Nat) :
    ((example_materials K).emitted m).nonneg := by
  simp only [example_materials]
  split_ifs <;> norm_num [vec3.nonneg]

theorem example_materials_attenuation_nonneg (K : Type) [LinearOrderedField K] (m : Nat)
    (r : ray K) (rec : hit_record K Nat) (g : Nat) (att : vec3 K) (sc : ray K)
    (h : ((example_materials K).scatter m r rec g).1 = some (att, sc)) : att.nonneg := by
  simp only [example_materials] at h
  split_ifs at h
  cases h
  norm_num [vec3.nonneg]

/-- The primary-ray query `(0.001, infinity)` on `unit_triangle`. -/
theorem unit_triangle_hit_primary :
    unit_triangle.hit centroid_ray ⟨ext.fin (1 / 1000), ext.pinf⟩ = some centroid_rec := by
  simp [unit_triangle, centroid_ray, centroid_rec, triangle.hit, triangle.new, vec3.dot,
    vec3.cross, vec3.sub, vec3.unit_vector, vec3.div, vec3.smul, vec3.length,
    vec3.length_squared, interval.surrounds, ext.lt, set_face_normal, ray.at, vec3.add]
  norm_num

/-- The primary-ray query `(0.001, infinity)` on `light_triangle`. -/
theorem light_triangle_hit_primary :
    light_triangle.hit centroid_ray ⟨ext.fin (1 / 1000), ext.pinf⟩ = some light_rec := by
  simp [light_triangle, centroid_ray, light_rec, triangle.hit, triangle.new, vec3.dot,
    vec3.cross, vec3.sub, vec3.unit_vector, vec3.div, vec3.smul, vec3.length,
    vec3.length_squared, interval.surrounds, ext.lt, set_face_normal, ray.at, vec3.add]
  norm_num

/-- C9 at concrete inputs: the grey triangle gives black, the light
triangle gives its emitted colour `(4,4,4)`. -/
theorem ray_color_depth_one_emitted_witness :
    (ray_color (camera.default : camera ℚ) Rat.sqrt (no_disk ℚ) (example_materials ℚ)
        unit_triangle.hit centroid_ray 1 0).1 = ⟨0, 0, 0⟩ ∧
    (ray_color (camera.default : camera ℚ) Rat.sqrt (no_disk ℚ) (example_materials ℚ)
        light_triangle.hit centroid_ray 1 0).1 = ⟨4, 4, 4⟩ :=
  ⟨(ray_color_depth_one_emitted (camera.default : camera ℚ) Rat.sqrt (no_disk ℚ)
      (example_materials ℚ) unit_triangle.hit centroid_ray 0 centroid_rec rfl
      unit_triangle_hit_primary).2 (by simp [example_materials, centroid_rec]),
   (ray_color_depth_one_emitted (camera.default : camera ℚ) Rat.sqrt (no_disk ℚ)
      (example_materials ℚ) light_triangle.hit centroid_ray 0 light_rec rfl
      light_triangle_hit_primary).1⟩

/-- C10 as stated fails.  `image_width = 7`, `aspect_ratio = 4`: the
quotient is `1.75`, whose nearest integer is `2`, and `initialize` leaves
`image_height = 1`. -/
theorem initialize_image_height_not_rounded :
    (1 : Int) ≤ 7 ∧ (0 : ℚ) < 4 ∧
    initialize_image_height 7 (4 : ℚ) = some 1 ∧ round ((7 : ℚ) / 4) = 2 := by
  refine ⟨by norm_num, by norm_num, ?_, ?_⟩
  · have h : ⌊(7 : ℚ) / 4⌋ = 1 := by rw [Int.floor_eq_iff]; norm_num
    have h0 : (0 : ℚ) ≤ 7 / 4 := by norm_num
    simp only [initialize_image_height, double_to_int, Int.cast_ofNat, h0, if_true, h]
    norm_num
  · rw [round_eq, Int.floor_eq_iff]; norm_num

/-- C10 as amended, at `image_width = 7`, `aspect_ratio = 4`. -/
theorem initialize_image_height_truncates_witness :
    initialize_image_height 7 (4 : ℚ) = some (max 1 ⌊((7 : Int) : ℚ) / 4⌋) ∧
      (∀ h, initialize_image_height 7 (4 : ℚ) = some h → 1 ≤ h) :=
  initialize_image_height_truncates 7 (4 : ℚ) (by norm_num) (by norm_num) (by norm_num)

/-! ## Theorems: light switch, degeneracy and winding -/

section direct_lighting_off
variable {K M G : Type} [LinearOrderedField K]

/-- The guard of `direct_light_sampled`. -/
theorem direct_light_sampled_off (cam : camera K) (sqrt : K → K)
    (random_in_unit_disk : G → vec3 K × G) (rec : hit_record K M) (world : hittable K M)
    (C : vec3 K) (R : K) (Li : vec3 K) (shadow_samples : Int) (g : G)
    (hoff : cam.enable_direct_lighting = false) :
    direct_light_sampled cam sqrt random_in_unit_disk rec world C R Li shadow_samples g
      = (vec3.zero, g) := by
  simp only [direct_light_sampled, hoff, Bool.not_false, if_true]

/-- Two cameras with direct lighting off give the same `ray_color`. -/
theorem ray_color_off_of_le (cam1 cam2 : camera K) (sqrt : K → K)
    (random_in_unit_disk : G → vec3 K × G) (mats : material K M G) (world : hittable K M)
    (h1 : cam1.enable_direct_lighting = false) (h2 : cam2.enable_direct_lighting = false)
    (n : Nat) :
    ∀ (depth : Int) (r : ray K) (g : G), depth ≤ n →
      ray_color cam1 sqrt random_in_unit_disk mats world r depth g
        = ray_color cam2 sqrt random_in_unit_disk mats world r depth g := by
  induction n with
  | zero =>
    intro depth r g hd
    have : depth ≤ 0 := by exact_mod_cast hd
    rw [ray_color_of_nonpos _ _ _ _ _ _ _ _ this, ray_color_of_nonpos _ _ _ _ _ _ _ _ this]
  | succ n ih =>
    intro depth r g hd
    rw [ray_color, ray_color.eq_1 cam2]
    by_cases h0 : depth ≤ 0
    · simp only [h0, if_true]
    · have hd' : depth - 1 ≤ (n : Int) := by push_cast at hd; linarith
      simp only [h0, if_false, h1, h2, Bool.false_eq_true, ih (depth - 1) _ _ hd']

/-- C11.  With `enable_direct_lighting = false` the light contributes
nothing: `direct_light_sampled` returns `(0,0,0)` (and draws no random
number), and for every scene, ray, depth and generator state `ray_color`
returns the same result whatever `light_pos`, `light_intensity`,
`light_radius` and `soft_shadow_samples` are set to. -/
theorem direct_lighting_off_light_ignored (cam : camera K) (sqrt : K → K)
    (random_in_unit_disk : G → vec3 K × G) (mats : material K M G) (world : hittable K M)
    (hoff : cam.enable_direct_lighting = false) :
    (∀ (rec : hit_record K M) (C : vec3 K) (R : K) (Li : vec3 K) (shadow_samples : Int) (g : G),
      direct_light_sampled cam sqrt random_in_unit_disk rec world C R Li shadow_samples g
        = (⟨0, 0, 0⟩, g)) ∧
    (∀ (light_pos light_intensity : vec3 K) (light_radius : K) (soft_shadow_samples : Int)
      (r : ray K) (depth : Int) (g : G),
      ray_color { cam with light_pos := light_pos, light_intensity := light_intensity,
                           light_radius := light_radius,
                           soft_shadow_samples := soft_shadow_samples }
          sqrt random_in_unit_disk mats world r depth g
        = ray_color cam sqrt random_in_unit_disk mats world r depth g) := by
  constructor
  · intro rec C R Li ss g
    exact direct_light_sampled_off cam sqrt random_in_unit_disk rec world C R Li ss g hoff
  · intro lp li lr ss r depth g
    exact ray_color_off_of_le
      { cam with light_pos := lp, light_intensity := li, light_radius := lr,
                 soft_shadow_samples := ss }
      cam sqrt random_in_unit_disk mats world hoff hoff depth.toNat
      depth r g (Int.self_le_toNat depth)

end direct_lighting_off

section winding_and_degeneracy
variable {K M : Type} [LinearOrderedField K]

theorem triangle.hit_eq_none_of_det_eq_zero (T : triangle K M) (r : ray K) (ray_t : interval K)
    (h : T.det r = 0) : T.hit r ray_t = none := by
  cases hh : T.hit r ray_t with
  | none => rfl
  | some rec => exact absurd h (triangle.det_ne_zero_of_hit hh)

theorem triangle.det_eq_zero_of_collinear (T : triangle K M) (r : ray K) (h : T.collinear) :
    T.det r = 0 := by
  obtain ⟨⟨ax, ay, az⟩, ⟨bx, b_y, bz⟩, ⟨cx, cy, cz⟩, n, m⟩ := T
  rcases h with h | ⟨s, h⟩
  · simp only [vec3.mk.injEq] at h
    obtain ⟨hx, hy, hz⟩ := h
    simp only [triangle.det, vec3.dot, vec3.cross, vec3.sub, hx, hy, hz]
    ring
  · simp only [vec3.sub, vec3.smul, vec3.mk.injEq] at h
    obtain ⟨hx, hy, hz⟩ := h
    simp only [triangle.det, vec3.dot, vec3.cross, vec3.sub, hx, hy, hz]
    ring

theorem triangle.det_eq_zero_of_parallel (T : triangle K M) (r : ray K)
    (h : T.parallel_to_plane r) : T.det r = 0 := by
  obtain ⟨a, b, h⟩ := h
  simp only [triangle.det, h, vec3.dot, vec3.cross, vec3.sub, vec3.add, vec3.smul]
  ring

/-- In exact arithmetic, `triangle.hit` returns no record whenever
`|det| < 1e-8`, so a hit (and with it every quotient by `det`) has
`|det| >= 1e-8` and `det != 0`; and it returns no record for a triangle whose
vertices are collinear or coincide, nor for a ray whose direction is
parallel to the plane of the triangle (a combination of the two edges, or
orthogonal to `cross(v1-v0, v2-v0)`): the exact `det` is then `0`.  In
binary64 the rounded `det` need not be. -/
theorem triangle_hit_det_guard_exact (T : triangle K M) (r : ray K) (ray_t : interval K) :
    (|T.det r| < 1 / 100000000 → T.hit r ray_t = none) ∧
    (∀ rec, T.hit r ray_t = some rec → 1 / 100000000 ≤ |T.det r| ∧ T.det r ≠ 0) ∧
    (T.collinear → T.hit r ray_t = none) ∧
    (T.parallel_to_plane r → T.hit r ray_t = none) ∧
    (vec3.dot r.dir (vec3.cross (vec3.sub T.v1 T.v0) (vec3.sub T.v2 T.v0)) = 0 →
      T.hit r ray_t = none) := by
  refine ⟨?_, ?_, ?_, ?_, ?_⟩
  · intro h
    cases hh : T.hit r ray_t with
    | none => rfl
    | some rec =>
      exact absurd h (not_lt.mpr ((triangle.hit_eq_some_iff T r ray_t rec).mp hh).1)
  · intro rec hh
    exact ⟨((triangle.hit_eq_some_iff T r ray_t rec).mp hh).1, triangle.det_ne_zero_of_hit hh⟩
  · intro h
    exact triangle.hit_eq_none_of_det_eq_zero T r ray_t (triangle.det_eq_zero_of_collinear T r h)
  · intro h
    exact triangle.hit_eq_none_of_det_eq_zero T r ray_t (triangle.det_eq_zero_of_parallel T r h)
  · intro h
    apply triangle.hit_eq_none_of_det_eq_zero
    rw [triangle.det_eq_neg_dot_cross, h, neg_zero]

/-- In exact arithmetic `triangle.hit` does not depend on the winding: the
triangles built from `(v0, v1, v2)` and from `(v0, v2, v1)` with the same
material answer alike for every ray and interval, and on a hit the records
agree in `t`, `p`, `mat` and `normal`.  The square root is only required to
be positive on positive numbers.  The proof rests on `det` changing sign
and `u`, `v` changing places exactly, which rounding does not respect. -/
theorem triangle_hit_winding_independent_exact (sqrt : K → K) (hsqrt : ∀ x, 0 < x → 0 < sqrt x)
    (v0 v1 v2 : vec3 K) (m : M) (r : ray K) (ray_t : interval K) :
    ((triangle.new sqrt v0 v1 v2 m).hit r ray_t).isSome
        = ((triangle.new sqrt v0 v2 v1 m).hit r ray_t).isSome ∧
    (∀ rec1 rec2, (triangle.new sqrt v0 v1 v2 m).hit r ray_t = some rec1 →
      (triangle.new sqrt v0 v2 v1 m).hit r ray_t = some rec2 →
      rec1.t = rec2.t ∧ rec1.p = rec2.p ∧ rec1.mat = rec2.mat ∧ rec1.normal = rec2.normal) := by
  have hdet : (triangle.new sqrt v0 v2 v1 m).det r = -(triangle.new sqrt v0 v1 v2 m).det r := by
    simp only [triangle.det, triangle.new, vec3.dot, vec3.cross, vec3.sub]; ring
  have hu : (triangle.new sqrt v0 v2 v1 m).bary_u r = (triangle.new sqrt v0 v1 v2 m).bary_v r := by
    simp only [triangle.bary_u, triangle.bary_v, hdet]
    simp only [triangle.det, triangle.new, vec3.dot, vec3.cross, vec3.sub]
    rw [one_div, one_div, inv_neg]
    ring
  have hv : (triangle.new sqrt v0 v2 v1 m).bary_v r = (triangle.new sqrt v0 v1 v2 m).bary_u r := by
    simp only [triangle.bary_u, triangle.bary_v, hdet]
    simp only [triangle.det, triangle.new, vec3.dot, vec3.cross, vec3.sub]
    rw [one_div, one_div, inv_neg]
    ring
  have ht : (triangle.new sqrt v0 v2 v1 m).param_t r = (triangle.new sqrt v0 v1 v2 m).param_t r := by
    simp only [triangle.param_t, hdet]
    simp only [triangle.det, triangle.new, vec3.dot, vec3.cross, vec3.sub]
    rw [one_div, one_div, inv_neg]
    ring
  have hiff : ∀ rec1, (triangle.new sqrt v0 v1 v2 m).hit r ray_t = some rec1 →
      ∃ rec2, (triangle.new sqrt v0 v2 v1 m).hit r ray_t = some rec2 := by
    intro rec1 h1
    obtain ⟨hd, hu0, hu1, hv0, huv, hs, -⟩ := (triangle.hit_eq_some_iff _ r ray_t rec1).mp h1
    refine ⟨_, (triangle.hit_eq_some_iff _ r ray_t _).mpr ⟨?_, ?_, ?_, ?_, ?_, ?_, rfl⟩⟩
    · rw [hdet, abs_neg]; exact hd
    · rw [hu]; exact hv0
    · rw [hu]; linarith
    · rw [hv]; exact hu0
    · rw [hu, hv]; linarith
    · rw [ht]; exact hs
  have hiff' : ∀ rec2, (triangle.new sqrt v0 v2 v1 m).hit r ray_t = some rec2 →
      ∃ rec1, (triangle.new sqrt v0 v1 v2 m).hit r ray_t = some rec1 := by
    intro rec2 h2
    obtain ⟨hd, hu0, hu1, hv0, huv, hs, -⟩ := (triangle.hit_eq_some_iff _ r ray_t rec2).mp h2
    rw [hdet, abs_neg] at hd
    rw [hu] at hu0 hu1 huv
    rw [hv] at hv0 huv
    rw [ht] at hs
    exact ⟨_, (triangle.hit_eq_some_iff _ r ray_t _).mpr
      ⟨hd, hv0, by linarith, hu0, by linarith, hs, rfl⟩⟩
  constructor
  · cases h1 : (triangle.new sqrt v0 v1 v2 m).hit r ray_t with
    | none =>
      cases h2 : (triangle.new sqrt v0 v2 v1 m).hit r ray_t with
      | none => rfl
      | some rec2 =>
        obtain ⟨rec1, h⟩ := hiff' rec2 h2
        rw [h1] at h; cases h
    | some rec1 =>
      obtain ⟨rec2, h⟩ := hiff rec1 h1
      rw [h]; rfl
  · intro rec1 rec2 h1 h2
    have hd1 := triangle.det_ne_zero_of_hit h1
    have hr1 := ((triangle.hit_eq_some_iff _ r ray_t rec1).mp h1).2.2.2.2.2.2
    have hr2 := ((triangle.hit_eq_some_iff _ r ray_t rec2).mp h2).2.2.2.2.2.2
    rw [hr1, hr2]
    refine ⟨ht.symm, by rw [ht], rfl, ?_⟩
    rw [triangle.det_eq_neg_dot_cross] at hd1
    simp only [triangle.new] at hd1
    have hdc : vec3.dot r.dir (vec3.cross (vec3.sub v1 v0) (vec3.sub v2 v0)) ≠ 0 := by
      intro h0; apply hd1; rw [h0, neg_zero]
    have hls := vec3.length_squared_pos_of_dot_ne_zero _ _ hdc
    have hs := hsqrt _ hls
    have hls2 : vec3.length_squared (vec3.cross (vec3.sub v2 v0) (vec3.sub v1 v0))
        = vec3.length_squared (vec3.cross (vec3.sub v1 v0) (vec3.sub v2 v0)) := by
      simp only [vec3.length_squared, vec3.cross, vec3.sub]; ring
    have hn : (triangle.new sqrt v0 v2 v1 m).n = vec3.neg (triangle.new sqrt v0 v1 v2 m).n := by
      simp only [triangle.new, vec3.unit_vector, vec3.div, vec3.length, hls2]
      apply vec3.eq_of_components <;>
      · simp only [vec3.smul, vec3.neg, vec3.cross, vec3.sub]; ring
    have hdn : vec3.dot r.dir (triangle.new sqrt v0 v1 v2 m).n ≠ 0 := by
      have : vec3.dot r.dir (triangle.new sqrt v0 v1 v2 m).n
          = (1 / sqrt (vec3.length_squared (vec3.cross (vec3.sub v1 v0) (vec3.sub v2 v0))))
            * vec3.dot r.dir (vec3.cross (vec3.sub v1 v0) (vec3.sub v2 v0)) := by
        simp only [triangle.new, vec3.unit_vector, vec3.div, vec3.length, vec3.dot, vec3.smul]
        ring
      rw [this]
      exact mul_ne_zero (one_div_ne_zero (ne_of_gt hs)) hdc
    show (set_face_normal r (triangle.new sqrt v0 v1 v2 m).n).2
      = (set_face_normal r (triangle.new sqrt v0 v2 v1 m).n).2
    rw [hn]
    generalize (triangle.new sqrt v0 v1 v2 m).n = n at hdn
    have hneg : vec3.dot r.dir (vec3.neg n) = -vec3.dot r.dir n := by
      simp only [vec3.dot, vec3.neg]; ring
    have hnn : vec3.neg (vec3.neg n) = n := by
      apply vec3.eq_of_components <;> simp [vec3.neg]
    simp only [set_face_normal, hneg]
    rcases lt_or_gt_of_ne hdn with hlt | hgt
    · have h1 : ¬ (-vec3.dot r.dir n < 0) := by linarith
      simp [hlt, h1, hnn]
    · have h1 : ¬ (vec3.dot r.dir n < 0) := by linarith
      have h2 : -vec3.dot r.dir n < 0 := by linarith
      simp [h1, h2]
end winding_and_degeneracy

/-! ## Theorems: the work-list form -/

section worklist
variable {K M G : Type} [LinearOrderedField K]

/-- The loop invariant: started with throughput `T` and accumulator `acc`,
the work-list form returns `acc + T * ray_color`. -/
theorem ray_color_worklist_loop_of_le (cam : camera K) (sqrt : K → K)
    (random_in_unit_disk : G → vec3 K × G) (mats : material K M G) (world : hittable K M)
    (n : Nat) :
    ∀ (depth : Int) (T acc : vec3 K) (r : ray K) (g : G), depth ≤ n →
      ray_color_worklist_loop cam sqrt random_in_unit_disk mats world T acc r depth g
        = (vec3.add acc
            (vec3.mul T (ray_color cam sqrt random_in_unit_disk mats world r depth g).1),
           (ray_color cam sqrt random_in_unit_disk mats world r depth g).2) := by
  induction n with
  | zero =>
    intro depth T acc r g hd
    have h0 : depth ≤ 0 := by exact_mod_cast hd
    rw [ray_color_worklist_loop, ray_color_of_nonpos _ _ _ _ _ _ _ _ h0]
    simp only [h0, if_true, Prod.mk.injEq, and_true]
    apply vec3.eq_of_components <;> simp [vec3.add, vec3.mul, vec3.zero]
  | succ n ih =>
    intro depth T acc r g hd
    rw [ray_color_worklist_loop, ray_color]
    by_cases h0 : depth ≤ 0
    · simp only [h0, if_true, Prod.mk.injEq, and_true]
      apply vec3.eq_of_components <;> simp [vec3.add, vec3.mul, vec3.zero]
    · have hd' : depth - 1 ≤ (n : Int) := by push_cast at hd; linarith
      simp only [h0, if_false]
      cases hw : world r ⟨ext.fin (1 / 1000), ext.pinf⟩ with
      | none =>
        simp only [background, Prod.mk.injEq, and_true]
      | some rec =>
        simp only
        generalize (if cam.enable_direct_lighting = true then
            direct_light_sampled cam sqrt random_in_unit_disk rec world cam.light_pos
              cam.light_radius cam.light_intensity cam.soft_shadow_samples g
          else (vec3.zero, g)) = Ld
        generalize mats.scatter rec.mat r rec Ld.2 = S
        obtain ⟨o, g1⟩ := S
        cases o with
        | none =>
          simp only [Prod.mk.injEq, and_true]
          apply vec3.eq_of_components <;>
          · simp only [vec3.add, vec3.mul]
            ring
        | some as =>
          obtain ⟨att, scattered⟩ := as
          simp only
          rw [ih _ _ _ _ _ hd']
          simp only [Prod.mk.injEq, and_true]
          apply vec3.eq_of_components <;>
          · simp only [vec3.add, vec3.mul]
            ring

/-- C17.  The recursive `ray_color` equals the iterative work-list form, in
the colour and in the generator state it leaves, for every camera, scene,
materials, ray, depth and generator state. -/
theorem ray_color_eq_worklist (cam : camera K) (sqrt : K → K)
    (random_in_unit_disk : G → vec3 K × G) (mats : material K M G) (world : hittable K M)
    (r : ray K) (depth : Int) (g : G) :
    ray_color cam sqrt random_in_unit_disk mats world r depth g
      = ray_color_worklist cam sqrt random_in_unit_disk mats world r depth g := by
  rw [ray_color_worklist,
    ray_color_worklist_loop_of_le cam sqrt random_in_unit_disk mats world depth.toNat depth _ _ r g
      (Int.self_le_toNat depth)]
  apply Prod.ext
  · apply vec3.eq_of_components <;> simp [vec3.add, vec3.mul]
  · rfl

end worklist

/-! ## Theorems: background and point light -/

section background_theorems
variable {K M G : Type} [LinearOrderedField K]

/-- An exact square root is positive on positive numbers. -/
theorem sqrt_pos_of_exact (sqrt : K → K)
    (hsqrt : ∀ x, 0 ≤ x → 0 ≤ sqrt x ∧ sqrt x * sqrt x = x) (x : K) (hx : 0 < x) :
    0 < sqrt x := by
  obtain ⟨h0, hh⟩ := hsqrt x (le_of_lt hx)
  rcases eq_or_lt_of_le h0 with h | h
  · rw [← h] at hh; simp at hh; linarith
  · exact h

/-- A non-zero vector has positive squared length. -/
theorem vec3.length_squared_pos_of_ne_zero (d : vec3 K) (hd : d ≠ ⟨0, 0, 0⟩) :
    0 < vec3.length_squared d := by
  by_contra hle
  push_neg at hle
  simp only [vec3.length_squared] at hle
  have hx : d.x * d.x = 0 := by nlinarith [mul_self_nonneg d.x, mul_self_nonneg d.y, mul_self_nonneg d.z]
  have hy : d.y * d.y = 0 := by nlinarith [mul_self_nonneg d.x, mul_self_nonneg d.y, mul_self_nonneg d.z]
  have hz : d.z * d.z = 0 := by nlinarith [mul_self_nonneg d.x, mul_self_nonneg d.y, mul_self_nonneg d.z]
  apply hd
  exact vec3.eq_of_components (mul_self_eq_zero.mp hx) (mul_self_eq_zero.mp hy)
    (mul_self_eq_zero.mp hz)

/-- With an exact square root the vertical component of the normalised
non-zero direction lies in `[-1, 1]`. -/
theorem unit_vector_y_bounds (sqrt : K → K)
    (hsqrt : ∀ x, 0 ≤ x → 0 ≤ sqrt x ∧ sqrt x * sqrt x = x) (d : vec3 K)
    (hd : d ≠ ⟨0, 0, 0⟩) :
    -1 ≤ (vec3.unit_vector sqrt d).y ∧ (vec3.unit_vector sqrt d).y ≤ 1 := by
  have hls := vec3.length_squared_pos_of_ne_zero d hd
  have hpos := sqrt_pos_of_exact sqrt hsqrt _ hls
  have hss := (hsqrt _ (le_of_lt hls)).2
  simp only [vec3.unit_vector, vec3.div, vec3.smul, vec3.length]
  have hy2 : d.y * d.y ≤ sqrt (vec3.length_squared d) * sqrt (vec3.length_squared d) := by
    rw [hss]; simp only [vec3.length_squared]
    nlinarith [mul_self_nonneg d.x, mul_self_nonneg d.z]
  have habs : |d.y| ≤ sqrt (vec3.length_squared d) := by
    apply abs_le_of_sq_le_sq' _ (le_of_lt hpos) |> fun h => abs_le.mpr h
    nlinarith
  rw [abs_le] at habs
  constructor
  · rw [one_div, le_inv_mul_iff₀ hpos]; linarith [habs.1]
  · rw [one_div, inv_mul_le_iff₀ hpos]; linarith [habs.2]

/-- Normalising a vertical direction gives `(0, 1, 0)` or `(0, -1, 0)`. -/
theorem unit_vector_vertical (sqrt : K → K)
    (hsqrt : ∀ x, 0 ≤ x → 0 ≤ sqrt x ∧ sqrt x * sqrt x = x) (k : K) (hk : 0 < k) :
    (vec3.unit_vector sqrt ⟨0, k, 0⟩).y = 1 ∧ (vec3.unit_vector sqrt ⟨0, -k, 0⟩).y = -1 := by
  have hkk : (0 : K) ≤ k * k := le_of_lt (mul_pos hk hk)
  obtain ⟨h0, hh⟩ := hsqrt (k * k) hkk
  have hs : sqrt (k * k) = k := by
    have := abs_eq_abs.mpr (mul_self_eq_mul_self_iff.mp hh)
    rwa [abs_of_nonneg h0, abs_of_pos hk] at this
  constructor
  · simp only [vec3.unit_vector, vec3.div, vec3.smul, vec3.length, vec3.length_squared,
      mul_zero, zero_add, add_zero, hs]
    field_simp
  · simp only [vec3.unit_vector, vec3.div, vec3.smul, vec3.length, vec3.length_squared,
      mul_zero, zero_add, add_zero, neg_mul_neg, hs]
    field_simp

/-- The last three statements of `ray_color`. -/
theorem ray_color_of_miss (cam : camera K) (sqrt : K → K)
    (random_in_unit_disk : G → vec3 K × G) (mats : material K M G) (world : hittable K M)
    (r : ray K) (depth : Int) (g : G) (hd : 1 ≤ depth)
    (hmiss : world r ⟨ext.fin (1 / 1000), ext.pinf⟩ = none) :
    ray_color cam sqrt random_in_unit_disk mats world r depth g
      = (vec3.add (vec3.smul (1 - (1 / 2) * ((vec3.unit_vector sqrt r.dir).y + 1)) ⟨1, 1, 1⟩)
          (vec3.smul ((1 / 2) * ((vec3.unit_vector sqrt r.dir).y + 1)) ⟨1 / 2, 7 / 10, 1⟩), g)
    := by
  rw [ray_color]
  have h0 : ¬ depth ≤ 0 := by omega
  simp only [h0, if_false, hmiss]

/-- C15.  For `depth >= 1` and a ray with non-zero direction that hits
nothing, `ray_color` returns `(1-a)*(1,1,1) + a*(0.5,0.7,1.0)` with
`a = (y + 1)/2`, `y` the vertical component of the normalised direction;
`a` lies in `[0,1]`; the result is white for a ray straight down, sky-blue
`(0.5,0.7,1.0)` for a ray straight up, and every channel lies in `[0.5, 1]`.
The square root is exact on non-negative numbers. -/
theorem ray_color_miss_background (cam : camera K) (sqrt : K → K)
    (hsqrt : ∀ x, 0 ≤ x → 0 ≤ sqrt x ∧ sqrt x * sqrt x = x)
    (random_in_unit_disk : G → vec3 K × G) (mats : material K M G) (world : hittable K M)
    (r : ray K) (depth : Int) (g : G) (hd : 1 ≤ depth) (hdir : r.dir ≠ ⟨0, 0, 0⟩)
    (hmiss : world r ⟨ext.fin (1 / 1000), ext.pinf⟩ = none) :
    (ray_color cam sqrt random_in_unit_disk mats world r depth g).1
        = vec3.add (vec3.smul (1 - ((vec3.unit_vector sqrt r.dir).y + 1) / 2) ⟨1, 1, 1⟩)
            (vec3.smul (((vec3.unit_vector sqrt r.dir).y + 1) / 2) ⟨1 / 2, 7 / 10, 1⟩) ∧
    (0 ≤ ((vec3.unit_vector sqrt r.dir).y + 1) / 2 ∧
      ((vec3.unit_vector sqrt r.dir).y + 1) / 2 ≤ 1) ∧
    (∀ k, 0 < k → r.dir = ⟨0, -k, 0⟩ →
      (ray_color cam sqrt random_in_unit_disk mats world r depth g).1 = ⟨1, 1, 1⟩) ∧
    (∀ k, 0 < k → r.dir = ⟨0, k, 0⟩ →
      (ray_color cam sqrt random_in_unit_disk mats world r depth g).1 = ⟨1 / 2, 7 / 10, 1⟩) ∧
    (1 / 2 ≤ (ray_color cam sqrt random_in_unit_disk mats world r depth g).1.x ∧
      (ray_color cam sqrt random_in_unit_disk mats world r depth g).1.x ≤ 1 ∧
      1 / 2 ≤ (ray_color cam sqrt random_in_unit_disk mats world r depth g).1.y ∧
      (ray_color cam sqrt random_in_unit_disk mats world r depth g).1.y ≤ 1 ∧
      1 / 2 ≤ (ray_color cam sqrt random_in_unit_disk mats world r depth g).1.z ∧
      (ray_color cam sqrt random_in_unit_disk mats world r depth g).1.z ≤ 1) := by
  have hb := unit_vector_y_bounds sqrt hsqrt r.dir hdir
  rw [ray_color_of_miss cam sqrt random_in_unit_disk mats world r depth g hd hmiss]
  refine ⟨?_, ⟨by linarith [hb.1], by linarith [hb.2]⟩, ?_, ?_, ?_⟩
  · apply vec3.eq_of_components <;> simp only [vec3.add, vec3.smul] <;> ring
  · intro k hk hdown
    rw [hdown, (unit_vector_vertical sqrt hsqrt k hk).2]
    apply vec3.eq_of_components <;> simp only [vec3.add, vec3.smul] <;> norm_num
  · intro k hk hup
    rw [hup, (unit_vector_vertical sqrt hsqrt k hk).1]
    apply vec3.eq_of_components <;> simp only [vec3.add, vec3.smul] <;> norm_num
  · simp only [vec3.add, vec3.smul]
    refine ⟨?_, ?_, ?_, ?_, ?_, ?_⟩ <;> linarith [hb.1, hb.2]

end background_theorems

section point_light_value
variable {K M G : Type} [LinearOrderedField K]

/-- Point light behind the surface (cosine term zero): the loop leaves the
accumulator as it is. -/
theorem direct_light_loop_point_behind (sqrt : K → K) (random_in_unit_disk : G → vec3 K × G)
    (rec : hit_record K M) (world : hittable K M) (C : vec3 K) (R : K) (Li : vec3 K)
    (hR : R ≤ 0)
    (hn : max 0 (vec3.dot rec.normal (vec3.unit_vector sqrt (vec3.sub C rec.p))) ≤ 0) (k : Nat) :
    ∀ (sum : vec3 K) (g : G),
      direct_light_loop sqrt random_in_unit_disk rec world C R Li k sum g = (sum, g) := by
  induction k with
  | zero => intro sum g; rfl
  | succ k ih =>
    intro sum g
    rw [direct_light_loop]
    simp only [sample_on_light_point _ _ _ _ hR, hn, if_true, ih]

/-- The value of `direct_light_sampled` for a point light.  With direct
lighting enabled and `light_radius <= 0` it returns the same value for every
`shadow_samples` (zero and negative counts included: the divisor is
`max(1, shadow_samples)`), namely
`light_intensity * max(0, dot(normal, unit(L - p))) / |L - p|^2` when
`visible_to_light` answers `true` and `(0,0,0)` when it answers `false`; the
generator state is untouched. -/
theorem direct_light_point_value (cam : camera K) (sqrt : K → K)
    (random_in_unit_disk : G → vec3 K × G)
    (rec : hit_record K M) (world : hittable K M) (L : vec3 K) (R : K) (Li : vec3 K)
    (hon : cam.enable_direct_lighting = true) (hR : R ≤ 0) :
    ∀ (shadow_samples : Int) (g : G),
      direct_light_sampled cam sqrt random_in_unit_disk rec world L R Li shadow_samples g
        = (if visible_to_light sqrt rec.p L world = true then
             vec3.smul (max 0 (vec3.dot rec.normal (vec3.unit_vector sqrt (vec3.sub L rec.p)))
               / vec3.length_squared (vec3.sub L rec.p)) Li
           else ⟨0, 0, 0⟩, g) := by
  intro shadow_samples g
  have hk : (0 : K) < (((max 1 shadow_samples : Int).toNat : Nat) : K) := by
    have : 0 < (max 1 shadow_samples : Int).toNat := by omega
    exact_mod_cast this
  have hcast : (((max 1 shadow_samples : Int).toNat : Nat) : K) = ((max 1 shadow_samples : Int) : K) := by
    have : (((max 1 shadow_samples : Int).toNat : Nat) : Int) = max 1 shadow_samples :=
      Int.toNat_of_nonneg (by omega)
    exact_mod_cast congrArg (fun z : Int => (z : K)) this
  rw [direct_light_sampled]
  simp only [hon, Bool.not_true, Bool.false_eq_true, if_false]
  by_cases hvis : visible_to_light sqrt rec.p L world = true
  · simp only [hvis, if_true]
    by_cases hn : 0 < max 0 (vec3.dot rec.normal (vec3.unit_vector sqrt (vec3.sub L rec.p)))
    · simp only [direct_light_loop_point_visible sqrt random_in_unit_disk rec world L R Li hR
        hvis hn, Prod.mk.injEq, and_true]
      rw [← hcast]
      apply vec3.eq_of_components <;>
      · simp only [vec3.div, vec3.smul, vec3.add, vec3.zero]
        field_simp
    · have hn' := not_lt.mp hn
      have h0 : max 0 (vec3.dot rec.normal (vec3.unit_vector sqrt (vec3.sub L rec.p))) = 0 :=
        le_antisymm hn' (le_max_left _ _)
      simp only [direct_light_loop_point_behind sqrt random_in_unit_disk rec world L R Li hR hn',
        h0, Prod.mk.injEq, and_true]
      apply vec3.eq_of_components <;> simp [vec3.div, vec3.smul, vec3.zero]
  · have hocc : visible_to_light sqrt rec.p L world = false := by
      simpa using hvis
    simp only [hocc, Bool.false_eq_true, if_false,
      direct_light_loop_point_occluded sqrt random_in_unit_disk rec world L R Li hR hocc,
      Prod.mk.injEq, and_true]
    apply vec3.eq_of_components <;> simp [vec3.div, vec3.smul, vec3.zero]

end point_light_value


/-- The point-light value at a concrete input with `shadow_samples = -2`. -/
theorem direct_light_point_value_witness :
    direct_light_sampled lit_camera Rat.sqrt (no_disk ℚ) floor_rec bias_triangle.hit
        ⟨0, 0, 1⟩ 0 ⟨7, 7, 7⟩ (-2) 0
      = (if visible_to_light Rat.sqrt floor_rec.p ⟨0, 0, 1⟩ bias_triangle.hit = true then
           vec3.smul (max 0 (vec3.dot floor_rec.normal
               (vec3.unit_vector Rat.sqrt (vec3.sub ⟨0, 0, 1⟩ floor_rec.p)))
             / vec3.length_squared (vec3.sub ⟨0, 0, 1⟩ floor_rec.p)) ⟨7, 7, 7⟩
         else ⟨0, 0, 0⟩, 0) :=
  direct_light_point_value lit_camera Rat.sqrt (no_disk ℚ) floor_rec bias_triangle.hit
    ⟨0, 0, 1⟩ 0 ⟨7, 7, 7⟩ rfl (le_refl 0) (-2) 0

/-! ## Theorems: `initialize` and `get_ray` -/

section frame_lemmas
variable {K G : Type} [LinearOrderedField K]

/-- With an exact square root, normalising a non-zero vector gives a vector
of squared length `1`. -/
theorem vec3.length_squared_unit_vector (sqrt : K → K)
    (hsqrt : ∀ x, 0 ≤ x → 0 ≤ sqrt x ∧ sqrt x * sqrt x = x) (d : vec3 K)
    (hd : d ≠ ⟨0, 0, 0⟩) : vec3.length_squared (vec3.unit_vector sqrt d) = 1 := by
  have hls := vec3.length_squared_pos_of_ne_zero d hd
  have hpos := sqrt_pos_of_exact sqrt hsqrt _ hls
  have hss := (hsqrt _ (le_of_lt hls)).2
  have h1 : vec3.length_squared (vec3.unit_vector sqrt d)
      = vec3.length_squared d / (sqrt (vec3.length_squared d) * sqrt (vec3.length_squared d)) := by
    simp only [vec3.unit_vector, vec3.div, vec3.smul, vec3.length]
    simp only [vec3.length_squared]
    field_simp
  rw [h1, hss, div_self (ne_of_gt hls)]

/-- An exact square root maps `1` to `1`. -/
theorem sqrt_one_of_exact (sqrt : K → K)
    (hsqrt : ∀ x, 0 ≤ x → 0 ≤ sqrt x ∧ sqrt x * sqrt x = x) : sqrt 1 = 1 := by
  obtain ⟨h0, hh⟩ := hsqrt 1 zero_le_one
  have := abs_eq_abs.mpr (mul_self_eq_mul_self_iff.mp (hh.trans (one_mul 1).symm))
  rwa [abs_of_nonneg h0, abs_one] at this

/-- The frame built from a unit `w` and a unit `u` orthogonal to it. -/
theorem cross_frame (w u : vec3 K) (hw : vec3.length_squared w = 1)
    (hu : vec3.length_squared u = 1) (huw : vec3.dot u w = 0) :
    vec3.length_squared (vec3.cross w u) = 1 ∧ vec3.dot u (vec3.cross w u) = 0 ∧
      vec3.dot (vec3.cross w u) w = 0 ∧ vec3.cross u (vec3.cross w u) = w := by
  simp only [vec3.length_squared] at hw hu
  simp only [vec3.dot] at huw
  refine ⟨?_, ?_, ?_, ?_⟩
  · simp only [vec3.length_squared, vec3.cross]
    linear_combination (u.x * u.x + u.y * u.y + u.z * u.z) * hw + hu
      - (u.x * w.x + u.y * w.y + u.z * w.z) * huw
  · simp only [vec3.dot, vec3.cross]; ring
  · simp only [vec3.dot, vec3.cross]; ring
  · apply vec3.eq_of_components
    · simp only [vec3.cross]
      linear_combination w.x * hu - u.x * huw
    · simp only [vec3.cross]
      linear_combination w.y * hu - u.y * huw
    · simp only [vec3.cross]
      linear_combination w.z * hu - u.z * huw

end frame_lemmas

section initialize_camera_theorems
variable {K G : Type} [LinearOrderedField K] [FloorRing K]

/-- What `initialize` leaves in the state. -/
theorem initialize_camera_eq_some (sqrt tan : K → K) (cam : camera K) (st : camera_state K)
    (h : initialize_camera sqrt tan cam = some st) :
    initialize_image_height cam.image_width cam.aspect_ratio = some st.image_height ∧
    st.center = cam.lookfrom ∧
    st.w = vec3.unit_vector sqrt (vec3.sub cam.lookfrom cam.lookat) ∧
    st.u = vec3.unit_vector sqrt (vec3.cross cam.vup st.w) ∧
    st.v = vec3.cross st.w st.u ∧
    st.pixel_delta_u = vec3.div (viewport_u tan cam st) (cam.image_width : K) ∧
    st.pixel_delta_v = vec3.div (viewport_v tan cam st) (st.image_height : K) ∧
    st.pixel00_loc = vec3.add (viewport_upper_left tan cam st)
      (vec3.smul (1 / 2) (vec3.add st.pixel_delta_u st.pixel_delta_v)) := by
  unfold initialize_camera at h
  cases hh : initialize_image_height cam.image_width cam.aspect_ratio with
  | none => rw [hh] at h; cases h
  | some image_height =>
    rw [hh] at h
    simp only [Option.some.injEq] at h
    subst h
    exact ⟨rfl, rfl, rfl, rfl, rfl, rfl, rfl, rfl⟩

/-- C14.  For `lookfrom != lookat` and `vup` not parallel to
`lookfrom - lookat`, the vectors `u`, `v`, `w` left by `initialize` form an
orthonormal right-handed basis: each has length `1`, they are pairwise
orthogonal, and `cross(u, v) = w`.  The square root is exact on non-negative
numbers. -/
theorem initialize_camera_basis_orthonormal (sqrt tan : K → K)
    (hsqrt : ∀ x, 0 ≤ x → 0 ≤ sqrt x ∧ sqrt x * sqrt x = x)
    (cam : camera K) (st : camera_state K)
    (hinit : initialize_camera sqrt tan cam = some st)
    (hlook : cam.lookfrom ≠ cam.lookat)
    (hup : vec3.cross cam.vup (vec3.sub cam.lookfrom cam.lookat) ≠ ⟨0, 0, 0⟩) :
    (vec3.length sqrt st.u = 1 ∧ vec3.length sqrt st.v = 1 ∧ vec3.length sqrt st.w = 1) ∧
    (vec3.dot st.u st.v = 0 ∧ vec3.dot st.v st.w = 0 ∧ vec3.dot st.u st.w = 0) ∧
    vec3.cross st.u st.v = st.w := by
  obtain ⟨-, -, hw, hu, hv, -, -, -⟩ := initialize_camera_eq_some sqrt tan cam st hinit
  have hd : vec3.sub cam.lookfrom cam.lookat ≠ ⟨0, 0, 0⟩ := by
    intro h0
    apply hlook
    simp only [vec3.sub, vec3.mk.injEq] at h0
    exact vec3.eq_of_components (by linarith [h0.1]) (by linarith [h0.2.1])
      (by linarith [h0.2.2])
  have hlw : vec3.length_squared st.w = 1 := by
    rw [hw]; exact vec3.length_squared_unit_vector sqrt hsqrt _ hd
  have hls := vec3.length_squared_pos_of_ne_zero _ hd
  have hpos := sqrt_pos_of_exact sqrt hsqrt _ hls
  have hc : vec3.cross cam.vup st.w ≠ ⟨0, 0, 0⟩ := by
    intro h0
    apply hup
    rw [hw] at h0
    simp only [vec3.unit_vector, vec3.div, vec3.smul, vec3.length, vec3.cross,
      vec3.mk.injEq] at h0
    obtain ⟨h1, h2, h3⟩ := h0
    have hne := ne_of_gt hpos
    apply vec3.eq_of_components
    · simp only [vec3.cross]; field_simp at h1; linarith
    · simp only [vec3.cross]; field_simp at h2; linarith
    · simp only [vec3.cross]; field_simp at h3; linarith
  have hlu : vec3.length_squared st.u = 1 := by
    rw [hu]; exact vec3.length_squared_unit_vector sqrt hsqrt _ hc
  have huw : vec3.dot st.u st.w = 0 := by
    rw [hu]
    simp only [vec3.unit_vector, vec3.div, vec3.smul, vec3.length, vec3.dot, vec3.cross]
    ring
  obtain ⟨hlv, huv, hvw, hcr⟩ := cross_frame st.w st.u hlw hlu huw
  rw [← hv] at hlv huv hvw hcr
  have h1 := sqrt_one_of_exact sqrt hsqrt
  refine ⟨⟨?_, ?_, ?_⟩, ⟨huv, hvw, huw⟩, hcr⟩
  · rw [vec3.length, hlu, h1]
  · rw [vec3.length, hlv, h1]
  · rw [vec3.length, hlw, h1]

/-- C20.  After `initialize` with `image_width >= 1`, for every pixel
`0 <= i < image_width`, `0 <= j < image_height` and random draws in `[0,1)`
(offsets in `[-0.5, 0.5)`), the sample point of `get_ray` is
`viewport_upper_left + a*viewport_u + b*viewport_v` with `0 <= a < 1` and
`0 <= b < 1`; the direction of the ray is the sample point minus its origin;
and when `defocus_angle <= 0` the origin is exactly `lookfrom`. -/
theorem get_ray_sample_in_viewport (sqrt tan : K → K) (cam : camera K) (st : camera_state K)
    (random_double : G → K × G) (random_in_unit_disk : G → vec3 K × G)
    (hinit : initialize_camera sqrt tan cam = some st) (hw : 1 ≤ cam.image_width)
    (hrand : ∀ g, 0 ≤ (random_double g).1 ∧ (random_double g).1 < 1)
    (i j : Int) (hi0 : 0 ≤ i) (hi1 : i < cam.image_width) (hj0 : 0 ≤ j)
    (hj1 : j < st.image_height) (g : G) :
    (∃ a b : K, 0 ≤ a ∧ a < 1 ∧ 0 ≤ b ∧ b < 1 ∧
      pixel_sample st i j (random_double g).1 (random_double (random_double g).2).1
        = vec3.add (vec3.add (viewport_upper_left tan cam st)
            (vec3.smul a (viewport_u tan cam st))) (vec3.smul b (viewport_v tan cam st))) ∧
    (get_ray cam st random_double random_in_unit_disk i j g).1.dir
      = vec3.sub (pixel_sample st i j (random_double g).1 (random_double (random_double g).2).1)
          (get_ray cam st random_double random_in_unit_disk i j g).1.orig ∧
    (cam.defocus_angle ≤ 0 →
      (get_ray cam st random_double random_in_unit_disk i j g).1.orig = cam.lookfrom ∧
      (get_ray cam st random_double random_in_unit_disk i j g).1.dir
        = vec3.sub (pixel_sample st i j (random_double g).1
            (random_double (random_double g).2).1) cam.lookfrom) := by
  obtain ⟨hih, hc, -, -, -, hpdu, hpdv, hp00⟩ := initialize_camera_eq_some sqrt tan cam st hinit
  have hH := initialize_image_height_ge_one _ _ _ hih
  have hWK : (0 : K) < (cam.image_width : K) := by
    have : (0 : Int) < cam.image_width := by omega
    exact_mod_cast this
  have hHK : (0 : K) < (st.image_height : K) := by
    have : (0 : Int) < st.image_height := by omega
    exact_mod_cast this
  obtain ⟨h1a, h1b⟩ := hrand g
  obtain ⟨h2a, h2b⟩ := hrand (random_double g).2
  have hiK : (0 : K) ≤ (i : K) := by exact_mod_cast hi0
  have hjK : (0 : K) ≤ (j : K) := by exact_mod_cast hj0
  have hiW : (i : K) + 1 ≤ (cam.image_width : K) := by
    have : i + 1 ≤ cam.image_width := by omega
    exact_mod_cast this
  have hjH : (j : K) + 1 ≤ (st.image_height : K) := by
    have : j + 1 ≤ st.image_height := by omega
    exact_mod_cast this
  refine ⟨⟨((i : K) + (random_double g).1) / (cam.image_width : K),
    ((j : K) + (random_double (random_double g).2).1) / (st.image_height : K),
    ?_, ?_, ?_, ?_, ?_⟩, ?_, ?_⟩
  · exact div_nonneg (by linarith) (le_of_lt hWK)
  · rw [div_lt_one hWK]; linarith
  · exact div_nonneg (by linarith) (le_of_lt hHK)
  · rw [div_lt_one hHK]; linarith
  · rw [pixel_sample, hp00, hpdu, hpdv]
    apply vec3.eq_of_components <;>
    · simp only [vec3.add, vec3.smul, vec3.div]
      field_simp
      ring
  · simp only [get_ray, pixel_sample]
  · intro hdef
    simp only [get_ray, pixel_sample, hdef, if_true, hc, and_self]

end initialize_camera_theorems


/-- The default camera over the reals initialises. -/
theorem default_camera_initialized :
    (initialize_camera Real.sqrt (fun _ => 1) (camera.default : camera ℝ)).isSome = true := by
  have hq : ((100 : Int) : ℝ) / 1 = ((100 : Int) : ℝ) := by norm_num
  have h : ⌊((100 : Int) : ℝ) / 1⌋ = 100 := by
    rw [hq, Int.floor_intCast]
  simp only [initialize_camera, initialize_image_height, double_to_int, camera.default]
  rw [h]
  norm_num

/-- C14 at the default camera, over the real numbers. -/
theorem initialize_camera_basis_orthonormal_witness :
    ∃ st, initialize_camera Real.sqrt (fun _ => 1) (camera.default : camera ℝ) = some st ∧
      (vec3.length Real.sqrt st.u = 1 ∧ vec3.length Real.sqrt st.v = 1 ∧
        vec3.length Real.sqrt st.w = 1) ∧
      (vec3.dot st.u st.v = 0 ∧ vec3.dot st.v st.w = 0 ∧ vec3.dot st.u st.w = 0) ∧
      vec3.cross st.u st.v = st.w := by
  obtain ⟨st, hst⟩ := Option.isSome_iff_exists.mp default_camera_initialized
  exact ⟨st, hst, initialize_camera_basis_orthonormal Real.sqrt (fun _ => 1)
    (fun x hx => ⟨Real.sqrt_nonneg x, Real.mul_self_sqrt hx⟩) (camera.default : camera ℝ) st hst
    (by simp [camera.default])
    (by simp [camera.default, vec3.cross, vec3.sub])⟩

/-! ## Theorems: the framebuffer and `main.cpp` -/

/-- Without overflow the slot of a pixel is `j*image_width + i`, inside the
framebuffer. -/
theorem framebuffer_index_eq (w h j i : Int) (hw : 1 ≤ w) (hfit : w * h ≤ 2147483647)
    (hj0 : 0 ≤ j) (hj1 : j < h) (hi0 : 0 ≤ i) (hi1 : i < w) :
    framebuffer_index w j i = some (j * w + i) ∧ 0 ≤ j * w + i ∧ j * w + i < w * h := by
  have h1 : 0 ≤ j * w := mul_nonneg hj0 (by omega)
  have h2 : j * w + w ≤ w * h := by nlinarith
  have h3 : j * w ≤ 2147483647 := by omega
  have h4 : j * w + i ≤ 2147483647 := by omega
  refine ⟨?_, by omega, by omega⟩
  simp only [framebuffer_index, int_mul, int_add]
  rw [if_pos ⟨by omega, h3⟩]
  simp only
  rw [if_pos ⟨by omega, h4⟩]

/-- C13, as the code has it.  For `image_width >= 1` and a product
`image_width * image_height` that fits an `int`: the framebuffer has
`image_width * image_height` slots, the slot `j*image_width + i` of every
pixel `0 <= j < image_height`, `0 <= i < image_width` lies in
`[0, image_width*image_height)`, distinct pixels get distinct slots, and
every slot belongs to a pixel. -/
theorem render_slots_bijective (image_width image_height : Int) (hw : 1 ≤ image_width)
    (hh : 0 ≤ image_height) (hfit : image_width * image_height ≤ 2147483647) :
    framebuffer_size image_width image_height = some (image_width * image_height) ∧
    (∀ j i, 0 ≤ j → j < image_height → 0 ≤ i → i < image_width →
      framebuffer_index image_width j i = some (j * image_width + i) ∧
      0 ≤ j * image_width + i ∧ j * image_width + i < image_width * image_height) ∧
    (∀ j i j2 i2, 0 ≤ j → j < image_height → 0 ≤ i → i < image_width →
      0 ≤ j2 → j2 < image_height → 0 ≤ i2 → i2 < image_width →
      framebuffer_index image_width j i = framebuffer_index image_width j2 i2 →
      j = j2 ∧ i = i2) ∧
    (∀ k, 0 ≤ k → k < image_width * image_height →
      ∃ j i, 0 ≤ j ∧ j < image_height ∧ 0 ≤ i ∧ i < image_width ∧
        framebuffer_index image_width j i = some k) := by
  refine ⟨?_, ?_, ?_, ?_⟩
  · have : 0 ≤ image_width * image_height := mul_nonneg (by omega) hh
    simp only [framebuffer_size, int_mul]
    rw [if_pos ⟨by omega, hfit⟩]
  · intro j i hj0 hj1 hi0 hi1
    exact framebuffer_index_eq image_width image_height j i hw hfit hj0 hj1 hi0 hi1
  · intro j i j2 i2 hj0 hj1 hi0 hi1 hj20 hj21 hi20 hi21 heq
    rw [(framebuffer_index_eq image_width image_height j i hw hfit hj0 hj1 hi0 hi1).1,
      (framebuffer_index_eq image_width image_height j2 i2 hw hfit hj20 hj21 hi20 hi21).1] at heq
    have heq' : j * image_width + i = j2 * image_width + i2 := Option.some.inj heq
    have hjj : j = j2 := by
      by_contra hne
      rcases lt_or_gt_of_ne hne with hlt | hgt
      · have : (j + 1) * image_width ≤ j2 * image_width :=
          mul_le_mul_of_nonneg_right (by omega) (by omega)
        nlinarith
      · have : (j2 + 1) * image_width ≤ j * image_width :=
          mul_le_mul_of_nonneg_right (by omega) (by omega)
        nlinarith
    subst hjj
    exact ⟨rfl, by omega⟩
  · intro k hk0 hk1
    have hwpos : 0 < image_width := by omega
    refine ⟨k / image_width, k % image_width, Int.ediv_nonneg hk0 (by omega), ?_,
      Int.emod_nonneg k (by omega), Int.emod_lt_of_pos k hwpos, ?_⟩
    · rw [Int.ediv_lt_iff_lt_mul hwpos]; rw [mul_comm]; exact hk1
    · have hj1 : k / image_width < image_height := by
        rw [Int.ediv_lt_iff_lt_mul hwpos]; rw [mul_comm]; exact hk1
      rw [(framebuffer_index_eq image_width image_height _ _ hw hfit
        (Int.ediv_nonneg hk0 (by omega)) hj1 (Int.emod_nonneg k (by omega))
        (Int.emod_lt_of_pos k hwpos)).1]
      congr 1
      rw [mul_comm]
      exact Int.ediv_add_emod k image_width

/-- C13 as stated fails.  `image_width = 65536` with `aspect_ratio = 1`
gives `image_height = 65536`; for the pixel in row `32768`, column `0`, the
`int` product `j*image_width = 2^31` does not fit, and neither does the
framebuffer size `image_width * image_height = 2^32`. -/
theorem render_slot_overflow :
    (1 : Int) ≤ 65536 ∧ initialize_image_height 65536 (1 : ℚ) = some 65536 ∧
    ((0 : Int) ≤ 32768 ∧ (32768 : Int) < 65536 ∧ (0 : Int) ≤ 0 ∧ (0 : Int) < 65536) ∧
    framebuffer_index 65536 32768 0 = none ∧ framebuffer_size 65536 65536 = none := by
  refine ⟨by norm_num, ?_, ⟨by norm_num, by norm_num, by norm_num, by norm_num⟩, ?_, ?_⟩
  · have h : ⌊((65536 : Int) : ℚ) / 1⌋ = 65536 := by
      rw [div_one, Int.floor_intCast]
    have h0 : (0 : ℚ) ≤ ((65536 : Int) : ℚ) / 1 := by norm_num
    simp only [initialize_image_height, double_to_int, h0, if_true, h]
    norm_num
  · simp [framebuffer_index, int_mul]
  · simp [framebuffer_size, int_mul]

/-- C13 as amended, at `image_width = 3`, `image_height = 2`. -/
theorem render_slots_bijective_witness :
    framebuffer_size 3 2 = some (3 * 2) ∧
    (∀ j i, 0 ≤ j → j < 2 → 0 ≤ i → i < 3 →
      framebuffer_index 3 j i = some (j * 3 + i) ∧
      0 ≤ j * 3 + i ∧ j * 3 + i < 3 * 2) ∧
    (∀ j i j2 i2, 0 ≤ j → j < 2 → 0 ≤ i → i < 3 →
      0 ≤ j2 → j2 < 2 → 0 ≤ i2 → i2 < 3 →
      framebuffer_index 3 j i = framebuffer_index 3 j2 i2 →
      j = j2 ∧ i = i2) ∧
    (∀ k, 0 ≤ k → k < 3 * 2 →
      ∃ j i, 0 ≤ j ∧ j < 2 ∧ 0 ≤ i ∧ i < 3 ∧
        framebuffer_index 3 j i = some k) :=
  render_slots_bijective 3 2 (by decide) (by decide) (by decide)

/-- The channel `int(255.999 * (k / 255))` for `0 <= k <= 255`: defined, and
within `[0, 255]`. -/
theorem main_channel_range (k : Int) (hk0 : 0 ≤ k) (hk1 : k ≤ 255) :
    ∃ c : Int, double_to_int ((255999 : ℚ) / 1000 * ((k : ℚ) / ((256 - 1 : Int) : ℚ))) = some c ∧
      0 ≤ c ∧ c ≤ 255 := by
  have hkq0 : (0 : ℚ) ≤ (k : ℚ) := by exact_mod_cast hk0
  have hkq1 : (k : ℚ) ≤ 255 := by exact_mod_cast hk1
  have hx0 : (0 : ℚ) ≤ (255999 : ℚ) / 1000 * ((k : ℚ) / ((256 - 1 : Int) : ℚ)) := by
    push_cast; positivity
  have hf0 : (0 : Int) ≤ ⌊(255999 : ℚ) / 1000 * ((k : ℚ) / ((256 - 1 : Int) : ℚ))⌋ :=
    Int.floor_nonneg.mpr hx0
  have hf1 : ⌊(255999 : ℚ) / 1000 * ((k : ℚ) / ((256 - 1 : Int) : ℚ))⌋ < 256 := by
    rw [Int.floor_lt]; push_cast; norm_num; linarith
  refine ⟨⌊(255999 : ℚ) / 1000 * ((k : ℚ) / ((256 - 1 : Int) : ℚ))⌋, ?_, hf0, by omega⟩
  simp only [double_to_int, hx0, if_true]
  rw [if_pos ⟨by omega, by omega⟩]

/-- Every triplet of `main` is defined, with channels in `[0, 255]`. -/
theorem main_pixel_range (i j : Int) (hi0 : 0 ≤ i) (hi1 : i ≤ 255) (hj0 : 0 ≤ j)
    (hj1 : j ≤ 255) :
    ∃ r g : Int, main_pixel 256 256 i j = some (r, g, 0) ∧ 0 ≤ r ∧ r ≤ 255 ∧ 0 ≤ g ∧ g ≤ 255 := by
  obtain ⟨r, hr, hr0, hr1⟩ := main_channel_range i hi0 hi1
  obtain ⟨g, hg, hg0, hg1⟩ := main_channel_range j hj0 hj1
  have hz : double_to_int ((255999 : ℚ) / 1000 * 0) = some 0 := by
    simp [double_to_int]
  refine ⟨r, g, ?_, hr0, hr1, hg0, hg1⟩
  simp only [main_pixel, hr, hg, hz]
  rfl

/-- The first pixel of the last row (`i = 255`, `j = 0`) is `255 0 0`. -/
theorem main_pixel_last_row : main_pixel 256 256 255 0 = some (255, 0, 0) := by
  have h1 : ⌊(255999 : ℚ) / 1000 * (((255 : Int) : ℚ) / ((256 - 1 : Int) : ℚ))⌋ = 255 := by
    rw [Int.floor_eq_iff]; norm_num
  have h1' : (0 : ℚ) ≤ (255999 : ℚ) / 1000 * (((255 : Int) : ℚ) / ((256 - 1 : Int) : ℚ)) := by
    norm_num
  have hr : double_to_int ((255999 : ℚ) / 1000 * (((255 : Int) : ℚ) / ((256 - 1 : Int) : ℚ)))
      = some 255 := by
    simp only [double_to_int, h1', if_true, h1]
    norm_num
  have hg : double_to_int ((255999 : ℚ) / 1000 * (((0 : Int) : ℚ) / ((256 - 1 : Int) : ℚ)))
      = some 0 := by
    simp [double_to_int]
  have hz : double_to_int ((255999 : ℚ) / 1000 * 0) = some 0 := by
    simp [double_to_int]
  simp only [main_pixel, hr, hg, hz]
  rfl

/-- The length of a concatenation of lists of equal length. -/
theorem length_flatMap_const {α β : Type} (l : List α) (f : α → List β) (n : Nat)
    (h : ∀ a, (f a).length = n) : (l.flatMap f).length = l.length * n := by
  induction l with
  | nil => simp
  | cons a l ih =>
    rw [List.flatMap_cons, List.length_append, h, ih, List.length_cons]
    ring

/-- C18 on the code.  `main` prints the magic word `P3`, width `256`,
height `256`, then `256*256` triplets whose channels are integers in
`[0, 255]`; but the maximum channel value its header declares is `225`, not
`255`, and the triplet `255 0 0` of the last row exceeds it. -/
theorem main_header_maxval_too_small :
    main.magic = "P3" ∧ main.width = 256 ∧ main.height = 256 ∧ main.maxval = 225 ∧
    main.pixels.length = 256 * 256 ∧
    (∀ p ∈ main.pixels, ∃ r g : Int, p = some (r, g, 0) ∧ 0 ≤ r ∧ r ≤ 255 ∧ 0 ≤ g ∧ g ≤ 255) ∧
    some (255, 0, 0) ∈ main.pixels ∧ main.maxval < 255 := by
  refine ⟨rfl, rfl, rfl, rfl, ?_, ?_, ?_, by decide⟩
  · simp only [main]
    rw [length_flatMap_const _ _ 256 (fun a => by simp)]
    simp
  · intro p hp
    simp only [main, List.mem_flatMap, List.mem_map, List.mem_range] at hp
    obtain ⟨i, hi, j, hj, hp⟩ := hp
    have hi' : i < 256 := by simpa using hi
    have hj' : j < 256 := by simpa using hj
    obtain ⟨r, g, h, hb⟩ := main_pixel_range (Int.ofNat i) (Int.ofNat j)
      (Int.ofNat_nonneg i) (by simp only [Int.ofNat_eq_coe]; omega)
      (Int.ofNat_nonneg j) (by simp only [Int.ofNat_eq_coe]; omega)
    exact ⟨r, g, by rw [← hp, h], hb⟩
  · simp only [main, List.mem_flatMap, List.mem_map, List.mem_range]
    exact ⟨255, by decide, 0, by decide, main_pixel_last_row⟩

/-! ## Evaluations on concrete data: the remaining theorems -/

/-- C11 at concrete inputs: the default camera (direct lighting off) and a
camera that differs in the four light settings. -/
theorem direct_lighting_off_light_ignored_witness :
    direct_light_sampled (camera.default : camera ℚ) Rat.sqrt (no_disk ℚ) floor_rec
        unit_triangle.hit ⟨0, 0, 1⟩ 0 ⟨7, 7, 7⟩ 4 0 = (⟨0, 0, 0⟩, 0) ∧
    ray_color { (camera.default : camera ℚ) with
          light_pos := ⟨1, 2, 3⟩, light_intensity := ⟨100, 0, 5⟩, light_radius := 2,
          soft_shadow_samples := 16 }
        Rat.sqrt (no_disk ℚ) (example_materials ℚ) unit_triangle.hit centroid_ray 3 0
      = ray_color (camera.default : camera ℚ) Rat.sqrt (no_disk ℚ) (example_materials ℚ)
          unit_triangle.hit centroid_ray 3 0 :=
  ⟨(direct_lighting_off_light_ignored (camera.default : camera ℚ) Rat.sqrt (no_disk ℚ)
      (example_materials ℚ) unit_triangle.hit rfl).1 floor_rec ⟨0, 0, 1⟩ 0 ⟨7, 7, 7⟩ 4 0,
   (direct_lighting_off_light_ignored (camera.default : camera ℚ) Rat.sqrt (no_disk ℚ)
      (example_materials ℚ) unit_triangle.hit rfl).2 ⟨1, 2, 3⟩ ⟨100, 0, 5⟩ 2 16 centroid_ray 3 0⟩

/-- The exact guard at concrete inputs: a triangle with collinear vertices,
and a ray parallel to the plane of `unit_triangle`. -/
theorem triangle_hit_det_guard_exact_witness :
    flat_triangle.hit centroid_ray ⟨ext.fin 0, ext.pinf⟩ = none ∧
    unit_triangle.hit grazing_ray ⟨ext.fin 0, ext.pinf⟩ = none ∧
    (1 / 100000000 ≤ |unit_triangle.det centroid_ray| ∧ unit_triangle.det centroid_ray ≠ 0) :=
  ⟨(triangle_hit_det_guard_exact flat_triangle centroid_ray ⟨ext.fin 0, ext.pinf⟩).2.2.1
      (Or.inr ⟨2, by norm_num [flat_triangle, triangle.new, vec3.sub, vec3.smul]⟩),
   (triangle_hit_det_guard_exact unit_triangle grazing_ray ⟨ext.fin 0, ext.pinf⟩).2.2.2.1
      ⟨1, 1, by norm_num [grazing_ray, unit_triangle, triangle.new, vec3.sub, vec3.smul,
        vec3.add]⟩,
   (triangle_hit_det_guard_exact unit_triangle centroid_ray ⟨ext.fin 0, ext.pinf⟩).2.1 centroid_rec
      unit_triangle_hit_centroid_ray⟩

/-- C15 at a concrete input over the real numbers: the empty scene and a
ray straight down. -/
theorem ray_color_miss_background_witness :
    (ray_color (camera.default : camera ℝ) Real.sqrt (no_disk ℝ) (example_materials ℝ)
        (empty_world ℝ Nat) ⟨⟨0, 0, 0⟩, ⟨0, -2, 0⟩⟩ 1 0).1 = ⟨1, 1, 1⟩ :=
  (ray_color_miss_background (camera.default : camera ℝ) Real.sqrt
    (fun x hx => ⟨Real.sqrt_nonneg x, Real.mul_self_sqrt hx⟩) (no_disk ℝ) (example_materials ℝ)
    (empty_world ℝ Nat) ⟨⟨0, 0, 0⟩, ⟨0, -2, 0⟩⟩ 1 0 (le_refl 1)
    (by simp) rfl).2.2.1 2 (by norm_num) rfl

/-- The ray aimed at the centroid of `unit_triangle`, interval `(0, 2)`. -/
theorem unit_triangle_hit_centroid_ray_bounded :
    unit_triangle.hit centroid_ray ⟨ext.fin 0, ext.fin 2⟩ = some centroid_rec := by
  simp [unit_triangle, centroid_ray, centroid_rec, triangle.hit, triangle.new, vec3.dot,
    vec3.cross, vec3.sub, vec3.unit_vector, vec3.div, vec3.smul, vec3.length,
    vec3.length_squared, interval.surrounds, ext.lt, set_face_normal, ray.at, vec3.add]
  norm_num

/-- The two windings in exact arithmetic at a concrete input:
`unit_triangle` and `unit_triangle_rev`. -/
theorem triangle_hit_winding_independent_exact_witness :
    (unit_triangle.hit centroid_ray ⟨ext.fin 0, ext.fin 2⟩).isSome
        = (unit_triangle_rev.hit centroid_ray ⟨ext.fin 0, ext.fin 2⟩).isSome ∧
    (centroid_rec.t = centroid_rec_rev.t ∧ centroid_rec.p = centroid_rec_rev.p ∧
      centroid_rec.mat = centroid_rec_rev.mat ∧ centroid_rec.normal = centroid_rec_rev.normal) :=
  ⟨(triangle_hit_winding_independent_exact Rat.sqrt rat_sqrt_pos ⟨0, 0, 0⟩ ⟨1, 0, 0⟩ ⟨0, 1, 0⟩ 0
      centroid_ray ⟨ext.fin 0, ext.fin 2⟩).1,
   (triangle_hit_winding_independent_exact Rat.sqrt rat_sqrt_pos ⟨0, 0, 0⟩ ⟨1, 0, 0⟩ ⟨0, 1, 0⟩ 0
      centroid_ray ⟨ext.fin 0, ext.fin 2⟩).2 centroid_rec centroid_rec_rev
      unit_triangle_hit_centroid_ray_bounded unit_triangle_rev_hit_centroid_ray⟩

/-- The default camera over the rationals initialises, with
`image_height = 100`. -/
theorem default_camera_initialized_rat :
    ∃ st, initialize_camera Rat.sqrt (fun _ => 1) (camera.default : camera ℚ) = some st ∧
      st.image_height = 100 := by
  have hq : ((100 : Int) : ℚ) / 1 = ((100 : Int) : ℚ) := by norm_num
  have h : ⌊((100 : Int) : ℚ) / 1⌋ = 100 := by
    rw [hq, Int.floor_intCast]
  have h0 : (0 : ℚ) ≤ ((100 : Int) : ℚ) / 1 := by norm_num
  have hh : initialize_image_height (camera.default : camera ℚ).image_width
      (camera.default : camera ℚ).aspect_ratio = some 100 := by
    simp only [initialize_image_height, double_to_int, camera.default, h0, if_true, h]
    norm_num
  simp only [initialize_camera, hh]
  exact ⟨_, rfl, rfl⟩

/-- C20 at a concrete input: the default camera, pixel `(3, 5)`, both draws
equal to `1/4`. -/
theorem get_ray_sample_in_viewport_witness :
    ∃ st, initialize_camera Rat.sqrt (fun _ => 1) (camera.default : camera ℚ) = some st ∧
      (∃ a b : ℚ, 0 ≤ a ∧ a < 1 ∧ 0 ≤ b ∧ b < 1 ∧
        pixel_sample st 3 5 (quarter_double 0).1 (quarter_double (quarter_double 0).2).1
          = vec3.add (vec3.add (viewport_upper_left (fun _ => 1) camera.default st)
              (vec3.smul a (viewport_u (fun _ => 1) camera.default st)))
              (vec3.smul b (viewport_v (fun _ => 1) camera.default st))) ∧
      (get_ray camera.default st quarter_double (no_disk ℚ) 3 5 0).1.orig
        = (camera.default : camera ℚ).lookfrom := by
  obtain ⟨st, hst, hh⟩ := default_camera_initialized_rat
  have h := get_ray_sample_in_viewport Rat.sqrt (fun _ => 1) (camera.default : camera ℚ) st
    quarter_double (no_disk ℚ) hst (by simp [camera.default])
    (fun g => by norm_num [quarter_double]) 3 5 (by norm_num)
    (by simp [camera.default]) (by norm_num) (by rw [hh]; norm_num) 0
  exact ⟨st, hst, h.1, (h.2.2 (by simp [camera.default])).1⟩

/-! ## Theorems: binary64 arithmetic -/

namespace dbl

theorem rnd_neg (x : ℚ) : rnd (-x) = neg (rnd x) := by
  rcases lt_trichotomy x 0 with h | h | h
  · have h1 : ¬ (-x = 0) := by intro h0; rw [neg_eq_zero] at h0; exact absurd h0 (ne_of_lt h)
    have h2 : ¬ (-x < 0) := by rw [neg_lt_zero]; exact not_lt.mpr (le_of_lt h)
    have h3 : ¬ (x = 0) := ne_of_lt h
    simp only [rnd, h1, h2, h3, h, if_true, if_false]
    split_ifs <;> simp [neg]
  · subst h; simp [rnd, neg]
  · have h1 : ¬ (-x = 0) := by intro h0; rw [neg_eq_zero] at h0; exact absurd h0 (ne_of_gt h)
    have h2 : -x < 0 := by rw [neg_lt_zero]; exact h
    have h3 : ¬ (x = 0) := ne_of_gt h
    have h4 : ¬ (x < 0) := not_lt.mpr (le_of_lt h)
    simp only [rnd, h1, h2, h3, h4, if_true, if_false, neg_neg]
    split_ifs <;> simp [neg]

theorem neg_twice (a : dbl) : neg (neg a) = a := by
  cases a <;> simp [neg]

theorem add_swap (a b : dbl) : add a b = add b a := by
  cases a <;> cases b <;> simp [add, add_comm]

theorem mul_swap (a b : dbl) : mul a b = mul b a := by
  cases a <;> cases b <;> simp [mul, mul_comm]

theorem add_neg_neg (a b : dbl) : add (neg a) (neg b) = neg (add a b) := by
  cases a with
  | fin x =>
    cases b with
    | fin y =>
      show rnd (-x + -y) = neg (rnd (x + y))
      rw [← rnd_neg]; congr 1; ring
    | pinf => rfl
    | ninf => rfl
    | nan => rfl
  | pinf => cases b <;> rfl
  | ninf => cases b <;> rfl
  | nan => cases b <;> rfl

theorem sub_swap (a b : dbl) : sub a b = neg (sub b a) := by
  unfold sub
  rw [← add_neg_neg, neg_twice, add_swap]

theorem mul_neg_left (a b : dbl) : mul (neg a) b = neg (mul a b) := by
  cases a with
  | fin x =>
    cases b with
    | fin y =>
      show rnd (-x * y) = neg (rnd (x * y))
      rw [← rnd_neg]; congr 1; ring
    | pinf =>
      show (if -x = 0 then nan else if 0 < -x then pinf else ninf)
        = neg (if x = 0 then nan else if 0 < x then pinf else ninf)
      rcases lt_trichotomy x 0 with h | h | h
      · have h1 : ¬ (x = 0) := ne_of_lt h
        have h2 : ¬ (0 < x) := not_lt.mpr (le_of_lt h)
        simp [h1, h2, h, neg]
      · subst h; simp [neg]
      · have h1 : ¬ (x = 0) := ne_of_gt h
        have h2 : ¬ (x < 0) := not_lt.mpr (le_of_lt h)
        simp [h1, h2, h, neg]
    | ninf =>
      show (if -x = 0 then nan else if 0 < -x then ninf else pinf)
        = neg (if x = 0 then nan else if 0 < x then ninf else pinf)
      rcases lt_trichotomy x 0 with h | h | h
      · have h1 : ¬ (x = 0) := ne_of_lt h
        have h2 : ¬ (0 < x) := not_lt.mpr (le_of_lt h)
        simp [h1, h2, h, neg]
      · subst h; simp [neg]
      · have h1 : ¬ (x = 0) := ne_of_gt h
        have h2 : ¬ (x < 0) := not_lt.mpr (le_of_lt h)
        simp [h1, h2, h, neg]
    | nan => rfl
  | pinf =>
    cases b with
    | fin y =>
      show (if y = 0 then nan else if 0 < y then ninf else pinf)
        = neg (if y = 0 then nan else if 0 < y then pinf else ninf)
      split_ifs <;> rfl
    | pinf => rfl
    | ninf => rfl
    | nan => rfl
  | ninf =>
    cases b with
    | fin y =>
      show (if y = 0 then nan else if 0 < y then pinf else ninf)
        = neg (if y = 0 then nan else if 0 < y then ninf else pinf)
      split_ifs <;> rfl
    | pinf => rfl
    | ninf => rfl
    | nan => rfl
  | nan => cases b <;> rfl

theorem mul_neg_right (a b : dbl) : mul a (neg b) = neg (mul a b) := by
  rw [mul_swap, mul_neg_left, mul_swap]

theorem mul_neg_neg (a b : dbl) : mul (neg a) (neg b) = mul a b := by
  rw [mul_neg_left, mul_neg_right, neg_twice]

theorem lt_neg_zero (a : dbl) : lt (neg a) (fin 0) = lt (fin 0) a := by
  cases a with
  | fin x => simp [neg, lt]
  | pinf => rfl
  | ninf => rfl
  | nan => rfl

theorem lt_zero_of_not_lt (a : dbl) (h0 : a ≠ fin 0) (hn : a ≠ nan)
    (h : lt a (fin 0) = false) : lt (fin 0) a = true := by
  cases a with
  | fin x =>
    simp only [lt, decide_eq_false_iff_not, not_lt, decide_eq_true_eq] at h ⊢
    exact lt_of_le_of_ne h (fun hx => h0 (by rw [← hx]))
  | pinf => rfl
  | ninf => simp [lt] at h
  | nan => exact absurd rfl hn

theorem lt_asymm (a b : dbl) (h : lt a b = true) : lt b a = false := by
  cases a with
  | fin x =>
    cases b with
    | fin y =>
      simp only [lt, decide_eq_false_iff_not, not_lt, decide_eq_true_eq] at h ⊢
      exact le_of_lt h
    | pinf => rfl
    | ninf => simp [lt] at h
    | nan => simp [lt] at h
  | pinf => cases b <;> simp [lt] at h
  | ninf => cases b <;> rfl
  | nan => cases b <;> simp [lt] at h

theorem le_of_not_lt (a b : dbl) (ha : a ≠ nan) (hb : b ≠ nan) (h : lt a b = false) :
    le b a = true := by
  cases a with
  | fin x =>
    cases b with
    | fin y =>
      simp only [lt, le, decide_eq_false_iff_not, not_lt, decide_eq_true_eq] at h ⊢
      exact h
    | pinf => simp [lt] at h
    | ninf => rfl
    | nan => exact absurd rfl hb
  | pinf => cases b <;> first | rfl | exact absurd rfl hb
  | ninf =>
    cases b with
    | fin y => simp [lt] at h
    | pinf => simp [lt] at h
    | ninf => rfl
    | nan => exact absurd rfl hb
  | nan => exact absurd rfl ha

theorem lt_nan_right (a : dbl) : lt a nan = false := by
  cases a <;> rfl

theorem mul_nan_right (a : dbl) : mul a nan = nan := by
  cases a <;> rfl

theorem abs_eq_nan (a : dbl) (h : abs a = nan) : a = nan := by
  cases a <;> simp [abs] at h ⊢

end dbl

namespace ieee

theorem vneg_twice (a : vec3 dbl) : neg (neg a) = a := by
  cases a; simp [neg, dbl.neg_twice]

theorem dot_swap (a b : vec3 dbl) : dot a b = dot b a := by
  unfold dot
  rw [dbl.mul_swap a.x b.x, dbl.mul_swap a.y b.y, dbl.mul_swap a.z b.z]

theorem dot_neg_left (a b : vec3 dbl) : dot (neg a) b = dbl.neg (dot a b) := by
  simp only [dot, neg, dbl.mul_neg_left, dbl.add_neg_neg]

theorem cross_swap (a b : vec3 dbl) : cross b a = neg (cross a b) := by
  simp only [cross, neg]
  rw [dbl.sub_swap (dbl.mul b.y a.z), dbl.sub_swap (dbl.mul b.z a.x),
    dbl.sub_swap (dbl.mul b.x a.y), dbl.mul_swap b.y a.z, dbl.mul_swap b.z a.y,
    dbl.mul_swap b.z a.x, dbl.mul_swap b.x a.z, dbl.mul_swap b.x a.y, dbl.mul_swap b.y a.x]

theorem length_squared_neg (a : vec3 dbl) : length_squared (neg a) = length_squared a := by
  simp only [length_squared, neg, dbl.mul_neg_neg]

theorem smul_neg (t : dbl) (a : vec3 dbl) : smul t (neg a) = neg (smul t a) := by
  simp only [smul, neg, dbl.mul_neg_right]

theorem unit_vector_neg (a : vec3 dbl) : unit_vector (neg a) = neg (unit_vector a) := by
  simp only [unit_vector, div, length, length_squared_neg, smul_neg]

/-- Swapping `v1` and `v2` negates the flat normal the constructor stores,
exactly: rounding is symmetric in the sign. -/
theorem triangle_new_swap_normal {M : Type} (a b c : vec3 dbl) (m : M) :
    (triangle_new a c b m).n = neg (triangle_new a b c m).n := by
  simp only [triangle_new]
  rw [cross_swap (sub b a) (sub c a), unit_vector_neg]

/-- When the computed `dot(ray.direction, n)` is a non-zero number,
`set_face_normal` leaves a normal that opposes the ray. -/
theorem face_normal_opposes (r : ray dbl) (n : vec3 dbl) (h0 : dot r.dir n ≠ dbl.fin 0)
    (hn : dot r.dir n ≠ dbl.nan) :
    dbl.lt (dot (set_face_normal r n).2 r.dir) (dbl.fin 0) = true := by
  simp only [set_face_normal]
  by_cases h : dbl.lt (dot r.dir n) (dbl.fin 0) = true
  · simp only [h, if_true]
    rw [dot_swap]; exact h
  · have hf : dbl.lt (dot r.dir n) (dbl.fin 0) = false := by simpa using h
    simp only [hf, Bool.false_eq_true, if_false]
    rw [dot_neg_left, dbl.lt_neg_zero, dot_swap]
    exact dbl.lt_zero_of_not_lt _ h0 hn hf

/-- When the computed `dot(ray.direction, n)` is a non-zero number,
`set_face_normal` leaves the same normal for `n` and for `-n`. -/
theorem face_normal_neg (r : ray dbl) (n : vec3 dbl) (h0 : dot r.dir n ≠ dbl.fin 0)
    (hn : dot r.dir n ≠ dbl.nan) :
    (set_face_normal r (neg n)).2 = (set_face_normal r n).2 := by
  have hd : dot r.dir (neg n) = dbl.neg (dot r.dir n) := by
    rw [dot_swap, dot_neg_left, dot_swap]
  simp only [set_face_normal, hd, dbl.lt_neg_zero]
  by_cases h : dbl.lt (dot r.dir n) (dbl.fin 0) = true
  · have h2 := dbl.lt_asymm _ _ h
    simp only [h, h2, if_true, Bool.false_eq_true, if_false, vneg_twice]
  · have hf : dbl.lt (dot r.dir n) (dbl.fin 0) = false := by simpa using h
    have h2 := dbl.lt_zero_of_not_lt _ h0 hn hf
    simp only [hf, h2, if_true, Bool.false_eq_true, if_false]

/-- What `triangle::hit` returning `true` means in binary64, read off the
four guards: none of the rejecting comparisons holds. -/
theorem hit_some_iff {M : Type} (T : triangle dbl M) (r : ray dbl) (ray_t : interval)
    (rec : hit_record dbl M) :
    triangle_hit T r ray_t = some rec ↔
      (dbl.lt (dbl.abs (triangle_det T r)) (dbl.rnd (1 / 100000000)) = false ∧
        dbl.lt (triangle_u T r) (dbl.fin 0) = false ∧
        dbl.lt (dbl.fin 1) (triangle_u T r) = false ∧
        dbl.lt (triangle_v T r) (dbl.fin 0) = false ∧
        dbl.lt (dbl.fin 1) (dbl.add (triangle_u T r) (triangle_v T r)) = false ∧
        ray_t.surrounds (triangle_t T r) = true ∧
        rec = { t := triangle_t T r, p := ray_at r (triangle_t T r), mat := T.mat,
                normal := (set_face_normal r T.n).2,
                front_face := (set_face_normal r T.n).1 }) := by
  unfold triangle_hit
  simp only [triangle_det, triangle_u, triangle_v, triangle_t]
  split_ifs with h1 h2 h3 h4
  · constructor
    · intro h; cases h
    · rintro ⟨h, -⟩; rw [h1] at h; cases h
  · constructor
    · intro h; cases h
    · rintro ⟨-, hu0, hu1, -⟩
      rw [hu0, hu1] at h2; cases h2
  · constructor
    · intro h; cases h
    · rintro ⟨-, -, -, hv0, huv, -⟩
      rw [hv0, huv] at h3; cases h3
  · constructor
    · intro h; cases h
    · rintro ⟨-, -, -, -, -, hs, -⟩
      rw [hs] at h4; cases h4
  · simp only [Bool.or_eq_true, not_or, Bool.not_eq_true] at h2 h3
    simp only [Bool.not_eq_true, Bool.not_eq_true', Bool.not_eq_false] at h1 h4
    constructor
    · intro h
      exact ⟨h1, h2.1, h2.2, h3.1, h3.2, h4, (Option.some.inj h).symm⟩
    · rintro ⟨-, -, -, -, -, -, hrec⟩
      rw [hrec]

/-- A NaN `det` never gives a hit: `t` is then NaN and fails
`interval::surrounds`. -/
theorem det_ne_nan_of_hit {M : Type} (T : triangle dbl M) (r : ray dbl) (ray_t : interval)
    (rec : hit_record dbl M) (h : triangle_hit T r ray_t = some rec) :
    triangle_det T r ≠ dbl.nan := by
  intro hnan
  have hs := ((hit_some_iff T r ray_t rec).mp h).2.2.2.2.2.1
  have ht : triangle_t T r = dbl.nan := by
    simp only [triangle_t, hnan]
    show dbl.mul _ (dbl.div (dbl.fin 1) dbl.nan) = dbl.nan
    exact dbl.mul_nan_right _
  simp only [interval.surrounds, ht, dbl.lt_nan_right, Bool.false_and] at hs
  cases hs

/-- The threshold `1e-8` is a positive `double`. -/
theorem epsilon_pos : dbl.lt (dbl.abs (dbl.fin 0)) (dbl.rnd (1 / 100000000)) = true := by
  decide!

end ieee

namespace dbl

theorem sub_self_of_fin (a : dbl) (h : (sub a a).is_fin = true) : sub a a = fin 0 := by
  cases a with
  | fin x => simp [sub, add, neg, rnd]
  | pinf => simp [sub, add, neg, is_fin] at h
  | ninf => simp [sub, add, neg, is_fin] at h
  | nan => simp [sub, add, neg, is_fin] at h

theorem zero_mul_of_fin (b : dbl) (hb : b.is_fin = true) : mul (fin 0) b = fin 0 := by
  cases b with
  | fin y => simp [mul, rnd]
  | pinf => simp [is_fin] at hb
  | ninf => simp [is_fin] at hb
  | nan => simp [is_fin] at hb

theorem mul_zero_of_fin (b : dbl) (hb : b.is_fin = true) : mul b (fin 0) = fin 0 := by
  rw [mul_swap]; exact zero_mul_of_fin b hb

theorem add_zero_zero : add (fin 0) (fin 0) = fin 0 := by
  simp [add, rnd]

theorem sub_mul_zero_of_fin (a b : dbl) (h : (sub (mul a (fin 0)) (mul b (fin 0))).is_fin = true) :
    sub (mul a (fin 0)) (mul b (fin 0)) = fin 0 := by
  cases a <;> cases b <;> simp [sub, mul, add, neg, rnd, is_fin] at h ⊢

end dbl

namespace ieee

theorem is_fin_components (v : vec3 dbl) (h : is_fin v = true) :
    v.x.is_fin = true ∧ v.y.is_fin = true ∧ v.z.is_fin = true := by
  simp only [is_fin, Bool.and_eq_true] at h
  exact ⟨h.1.1, h.1.2, h.2⟩

theorem vsub_self_of_fin (v : vec3 dbl) (h : is_fin (sub v v) = true) :
    sub v v = ⟨dbl.fin 0, dbl.fin 0, dbl.fin 0⟩ := by
  obtain ⟨hx, hy, hz⟩ := is_fin_components _ h
  simp only [sub] at hx hy hz ⊢
  rw [dbl.sub_self_of_fin _ hx, dbl.sub_self_of_fin _ hy, dbl.sub_self_of_fin _ hz]

theorem dot_zero_left (p : vec3 dbl) (h : is_fin p = true) :
    dot ⟨dbl.fin 0, dbl.fin 0, dbl.fin 0⟩ p = dbl.fin 0 := by
  obtain ⟨hx, hy, hz⟩ := is_fin_components _ h
  simp only [dot, dbl.zero_mul_of_fin _ hx, dbl.zero_mul_of_fin _ hy, dbl.zero_mul_of_fin _ hz,
    dbl.add_zero_zero]

theorem dot_zero_right (e : vec3 dbl) (h : is_fin e = true) :
    dot e ⟨dbl.fin 0, dbl.fin 0, dbl.fin 0⟩ = dbl.fin 0 := by
  rw [dot_swap]; exact dot_zero_left e h

theorem cross_zero_of_fin (d : vec3 dbl)
    (h : is_fin (cross d ⟨dbl.fin 0, dbl.fin 0, dbl.fin 0⟩) = true) :
    cross d ⟨dbl.fin 0, dbl.fin 0, dbl.fin 0⟩ = ⟨dbl.fin 0, dbl.fin 0, dbl.fin 0⟩ := by
  obtain ⟨hx, hy, hz⟩ := is_fin_components _ h
  simp only [cross] at hx hy hz ⊢
  rw [dbl.sub_mul_zero_of_fin _ _ hx, dbl.sub_mul_zero_of_fin _ _ hy,
    dbl.sub_mul_zero_of_fin _ _ hz]

/-- With `v1 = v0` the edge `e1` is the zero vector and the computed `det`
is exactly `0`, when nothing overflows. -/
theorem det_eq_zero_of_first_edge {M : Type} (T : triangle dbl M) (r : ray dbl)
    (hv : T.v1 = T.v0) (h1 : is_fin (sub T.v1 T.v0) = true)
    (h3 : is_fin (cross r.dir (sub T.v2 T.v0)) = true) :
    triangle_det T r = dbl.fin 0 := by
  rw [hv] at h1
  simp only [triangle_det, hv, vsub_self_of_fin _ h1]
  exact dot_zero_left _ h3

/-- With `v2 = v0` the edge `e2` and `cross(direction, e2)` are zero vectors
and the computed `det` is exactly `0`, when nothing overflows. -/
theorem det_eq_zero_of_second_edge {M : Type} (T : triangle dbl M) (r : ray dbl)
    (hv : T.v2 = T.v0) (h1 : is_fin (sub T.v1 T.v0) = true)
    (h2 : is_fin (sub T.v2 T.v0) = true)
    (h3 : is_fin (cross r.dir (sub T.v2 T.v0)) = true) :
    triangle_det T r = dbl.fin 0 := by
  rw [hv] at h2 h3
  rw [vsub_self_of_fin _ h2] at h3
  simp only [triangle_det, hv, vsub_self_of_fin _ h2, cross_zero_of_fin _ h3]
  exact dot_zero_right _ h1

end ieee

/-! ## Evaluations in binary64 -/

theorem unit_triangle_hit_down_ray :
    ieee.triangle_hit ieee.unit_triangle ieee.down_ray ieee.primary
      = some (ieee.down_rec true) := by
  decide!

theorem unit_triangle_rev_hit_down_ray :
    ieee.triangle_hit ieee.unit_triangle_rev ieee.down_ray ieee.primary
      = some (ieee.down_rec false) := by
  decide!

theorem wide_triangle_hit_inplane_ray :
    ieee.triangle_hit wide_triangle inplane_ray ieee.primary = some inplane_rec := by
  decide!

theorem wide_triangle_rev_hit_inplane_ray :
    ieee.triangle_hit wide_triangle_rev inplane_ray ieee.primary = none := by
  decide!

theorem line_triangle_hit_line_ray :
    ieee.triangle_hit line_triangle line_ray ieee.primary = some line_rec := by
  decide!

theorem edge_triangle_hit_edge_ray :
    ieee.triangle_hit edge_triangle edge_ray ieee.primary = some edge_rec := by
  decide!

theorem edge_triangle_rev_hit_edge_ray :
    ieee.triangle_hit edge_triangle_rev edge_ray ieee.primary = none := by
  decide!

theorem plain_triangle_hit_plain_ray :
    (ieee.triangle_hit plain_triangle plain_ray ieee.primary).map (fun rec => rec.t)
      = some (dbl.fin (7836972579912435 / 4503599627370496)) := by
  decide!

theorem plain_triangle_rev_hit_plain_ray :
    (ieee.triangle_hit plain_triangle_rev plain_ray ieee.primary).map (fun rec => rec.t)
      = some (dbl.fin (3918486289956217 / 2251799813685248)) := by
  decide!

/-! ## Theorems: `triangle::hit` in binary64 -/

/-- C12 as stated fails in binary64.  The vertices of `line_triangle` are
collinear (`v2 = 2 * v1`, `v0` the origin), so the exact `det` is `0` for
every ray; for `line_ray` the rounded `det` is `8`, the guard lets it pass
and `hit` returns `true`.  The direction of `inplane_ray` is
`-3 * (v1 - v0) + 3 * (v2 - v0)`, parallel to the plane of `wide_triangle`;
the rounded `det` is `-8` and `hit` returns `true`. -/
theorem triangle_hit_accepts_degenerate :
    line_triangle_exact.collinear ∧
    ieee.triangle_det line_triangle line_ray = dbl.fin 8 ∧
    ieee.triangle_hit line_triangle line_ray ieee.primary = some line_rec ∧
    wide_triangle_exact.parallel_to_plane inplane_ray_exact ∧
    ieee.triangle_det wide_triangle inplane_ray = dbl.fin (-8) ∧
    ieee.triangle_hit wide_triangle inplane_ray ieee.primary = some inplane_rec := by
  refine ⟨Or.inr ⟨2, ?_⟩, by decide!, line_triangle_hit_line_ray, ⟨-3, 3, ?_⟩, by decide!,
    wide_triangle_hit_inplane_ray⟩
  · norm_num [line_triangle_exact, line_v1, triangle.new, vec3.sub, vec3.smul]
  · norm_num [wide_triangle_exact, inplane_ray_exact, wide_v1, wide_v2, triangle.new, vec3.sub,
      vec3.smul, vec3.add]

/-- C12, amended.  In binary64, `triangle::hit` returns `false` whenever the
`det` it computed has `|det| < 1e-8`, and returns `true` only when that
`det` is a number with `|det| >= 1e-8`, so the quotient `1.0 / det` of an
accepted hit is never a quotient by zero.  When `v1` or `v2` coincides with
`v0` and the edges and `cross(direction, e2)` are finite, the computed `det`
is exactly `0` and `hit` returns `false`. -/
theorem triangle_hit_rounded_det_guard {M : Type} (T : triangle dbl M) (r : ray dbl)
    (ray_t : ieee.interval) :
    (dbl.lt (dbl.abs (ieee.triangle_det T r)) (dbl.rnd (1 / 100000000)) = true →
      ieee.triangle_hit T r ray_t = none) ∧
    (∀ rec, ieee.triangle_hit T r ray_t = some rec →
      ieee.triangle_det T r ≠ dbl.nan ∧ ieee.triangle_det T r ≠ dbl.fin 0 ∧
      dbl.le (dbl.rnd (1 / 100000000)) (dbl.abs (ieee.triangle_det T r)) = true) ∧
    (T.v1 = T.v0 ∨ T.v2 = T.v0 → ieee.is_fin (ieee.sub T.v1 T.v0) = true →
      ieee.is_fin (ieee.sub T.v2 T.v0) = true →
      ieee.is_fin (ieee.cross r.dir (ieee.sub T.v2 T.v0)) = true →
      ieee.triangle_det T r = dbl.fin 0 ∧ ieee.triangle_hit T r ray_t = none) := by
  have hnone : dbl.lt (dbl.abs (ieee.triangle_det T r)) (dbl.rnd (1 / 100000000)) = true →
      ieee.triangle_hit T r ray_t = none := by
    intro h
    cases hh : ieee.triangle_hit T r ray_t with
    | none => rfl
    | some rec =>
      have h1 := ((ieee.hit_some_iff T r ray_t rec).mp hh).1
      rw [h] at h1; cases h1
  refine ⟨hnone, ?_, ?_⟩
  · intro rec h
    have hnan := ieee.det_ne_nan_of_hit T r ray_t rec h
    have h1 := ((ieee.hit_some_iff T r ray_t rec).mp h).1
    refine ⟨hnan, ?_, ?_⟩
    · intro h0
      rw [h0, ieee.epsilon_pos] at h1; cases h1
    · apply dbl.le_of_not_lt _ _ _ _ h1
      · intro habs; exact hnan (dbl.abs_eq_nan _ habs)
      · decide!
  · intro hv h1 h2 h3
    have hdet : ieee.triangle_det T r = dbl.fin 0 := by
      rcases hv with hv | hv
      · exact ieee.det_eq_zero_of_first_edge T r hv h1 h3
      · exact ieee.det_eq_zero_of_second_edge T r hv h1 h2 h3
    refine ⟨hdet, hnone ?_⟩
    rw [hdet]; exact ieee.epsilon_pos

/-- C12 as amended, at concrete inputs: a triangle with `v1 = v0` (computed
`det` is `0`, no hit), and the unit triangle hit from above (`det` is a
non-zero number of magnitude at least `1e-8`). -/
theorem triangle_hit_rounded_det_guard_witness :
    ieee.triangle_hit needle_triangle ieee.down_ray ieee.primary = none ∧
    (ieee.triangle_det ieee.unit_triangle ieee.down_ray ≠ dbl.nan ∧
      ieee.triangle_det ieee.unit_triangle ieee.down_ray ≠ dbl.fin 0 ∧
      dbl.le (dbl.rnd (1 / 100000000))
        (dbl.abs (ieee.triangle_det ieee.unit_triangle ieee.down_ray)) = true) ∧
    (ieee.triangle_det needle_triangle ieee.down_ray = dbl.fin 0 ∧
      ieee.triangle_hit needle_triangle ieee.down_ray ieee.primary = none) :=
  ⟨(triangle_hit_rounded_det_guard needle_triangle ieee.down_ray ieee.primary).1 (by decide!),
   (triangle_hit_rounded_det_guard ieee.unit_triangle ieee.down_ray ieee.primary).2.1 _
     unit_triangle_hit_down_ray,
   (triangle_hit_rounded_det_guard needle_triangle ieee.down_ray ieee.primary).2.2
     (Or.inl rfl) (by decide!) (by decide!) (by decide!)⟩

/-- C1 as stated fails in binary64.  `inplane_ray` lies in the plane of
`wide_triangle`; `hit` returns `true` and stores a normal whose computed dot
product with the ray direction is `0`, not negative, and whose exact dot
product with it is positive.  For the collinear `line_triangle` `hit`
returns `true` and the stored normal is NaN in every component. -/
theorem triangle_hit_normal_not_opposed :
    ieee.triangle_hit wide_triangle inplane_ray ieee.primary = some inplane_rec ∧
    ieee.dot inplane_rec.normal inplane_ray.dir = dbl.fin 0 ∧
    dbl.lt (ieee.dot inplane_rec.normal inplane_ray.dir) (dbl.fin 0) = false ∧
    0 < vec3.dot (ieee.to_rat inplane_rec.normal) inplane_ray_exact.dir ∧
    ieee.triangle_hit line_triangle line_ray ieee.primary = some line_rec ∧
    line_rec.normal = ⟨dbl.nan, dbl.nan, dbl.nan⟩ ∧
    dbl.lt (ieee.dot line_rec.normal line_ray.dir) (dbl.fin 0) = false := by
  refine ⟨wide_triangle_hit_inplane_ray, by decide!, by decide!, ?_,
    line_triangle_hit_line_ray, rfl, by decide!⟩
  norm_num [inplane_rec, inplane_ray_exact, ieee.to_rat, dbl.to_rat, vec3.dot]

/-- C1, amended.  In binary64, whenever `triangle::hit` returns `true` the
stored normal is the flat normal `n` when the computed
`dot(ray.direction, n)` is negative and `-n` otherwise; it satisfies
`dot(rec.normal, ray.direction) < 0` whenever the computed
`dot(ray.direction, n)` is a number other than zero.  This holds for every
stored `n`, so for either winding. -/
theorem triangle_hit_normal_orientation {M : Type} (T : triangle dbl M) (r : ray dbl)
    (ray_t : ieee.interval) (rec : hit_record dbl M)
    (h : ieee.triangle_hit T r ray_t = some rec) :
    rec.normal
      = (if dbl.lt (ieee.dot r.dir T.n) (dbl.fin 0) = true then T.n else ieee.neg T.n) ∧
    (ieee.dot r.dir T.n ≠ dbl.fin 0 → ieee.dot r.dir T.n ≠ dbl.nan →
      dbl.lt (ieee.dot rec.normal r.dir) (dbl.fin 0) = true) := by
  have hrec := ((ieee.hit_some_iff T r ray_t rec).mp h).2.2.2.2.2.2
  rw [hrec]
  exact ⟨rfl, ieee.face_normal_opposes r T.n⟩

/-- C1 as amended, at a concrete input: the unit triangle hit from above. -/
theorem triangle_hit_normal_orientation_witness :
    ieee.triangle_hit ieee.unit_triangle ieee.down_ray ieee.primary
      = some (ieee.down_rec true) ∧
    dbl.lt (ieee.dot (ieee.down_rec true).normal ieee.down_ray.dir) (dbl.fin 0) = true :=
  ⟨unit_triangle_hit_down_ray,
   (triangle_hit_normal_orientation ieee.unit_triangle ieee.down_ray ieee.primary
     (ieee.down_rec true) unit_triangle_hit_down_ray).2 (by decide!) (by decide!)⟩

/-- C2 as stated fails in binary64.  For `wide_triangle` and `inplane_ray`
`hit` returns `true` with computed weights `u = v = 0`, for which
`v0 + u*(v1-v0) + v*(v2-v0)` is the origin, while the recorded point is
`(-476815, -1892584, 1161846)`.  That point is the point of the plane with
weights `(-1, 6)` and no others; and the ray lies in the plane with
`u + v = 5` all along its line, so no point of the ray is in the closed
triangle. -/
theorem triangle_hit_point_outside_triangle :
    ieee.triangle_hit wide_triangle inplane_ray ieee.primary = some inplane_rec ∧
    ieee.triangle_u wide_triangle inplane_ray = dbl.fin 0 ∧
    ieee.triangle_v wide_triangle inplane_ray = dbl.fin 0 ∧
    ieee.add
        (ieee.add wide_triangle.v0
          (ieee.smul (ieee.triangle_u wide_triangle inplane_ray)
            (ieee.sub wide_triangle.v1 wide_triangle.v0)))
        (ieee.smul (ieee.triangle_v wide_triangle inplane_ray)
          (ieee.sub wide_triangle.v2 wide_triangle.v0))
      = ieee.of_rat ⟨0, 0, 0⟩ ∧
    inplane_rec.p = ieee.of_rat ⟨-476815, -1892584, 1161846⟩ ∧
    ieee.of_rat ⟨-476815, -1892584, 1161846⟩ ≠ ieee.of_rat ⟨0, 0, 0⟩ ∧
    (∀ a b : ℚ, wide_triangle_exact.plane_point a b = ⟨-476815, -1892584, 1161846⟩ ↔
      a = -1 ∧ b = 6) ∧
    (∀ t a b : ℚ, inplane_ray_exact.at t = wide_triangle_exact.plane_point a b →
      a + b = 5) := by
  refine ⟨wide_triangle_hit_inplane_ray, by decide!, by decide!, by decide!, rfl, by decide!,
    ?_, ?_⟩
  · intro a b
    simp only [wide_triangle_exact, wide_v1, wide_v2, triangle.new, triangle.plane_point,
      vec3.add, vec3.smul, vec3.sub, vec3.mk.injEq]
    constructor
    · rintro ⟨h1, h2, h3⟩
      constructor <;> linarith
    · rintro ⟨rfl, rfl⟩
      norm_num
  · intro t a b h
    simp only [wide_triangle_exact, inplane_ray_exact, wide_v1, wide_v2, triangle.new,
      triangle.plane_point, ray.at, vec3.add, vec3.smul, vec3.sub, vec3.mk.injEq] at h
    obtain ⟨h1, h2, h3⟩ := h
    linarith

/-- C2, amended.  In binary64, whenever `triangle::hit` returns `true` the
record holds `rec.t = t` and `rec.p = ray.at(rec.t)`, and the computed
weights have passed the four tests of the code: none of `u < 0`, `u > 1`,
`v < 0`, `u + v > 1` holds, so that `0 <= u <= 1`, `0 <= v` and
`u + v <= 1` whenever these are numbers; and a ray for which one of the four
tests holds reports no hit. -/
theorem triangle_hit_weights_in_range {M : Type} (T : triangle dbl M) (r : ray dbl)
    (ray_t : ieee.interval) :
    (∀ rec, ieee.triangle_hit T r ray_t = some rec →
      rec.t = ieee.triangle_t T r ∧ rec.p = ieee.ray_at r rec.t ∧
      dbl.lt (ieee.triangle_u T r) (dbl.fin 0) = false ∧
      dbl.lt (dbl.fin 1) (ieee.triangle_u T r) = false ∧
      dbl.lt (ieee.triangle_v T r) (dbl.fin 0) = false ∧
      dbl.lt (dbl.fin 1) (dbl.add (ieee.triangle_u T r) (ieee.triangle_v T r)) = false ∧
      (ieee.triangle_u T r ≠ dbl.nan →
        dbl.le (dbl.fin 0) (ieee.triangle_u T r) = true ∧
        dbl.le (ieee.triangle_u T r) (dbl.fin 1) = true) ∧
      (ieee.triangle_v T r ≠ dbl.nan → dbl.le (dbl.fin 0) (ieee.triangle_v T r) = true) ∧
      (dbl.add (ieee.triangle_u T r) (ieee.triangle_v T r) ≠ dbl.nan →
        dbl.le (dbl.add (ieee.triangle_u T r) (ieee.triangle_v T r)) (dbl.fin 1) = true)) ∧
    (dbl.lt (ieee.triangle_u T r) (dbl.fin 0) = true ∨
      dbl.lt (dbl.fin 1) (ieee.triangle_u T r) = true ∨
      dbl.lt (ieee.triangle_v T r) (dbl.fin 0) = true ∨
      dbl.lt (dbl.fin 1) (dbl.add (ieee.triangle_u T r) (ieee.triangle_v T r)) = true →
      ieee.triangle_hit T r ray_t = none) := by
  have hfin0 : dbl.fin 0 ≠ dbl.nan := by intro h; cases h
  have hfin1 : dbl.fin 1 ≠ dbl.nan := by intro h; cases h
  constructor
  · intro rec h
    obtain ⟨-, hu0, hu1, hv0, huv, -, hrec⟩ := (ieee.hit_some_iff T r ray_t rec).mp h
    refine ⟨by rw [hrec], by rw [hrec], hu0, hu1, hv0, huv, ?_, ?_, ?_⟩
    · intro hn
      exact ⟨dbl.le_of_not_lt _ _ hn hfin0 hu0, dbl.le_of_not_lt _ _ hfin1 hn hu1⟩
    · intro hn
      exact dbl.le_of_not_lt _ _ hn hfin0 hv0
    · intro hn
      exact dbl.le_of_not_lt _ _ hfin1 hn huv
  · intro hc
    cases hh : ieee.triangle_hit T r ray_t with
    | none => rfl
    | some rec =>
      obtain ⟨-, hu0, hu1, hv0, huv, -, -⟩ := (ieee.hit_some_iff T r ray_t rec).mp hh
      rcases hc with hc | hc | hc | hc
      · rw [hu0] at hc; cases hc
      · rw [hu1] at hc; cases hc
      · rw [hv0] at hc; cases hc
      · rw [huv] at hc; cases hc

/-- C2 as amended, at concrete inputs: the unit triangle hit from above
at `(1/4, 1/4, 0)`, and `edge_triangle` with the winding for which the
computed `u + v` exceeds `1`. -/
theorem triangle_hit_weights_in_range_witness :
    (ieee.down_rec true).t = ieee.triangle_t ieee.unit_triangle ieee.down_ray ∧
    (ieee.down_rec true).p = ieee.ray_at ieee.down_ray (ieee.down_rec true).t ∧
    dbl.le (dbl.fin 0) (ieee.triangle_u ieee.unit_triangle ieee.down_ray) = true ∧
    dbl.le (ieee.triangle_u ieee.unit_triangle ieee.down_ray) (dbl.fin 1) = true ∧
    dbl.le (dbl.fin 0) (ieee.triangle_v ieee.unit_triangle ieee.down_ray) = true ∧
    dbl.le (dbl.add (ieee.triangle_u ieee.unit_triangle ieee.down_ray)
      (ieee.triangle_v ieee.unit_triangle ieee.down_ray)) (dbl.fin 1) = true ∧
    ieee.triangle_hit edge_triangle_rev edge_ray ieee.primary = none :=
  have h := (triangle_hit_weights_in_range ieee.unit_triangle ieee.down_ray ieee.primary).1 _
    unit_triangle_hit_down_ray
  ⟨h.1, h.2.1, (h.2.2.2.2.2.2.1 (by decide!)).1, (h.2.2.2.2.2.2.1 (by decide!)).2,
   h.2.2.2.2.2.2.2.1 (by decide!), h.2.2.2.2.2.2.2.2 (by decide!),
   (triangle_hit_weights_in_range edge_triangle_rev edge_ray ieee.primary).2 (by decide!)⟩

/-- C19 as stated fails in binary64.  `edge_ray` meets `edge_triangle` at its
edge `v1 v2`, to within rounding: with the winding `(v0, v1, v2)` `hit`
returns `true`, with `(v0, v2, v1)` it returns `false`.  The same happens
for `wide_triangle` and `inplane_ray`.  For `plain_triangle` and `plain_ray`
both windings return `true`, with values of `rec.t` that differ in the last
place. -/
theorem triangle_hit_winding_dependent :
    ieee.triangle_hit edge_triangle edge_ray ieee.primary = some edge_rec ∧
    ieee.triangle_hit edge_triangle_rev edge_ray ieee.primary = none ∧
    ieee.triangle_hit wide_triangle inplane_ray ieee.primary = some inplane_rec ∧
    ieee.triangle_hit wide_triangle_rev inplane_ray ieee.primary = none ∧
    (ieee.triangle_hit plain_triangle plain_ray ieee.primary).map (fun rec => rec.t)
      = some (dbl.fin (7836972579912435 / 4503599627370496)) ∧
    (ieee.triangle_hit plain_triangle_rev plain_ray ieee.primary).map (fun rec => rec.t)
      = some (dbl.fin (3918486289956217 / 2251799813685248)) ∧
    (7836972579912435 / 4503599627370496 : ℚ) ≠ 3918486289956217 / 2251799813685248 :=
  ⟨edge_triangle_hit_edge_ray, edge_triangle_rev_hit_edge_ray, wide_triangle_hit_inplane_ray,
   wide_triangle_rev_hit_inplane_ray, plain_triangle_hit_plain_ray,
   plain_triangle_rev_hit_plain_ray, by norm_num⟩

/-- C19, amended.  In binary64 the triangles `(v0, v1, v2)` and
`(v0, v2, v1)` with one material store exactly opposite flat normals, and
whenever both report a hit for a ray the two records hold the same
`rec.mat`, and the same `rec.normal` when the computed
`dot(ray.direction, n)` is a number other than zero. -/
theorem triangle_hit_winding_normal {M : Type} (a b c : vec3 dbl) (m : M) (r : ray dbl)
    (ray_t : ieee.interval) :
    (ieee.triangle_new a c b m).n = ieee.neg (ieee.triangle_new a b c m).n ∧
    ∀ rec rec2, ieee.triangle_hit (ieee.triangle_new a b c m) r ray_t = some rec →
      ieee.triangle_hit (ieee.triangle_new a c b m) r ray_t = some rec2 →
      rec.mat = rec2.mat ∧
      (ieee.dot r.dir (ieee.triangle_new a b c m).n ≠ dbl.fin 0 →
        ieee.dot r.dir (ieee.triangle_new a b c m).n ≠ dbl.nan →
        rec.normal = rec2.normal) := by
  refine ⟨ieee.triangle_new_swap_normal a b c m, ?_⟩
  intro rec rec2 h1 h2
  have hrec := ((ieee.hit_some_iff _ r ray_t rec).mp h1).2.2.2.2.2.2
  have hrec2 := ((ieee.hit_some_iff _ r ray_t rec2).mp h2).2.2.2.2.2.2
  rw [hrec, hrec2]
  refine ⟨rfl, ?_⟩
  intro h0 hn
  show (ieee.set_face_normal r (ieee.triangle_new a b c m).n).2
    = (ieee.set_face_normal r (ieee.triangle_new a c b m).n).2
  rw [ieee.triangle_new_swap_normal a b c m, ieee.face_normal_neg r _ h0 hn]

/-- C19 as amended, at a concrete input: the two windings of the unit
triangle, hit from above. -/
theorem triangle_hit_winding_normal_witness :
    ieee.unit_triangle_rev.n = ieee.neg ieee.unit_triangle.n ∧
    (ieee.down_rec true).mat = (ieee.down_rec false).mat ∧
    (ieee.down_rec true).normal = (ieee.down_rec false).normal :=
  have h := triangle_hit_winding_normal (ieee.of_rat ⟨0, 0, 0⟩) (ieee.of_rat ⟨1, 0, 0⟩)
    (ieee.of_rat ⟨0, 1, 0⟩) (0 : Nat) ieee.down_ray ieee.primary
  ⟨h.1, (h.2 _ _ unit_triangle_hit_down_ray unit_triangle_rev_hit_down_ray).1,
   (h.2 _ _ unit_triangle_hit_down_ray unit_triangle_rev_hit_down_ray).2
     (by decide!) (by decide!)⟩

/-! ## Theorems: non-negative colours -/

section checked_theorems
variable {K M G : Type} [LinearOrderedField K]

/-- Normalising the zero vector in the field gives the zero vector. -/
theorem unit_vector_zero (sqrt : K → K) :
    vec3.unit_vector sqrt (⟨0, 0, 0⟩ : vec3 K) = ⟨0, 0, 0⟩ := by
  simp [vec3.unit_vector, vec3.div, vec3.smul]

/-- The loop of `direct_light_sampled` in the field agrees with the loop
that follows C++ at `Ls = rec.p`: the field's value `0` of the cosine and
the C++ value `std::max(0.0, NaN) = 0.0` both end the iteration. -/
theorem direct_light_loop_checked_eq (sqrt : K → K) (random_in_unit_disk : G → vec3 K × G)
    (rec : hit_record K M) (world : hittable K M) (C : vec3 K) (R : K) (Li : vec3 K) (k : Nat) :
    ∀ (sum : vec3 K) (g : G),
      direct_light_loop_checked sqrt random_in_unit_disk rec world C R Li k sum g
        = direct_light_loop sqrt random_in_unit_disk rec world C R Li k sum g := by
  induction k with
  | zero => intro sum g; rfl
  | succ k ih =>
    intro sum g
    rw [direct_light_loop_checked, direct_light_loop]
    simp only [ih]
    split_ifs with h0 h1 <;> first | rfl | skip
    · rw [h0, unit_vector_zero] at h1
      exact absurd (by simp [vec3.dot]) h1

theorem ray_color_checked_of_le (cam : camera K) (sqrt : K → K)
    (hsqrt : ∀ x, 0 ≤ x → 0 ≤ sqrt x ∧ sqrt x * sqrt x = x)
    (random_in_unit_disk : G → vec3 K × G) (mats : material K M G) (world : hittable K M)
    (hem : ∀ m, (mats.emitted m).nonneg)
    (hatt : ∀ m r rec g att sc, (mats.scatter m r rec g).1 = some (att, sc) → att.nonneg)
    (hsc : ∀ r rec g att sc, world r ⟨ext.fin (1 / 1000), ext.pinf⟩ = some rec →
      (mats.scatter rec.mat r rec g).1 = some (att, sc) → sc.dir ≠ ⟨0, 0, 0⟩)
    (hLi : cam.light_intensity.nonneg) (n : Nat) :
    ∀ (depth : Int) (r : ray K) (g : G), depth ≤ n → r.dir ≠ ⟨0, 0, 0⟩ →
      ray_color_checked cam sqrt random_in_unit_disk mats world r depth g
          = (some (ray_color cam sqrt random_in_unit_disk mats world r depth g).1,
             (ray_color cam sqrt random_in_unit_disk mats world r depth g).2) ∧
        (ray_color cam sqrt random_in_unit_disk mats world r depth g).1.nonneg := by
  induction n with
  | zero =>
    intro depth r g hd _
    have h0 : depth ≤ 0 := by exact_mod_cast hd
    rw [ray_color_checked, ray_color]
    simp only [h0, if_true]
    exact ⟨trivial, vec3.nonneg_zero⟩
  | succ n ih =>
    intro depth r g hd hdir
    rw [ray_color_checked, ray_color]
    by_cases h0 : depth ≤ 0
    · simp only [h0, if_true]
      exact ⟨trivial, vec3.nonneg_zero⟩
    · simp only [h0, if_false]
      have hld : ∀ (rec : hit_record K M) (g : G), (if cam.enable_direct_lighting = true then
            direct_light_sampled cam sqrt random_in_unit_disk rec world cam.light_pos
              cam.light_radius cam.light_intensity cam.soft_shadow_samples g
          else (vec3.zero, g)).1.nonneg := by
        intro rec g
        split_ifs
        · exact direct_light_sampled_nonneg _ _ _ _ _ _ _ _ hLi _ _
        · exact vec3.nonneg_zero
      cases hw : world r ⟨ext.fin (1 / 1000), ext.pinf⟩ with
      | none =>
        simp only [hdir, if_false]
        refine ⟨trivial, ?_⟩
        apply background_nonneg
        have := (unit_vector_y_bounds sqrt hsqrt r.dir hdir).2
        linarith
      | some rec =>
        simp only
        generalize hLd : (if cam.enable_direct_lighting = true then
            direct_light_sampled cam sqrt random_in_unit_disk rec world cam.light_pos
              cam.light_radius cam.light_intensity cam.soft_shadow_samples g
          else (vec3.zero, g)) = Ld
        have hLdn : Ld.1.nonneg := by rw [← hLd]; exact hld rec g
        cases hs : (mats.scatter rec.mat r rec Ld.2).1 with
        | none =>
          simp only
          exact ⟨trivial, vec3.nonneg_add (hem _) hLdn⟩
        | some as =>
          obtain ⟨att, sc⟩ := as
          simp only
          have hd1 : depth - 1 ≤ (n : Int) := by push_cast at hd; linarith
          obtain ⟨hc, hcn⟩ := ih (depth - 1) sc (mats.scatter rec.mat r rec Ld.2).2 hd1
            (hsc r rec Ld.2 att sc hw hs)
          rw [hc]
          refine ⟨rfl, ?_⟩
          exact vec3.nonneg_add (vec3.nonneg_add (hem _) (vec3.nonneg_mul (hatt _ _ _ _ _ _ hs) hcn))
            (vec3.nonneg_mul (hatt _ _ _ _ _ _ hs) hLdn)

/-- C8, amended.  Materials with non-negative emission and attenuation that
scatter, at every hit the scene reports, a ray with a non-zero direction; a
camera with non-negative `light_intensity`: for every ray with a non-zero
direction, every depth and generator state, the colour returned by
`ray_color` is a number in every channel (no quotient by a zero length is
formed) and every channel is `>= 0`; and every channel of the colour
returned by `direct_light_sampled` is `>= 0` for every non-negative
intensity passed to it.  The square root is exact on non-negative numbers. -/
theorem ray_color_channels_nonneg_of_direction (cam : camera K) (sqrt : K → K)
    (hsqrt : ∀ x, 0 ≤ x → 0 ≤ sqrt x ∧ sqrt x * sqrt x = x)
    (random_in_unit_disk : G → vec3 K × G) (mats : material K M G) (world : hittable K M)
    (hem : ∀ m, (mats.emitted m).nonneg)
    (hatt : ∀ m r rec g att sc, (mats.scatter m r rec g).1 = some (att, sc) → att.nonneg)
    (hsc : ∀ r rec g att sc, world r ⟨ext.fin (1 / 1000), ext.pinf⟩ = some rec →
      (mats.scatter rec.mat r rec g).1 = some (att, sc) → sc.dir ≠ ⟨0, 0, 0⟩)
    (hLi : cam.light_intensity.nonneg) :
    (∀ (r : ray K) (depth : Int) (g : G), r.dir ≠ ⟨0, 0, 0⟩ →
      (ray_color_checked cam sqrt random_in_unit_disk mats world r depth g).1
          = some (ray_color cam sqrt random_in_unit_disk mats world r depth g).1 ∧
        (ray_color cam sqrt random_in_unit_disk mats world r depth g).1.nonneg) ∧
    (∀ (rec : hit_record K M) (C : vec3 K) (R : K) (Li : vec3 K) (shadow_samples : Int) (g : G),
      Li.nonneg →
      direct_light_loop_checked sqrt random_in_unit_disk rec world C R Li
          (max 1 shadow_samples).toNat vec3.zero g
        = direct_light_loop sqrt random_in_unit_disk rec world C R Li
          (max 1 shadow_samples).toNat vec3.zero g ∧
      (direct_light_sampled cam sqrt random_in_unit_disk rec world C R Li shadow_samples g).1.nonneg)
    := by
  constructor
  · intro r depth g hdir
    obtain ⟨hc, hcn⟩ := ray_color_checked_of_le cam sqrt hsqrt random_in_unit_disk mats
      world hem hatt hsc hLi depth.toNat depth r g (Int.self_le_toNat depth) hdir
    exact ⟨by rw [hc], hcn⟩
  · intro rec C R Li shadow_samples g hLi2
    exact ⟨direct_light_loop_checked_eq sqrt random_in_unit_disk rec world C R Li _ _ _,
      direct_light_sampled_nonneg cam sqrt random_in_unit_disk rec world C R Li hLi2
        shadow_samples g⟩

end checked_theorems

/-- C8 as stated fails.  A ray with the zero direction in the empty scene:
`ray_color` reaches `unit_vector(r.direction())` with the zero vector, and
the colour it returns is NaN in every channel, which is not `>= 0`.  The
second part evaluates these last three statements of `ray_color` in
binary64. -/
theorem ray_color_zero_direction_nan :
    (ray_color_checked (camera.default : camera ℚ) Rat.sqrt (no_disk ℚ) (example_materials ℚ)
      (empty_world ℚ Nat) ⟨⟨0, 0, 0⟩, ⟨0, 0, 0⟩⟩ 1 0).1 = none ∧
    ieee.background ⟨ieee.of_rat ⟨0, 0, 0⟩, ieee.of_rat ⟨0, 0, 0⟩⟩
      = ⟨dbl.nan, dbl.nan, dbl.nan⟩ ∧
    dbl.le (dbl.fin 0) dbl.nan = false := by
  refine ⟨?_, by decide!, rfl⟩
  rw [ray_color_checked]
  simp [empty_world]

/-- The flat normal of the unit triangle over the reals. -/
theorem real_unit_triangle_normal :
    (triangle.new Real.sqrt (⟨0, 0, 0⟩ : vec3 ℝ) ⟨1, 0, 0⟩ ⟨0, 1, 0⟩ (0 : Nat)).n = ⟨0, 0, 1⟩ := by
  simp [triangle.new, vec3.unit_vector, vec3.div, vec3.smul, vec3.length, vec3.length_squared,
    vec3.cross, vec3.sub]

/-- The example materials scatter along the normal, which is `(0,0,1)` or
`(0,0,-1)` at every hit of the unit triangle. -/
theorem example_materials_scatter_direction (r : ray ℝ) (rec : hit_record ℝ Nat) (g : Nat)
    (att : vec3 ℝ) (sc : ray ℝ)
    (hw : (triangle.new Real.sqrt (⟨0, 0, 0⟩ : vec3 ℝ) ⟨1, 0, 0⟩ ⟨0, 1, 0⟩ (0 : Nat)).hit r
      ⟨ext.fin (1 / 1000), ext.pinf⟩ = some rec)
    (hs : ((example_materials ℝ).scatter rec.mat r rec g).1 = some (att, sc)) :
    sc.dir ≠ ⟨0, 0, 0⟩ := by
  have hrec := ((triangle.hit_eq_some_iff _ _ _ _).mp hw).2.2.2.2.2.2
  have hn : rec.normal = (set_face_normal r ⟨0, 0, 1⟩).2 := by
    rw [hrec, real_unit_triangle_normal]
  simp only [example_materials] at hs
  split_ifs at hs
  simp only [Option.some.injEq, Prod.mk.injEq] at hs
  rw [← hs.2]
  simp only [hn, set_face_normal]
  split_ifs <;> simp [vec3.neg]

/-- C8 as amended, at concrete inputs, over the real numbers with the real
square root: the default camera, the example materials and a one-triangle
scene. -/
theorem ray_color_channels_nonneg_of_direction_witness :
    ((ray_color_checked (camera.default : camera ℝ) Real.sqrt (no_disk ℝ) (example_materials ℝ)
        (triangle.new Real.sqrt ⟨0, 0, 0⟩ ⟨1, 0, 0⟩ ⟨0, 1, 0⟩ 0).hit
        ⟨⟨1 / 3, 1 / 3, 1⟩, ⟨0, 0, -1⟩⟩ 5 0).1
      = some (ray_color (camera.default : camera ℝ) Real.sqrt (no_disk ℝ) (example_materials ℝ)
        (triangle.new Real.sqrt ⟨0, 0, 0⟩ ⟨1, 0, 0⟩ ⟨0, 1, 0⟩ 0).hit
        ⟨⟨1 / 3, 1 / 3, 1⟩, ⟨0, 0, -1⟩⟩ 5 0).1 ∧
      (ray_color (camera.default : camera ℝ) Real.sqrt (no_disk ℝ) (example_materials ℝ)
        (triangle.new Real.sqrt ⟨0, 0, 0⟩ ⟨1, 0, 0⟩ ⟨0, 1, 0⟩ 0).hit
        ⟨⟨1 / 3, 1 / 3, 1⟩, ⟨0, 0, -1⟩⟩ 5 0).1.nonneg) ∧
    (direct_light_sampled (camera.default : camera ℝ) Real.sqrt (no_disk ℝ)
        ⟨⟨0, 0, 0⟩, ⟨0, 0, 1⟩, 0, 1, true⟩
        (triangle.new Real.sqrt ⟨0, 0, 0⟩ ⟨1, 0, 0⟩ ⟨0, 1, 0⟩ 0).hit
        ⟨0, 0, 1⟩ 0 ⟨7, 7, 7⟩ 3 0).1.nonneg :=
  have h := ray_color_channels_nonneg_of_direction (camera.default : camera ℝ) Real.sqrt
    (fun x hx => ⟨Real.sqrt_nonneg x, Real.mul_self_sqrt hx⟩) (no_disk ℝ) (example_materials ℝ)
    (triangle.new Real.sqrt ⟨0, 0, 0⟩ ⟨1, 0, 0⟩ ⟨0, 1, 0⟩ 0).hit
    (example_materials_emitted_nonneg ℝ) (example_materials_attenuation_nonneg ℝ)
    example_materials_scatter_direction
    (by norm_num [camera.default, vec3.nonneg])
  ⟨h.1 _ 5 0 (by simp), (h.2 _ _ 0 ⟨7, 7, 7⟩ 3 0 (by norm_num [vec3.nonneg])).2⟩

/-! ## Evaluations: the point light behind which a triangle lies -/

/-- The shadow ray from the origin towards the light at `(0,0,2)` is
answered by the triangle at `z = 3`. -/
theorem occluded_far_triangle :
    visible_to_light Rat.sqrt floor_rec.p ⟨0, 0, 2⟩ far_triangle.hit = false := by
  simp [visible_to_light, floor_rec, far_triangle, triangle.hit, triangle.new, vec3.dot,
    vec3.cross, vec3.sub, vec3.unit_vector, vec3.div, vec3.smul, vec3.length,
    vec3.length_squared, interval.surrounds, ext.lt, set_face_normal, ray.at, vec3.add]
  norm_num

/-- C16 on the code.  Direct lighting enabled, a point light of intensity
`(7,7,7)` at `L = (0,0,2)`, the hit point `p` at the origin with normal
`(0,0,1)`, and one triangle in the plane `z = 3`.  The light is visible from
`p`: the ray from `p` towards `L` reaches `L` at parameter `1` and meets the
triangle only at parameter `3/2`, at `(0,0,3)`, beyond the light.  The value
the claim gives for a visible light is `(7,7,7) * 1 / 4`; for every
`shadow_samples`, `direct_light_sampled` returns `(0,0,0)`. -/
theorem direct_light_zero_beyond_light :
    lit_camera.enable_direct_lighting = true ∧
    (⟨floor_rec.p, vec3.sub ⟨0, 0, 2⟩ floor_rec.p⟩ : ray ℚ).at 1 = ⟨0, 0, 2⟩ ∧
    (∀ ray_t rec, far_triangle.hit ⟨floor_rec.p, vec3.sub ⟨0, 0, 2⟩ floor_rec.p⟩ ray_t = some rec →
      rec.t = 3 / 2 ∧ rec.p = ⟨0, 0, 3⟩) ∧
    vec3.smul (max 0 (vec3.dot floor_rec.normal
        (vec3.unit_vector Rat.sqrt (vec3.sub ⟨0, 0, 2⟩ floor_rec.p)))
      / vec3.length_squared (vec3.sub ⟨0, 0, 2⟩ floor_rec.p)) (⟨7, 7, 7⟩ : vec3 ℚ)
      = ⟨7 / 4, 7 / 4, 7 / 4⟩ ∧
    ∀ shadow_samples : Int,
      (direct_light_sampled lit_camera Rat.sqrt (no_disk ℚ) floor_rec far_triangle.hit
        ⟨0, 0, 2⟩ 0 ⟨7, 7, 7⟩ shadow_samples 0).1 = ⟨0, 0, 0⟩ := by
  refine ⟨rfl, ?_, ?_, ?_, ?_⟩
  · norm_num [floor_rec, ray.at, vec3.add, vec3.smul, vec3.sub]
  · intro ray_t rec h
    have hrec := ((triangle.hit_eq_some_iff _ _ _ _).mp h).2.2.2.2.2.2
    rw [hrec]
    norm_num [far_triangle, floor_rec, triangle.new, triangle.param_t, triangle.det, ray.at,
      vec3.dot, vec3.cross, vec3.sub, vec3.add, vec3.smul]
  · simp [floor_rec, vec3.unit_vector, vec3.div, vec3.smul, vec3.length,
      vec3.length_squared, vec3.sub, vec3.dot, Rat.sqrt_eq]
    norm_num
  · intro shadow_samples
    rw [direct_light_point_value lit_camera Rat.sqrt (no_disk ℚ) floor_rec far_triangle.hit
      ⟨0, 0, 2⟩ 0 ⟨7, 7, 7⟩ rfl (le_refl 0) shadow_samples 0]
    simp [occluded_far_triangle]

end Raytracer
